import Mathlib

/-!
Verification of superpixel-benchmark: the post-processing pipeline of the command-line tools.

Shallow embedding of the eleven `*_cli/main.cpp` tools and of the `SuperpixelTools`
post-processing core they call (connectivity splitter, size enforcer, canonicalizer,
geometry planner), followed by the theorems about them.
-/

namespace SuperpixelBenchmark

/-! ## Definitions -/

/-- Pixel position, as (row, column). -/
abbrev Pixel := Nat × Nat

/-- Label map: a `rows × cols` grid of integer labels held in one flat row-major buffer
(`cv::Mat` of type `CV_32SC1`); pixel `(i, j)` lives at index `i * cols + j`. -/
structure LabelMap where
  rows : Nat
  cols : Nat
  data : List Int
deriving DecidableEq

/-- Label stored at a pixel (`labels.at<int>(i, j)`). -/
def LabelMap.get (L : LabelMap) (p : Pixel) : Int := L.data.getD (p.1 * L.cols + p.2) 0

/-- The pixel lies inside the grid. -/
def LabelMap.inBounds (L : LabelMap) (p : Pixel) : Prop := p.1 < L.rows ∧ p.2 < L.cols

instance (L : LabelMap) (p : Pixel) : Decidable (L.inBounds p) := by
  unfold LabelMap.inBounds; infer_instance

/-- All pixels of the grid in row-major scan order. -/
def LabelMap.pixels (L : LabelMap) : List Pixel :=
  (List.range (L.rows * L.cols)).map (fun k => (k / L.cols, k % L.cols))

/-- Label map of the same dimensions whose pixel `p` carries `f p`. -/
def LabelMap.tabulate (L : LabelMap) (f : Pixel → Int) : LabelMap :=
  { rows := L.rows, cols := L.cols, data := L.pixels.map f }

/-- Horizontal or vertical adjacency of two pixels (4-connectivity, no diagonals). -/
def adjacent4 (p q : Pixel) : Prop :=
  (p.1 = q.1 ∧ (p.2 + 1 = q.2 ∨ q.2 + 1 = p.2)) ∨ (p.2 = q.2 ∧ (p.1 + 1 = q.1 ∨ q.1 + 1 = p.1))

instance (p q : Pixel) : Decidable (adjacent4 p q) := by
  unfold adjacent4; infer_instance

/-- The up, down, left and right neighbours of a pixel that lie inside the grid. -/
def neighbours4 (L : LabelMap) (p : Pixel) : List Pixel :=
  ((if 0 < p.1 then [(p.1 - 1, p.2)] else []) ++ [(p.1 + 1, p.2)] ++
    (if 0 < p.2 then [(p.1, p.2 - 1)] else []) ++ [(p.1, p.2 + 1)]).filter
    (fun q => decide (L.inBounds q))

/-- The in-grid 4-neighbours of a pixel that carry the same label as the pixel. -/
def sameLabelNeighbours (L : LabelMap) (p : Pixel) : List Pixel :=
  (neighbours4 L p).filter (fun q => decide (L.get q = L.get p))

/-- Modelled from the spec: the work stack of the flood fill of the ConnectivitySplitter
(not under src/): pop a pixel, skip it when already filled, otherwise add it to the fill and
push its neighbours. -/
def fillAux (nbrs : Pixel → List Pixel) : Nat → List Pixel → List Pixel → List Pixel
  | 0, _, filled => filled
  | _ + 1, [], filled => filled
  | n + 1, p :: stack, filled =>
      if p ∈ filled then fillAux nbrs n stack filled
      else fillAux nbrs n (nbrs p ++ stack) (p :: filled)

/-- Modelled from the spec: the 4-connectivity flood fill over same-original-label pixels
that `SuperpixelTools::relabelConnectedSuperpixels` (not under src/) performs from a seed
pixel.  Every pixel is pushed at most once per neighbour, so `4 * rows * cols + 1` pops
empty the stack. -/
def floodFill (L : LabelMap) (seed : Pixel) : List Pixel :=
  fillAux (sameLabelNeighbours L) (4 * (L.rows * L.cols) + 1) [seed] []

/-- Modelled from the spec: scan state of the ConnectivitySplitter (not under src/): the
component id written so far at each pixel (`none` = not yet visited) and the next unused
component id. -/
structure SplitState where
  ids : Pixel → Option Nat
  next : Nat

/-- Modelled from the spec: one step of the ConnectivitySplitter's row-major scan (not under
src/): an unvisited pixel starts a flood fill whose pixels all receive the next sequential
component id and become visited. -/
def splitStep (L : LabelMap) (st : SplitState) (p : Pixel) : SplitState :=
  match st.ids p with
  | some _ => st
  | none =>
      let comp := floodFill L p
      { ids := fun q => if q ∈ comp then some st.next else st.ids q, next := st.next + 1 }

/-- Modelled from the spec: the ConnectivitySplitter's scan over all pixels in row-major
order (not under src/). -/
def splitScan (L : LabelMap) : SplitState :=
  L.pixels.foldl (splitStep L) { ids := fun _ => none, next := 0 }

/-- Modelled from the spec: `SuperpixelTools::relabelConnectedSuperpixels`
(ConnectivitySplitter), whose body is not under src/.  Scans the pixels in row-major order;
each pixel not yet visited starts a 4-connectivity flood fill over same-original-label
pixels, and the fill receives a new sequential component id.  Returns the relabelled map and
the number of components produced. -/
def relabelConnectedSuperpixels (L : LabelMap) : LabelMap × Nat :=
  let st := splitScan L
  (L.tabulate (fun p => ((st.ids p).getD 0 : Nat)), st.next)

/-- One step along a 4-path that stays on one label. -/
def SameStep (L : LabelMap) (p q : Pixel) : Prop :=
  adjacent4 p q ∧ L.inBounds q ∧ L.get q = L.get p

/-- Two pixels are joined by a 4-path of pixels all carrying one label. -/
def Connected (L : LabelMap) (p q : Pixel) : Prop :=
  Relation.ReflTransGen (SameStep L) p q

/-- Number of pixels of the universe `U` not yet in `filled`. -/
def unfilled (U filled : List Pixel) : Nat := (U.filter (fun q => decide (q ∉ filled))).length

/-- Invariant of the splitter scan: visited pixels are in the grid, the ids in use are
exactly `0 .. next-1`, and the pixels carrying one id are exactly one same-label
4-component. -/
structure SplitInv (L : LabelMap) (st : SplitState) : Prop where
  inb : ∀ p k, st.ids p = some k → L.inBounds p
  lt : ∀ p k, st.ids p = some k → k < st.next
  surj : ∀ k, k < st.next → ∃ p, st.ids p = some k
  comp : ∀ p k, st.ids p = some k → ∀ q, st.ids q = some k ↔ Connected L p q

/-- A set of pixels is 4-connected: any two of its pixels are joined by a path of
horizontally or vertically adjacent pixels that never leaves the set. -/
def FourConnected (S : Pixel → Prop) : Prop :=
  ∀ p q, S p → S q → Relation.ReflTransGen (fun a b => adjacent4 a b ∧ S b) p q

/-- The pixels of the grid that carry label `l`. -/
def LabelMap.region (M : LabelMap) (l : Int) : Pixel → Prop :=
  fun p => M.inBounds p ∧ M.get p = l

/-- The distinct label values occurring in the map. -/
def LabelMap.labels (L : LabelMap) : List Int := (L.pixels.map L.get).dedup

/-- Number of pixels carrying label `l`. -/
def LabelMap.size (L : LabelMap) (l : Int) : Nat := (L.pixels.map L.get).count l

/-- A 4x4 map in which label 7 occupies two 2x2 blocks that touch only diagonally. -/
def diagonalBlocks : LabelMap := ⟨4, 4, [7,7,0,0, 7,7,0,0, 0,0,7,7, 0,0,7,7]⟩

/-- Modelled from the spec: the Canonicalizer's row-major scan (not under src/).  `seen`
lists the input labels met so far, in the order they were first met; a label already met
receives its position in `seen`, a new label receives the next unused id and is appended. -/
def relabelScan : List Int → List Int → List Int
  | _, [] => []
  | seen, x :: xs =>
      if x ∈ seen then (seen.indexOf x : Int) :: relabelScan seen xs
      else (seen.length : Int) :: relabelScan (seen ++ [x]) xs

/-- Table of the labels met, in first-met order, after the scan of a sequence. -/
def scanTable : List Int → List Int → List Int
  | seen, [] => seen
  | seen, x :: xs => if x ∈ seen then scanTable seen xs else scanTable (seen ++ [x]) xs

/-- Modelled from the spec: `SuperpixelTools::relabelSuperpixels` (Canonicalizer), whose body
is not under src/.  Renumbers the labels to `0 .. K-1`, ids assigned in the order in which
each label is first encountered during a row-major scan. -/
def relabelSuperpixels (L : LabelMap) : LabelMap :=
  { rows := L.rows, cols := L.cols, data := relabelScan [] (L.pixels.map L.get) }

/-- Dense and order-consistent sequence: every entry is either an id already in use
(`0 ≤ x < k`) or the next unused id `k`. -/
def CanonicalFrom : Nat → List Int → Prop
  | _, [] => True
  | k, x :: xs => (0 ≤ x ∧ x < k ∧ CanonicalFrom k xs) ∨ (x = k ∧ CanonicalFrom (k + 1) xs)

/-- Modelled from the spec: the neighbours of a component in the SizeEnforcer (not under
src/), as the labels met across its boundary: one entry for every pair of a component pixel
and an in-grid 4-neighbour of it that carries another label. -/
def boundaryLabels (M : LabelMap) (comp : List Pixel) : List Int :=
  comp.flatMap (fun c =>
    ((neighbours4 M c).filter (fun x => decide (M.get x ≠ M.get c))).map M.get)

/-- Modelled from the spec: shared boundary length between a component and the neighbouring
label `b`, the number of 4-adjacent pixel pairs across the boundary (SizeEnforcer, not under
src/). -/
def boundaryLength (M : LabelMap) (comp : List Pixel) (b : Int) : Nat :=
  (boundaryLabels M comp).count b

/-- Modelled from the spec: the SizeEnforcer's merge preference (not under src/): neighbour
`b` is preferred to neighbour `a` when it has the longer shared boundary, or the same length
and a lower label id. -/
def betterNeighbour (bl : List Int) (b a : Int) : Prop :=
  bl.count a < bl.count b ∨ (bl.count a = bl.count b ∧ b < a)

instance (bl : List Int) (b a : Int) : Decidable (betterNeighbour bl b a) := by
  unfold betterNeighbour; infer_instance

/-- Modelled from the spec: one step of the SizeEnforcer's neighbour selection (not under
src/): keep the preferred of the best so far and the next boundary label. -/
def pickBetter (bl : List Int) (best : Option Int) (b : Int) : Option Int :=
  match best with
  | none => some b
  | some a => if betterNeighbour bl b a then some b else some a

/-- Modelled from the spec: the neighbour the SizeEnforcer merges into (not under src/):
the one with the largest shared boundary length, ties broken by the lowest label id; `none`
when there is no neighbour. -/
def bestNeighbour (bl : List Int) : Option Int :=
  bl.foldl (pickBetter bl) none

/-- Modelled from the spec: the SizeEnforcer's reassignment of all pixels of `comp` to
label `b` (not under src/). -/
def mergeInto (M : LabelMap) (comp : List Pixel) (b : Int) : LabelMap :=
  M.tabulate (fun q => if q ∈ comp then b else M.get q)

/-- Modelled from the spec: the SizeEnforcer's merge (not under src/) of the component of
`p`, found by flood fill on the current map, when it has fewer than `m` pixels and has a
neighbour: all its pixels are reassigned to the chosen neighbour's label. -/
def mergeComponent (M : LabelMap) (p : Pixel) (m : Int) : Option LabelMap :=
  if ((floodFill M p).length : Int) < m then
    (bestNeighbour (boundaryLabels M (floodFill M p))).map (mergeInto M (floodFill M p))
  else none

/-- Modelled from the spec: one step of the SizeEnforcer's scan for label id `k` (not under
src/): a pixel that currently carries `k` has its component merged when undersized; sizes
are re-evaluated on the current map. -/
def enforceStep (m : Int) (k : Int) (st : LabelMap × Nat) (p : Pixel) : LabelMap × Nat :=
  if st.1.get p = k then
    match mergeComponent st.1 p m with
    | some M' => (M', st.2 + 1)
    | none => st
  else st

/-- Modelled from the spec: the SizeEnforcer's turn of one label id (not under src/): the
components carrying that id are met in row-major order. -/
def enforceLabel (m : Int) (pix : List Pixel) (st : LabelMap × Nat) (k : Int) :
    LabelMap × Nat :=
  pix.foldl (enforceStep m k) st

/-- Modelled from the spec: the residual count reported by the SizeEnforcer (not under
src/): the number of components of the map with fewer than `m` pixels. -/
def undersizedComponents (M : LabelMap) (m : Int) : Nat :=
  ((List.range (relabelConnectedSuperpixels M).2).filter
    (fun (k : Nat) =>
      decide (((relabelConnectedSuperpixels M).1.size (Int.ofNat k) : Int) < m))).length

/-- Modelled from the spec: output of the SizeEnforcer (not under src/): the updated label
map, the number of merges performed and the number of components left undersized. -/
structure EnforceResult where
  labels : LabelMap
  merged : Nat
  residual : Nat
deriving DecidableEq

/-- Modelled from the spec: `SuperpixelTools::enforceMinimumSuperpixelSize` (SizeEnforcer),
whose body is not under src/.  One pass over the label ids of the input in ascending order;
each connected component (maximal 4-connected set of one label, on the current map) with
fewer than `minSize` pixels is merged into the neighbouring label with the largest shared
boundary length (ties: lowest label id).  The pass always ends and reports the merges
performed and the components left undersized. -/
def enforceMinimumSuperpixelSize (L : LabelMap) (minSize : Int) : EnforceResult :=
  let st := (L.labels.insertionSort (· ≤ ·)).foldl (enforceLabel minSize L.pixels) (L, 0)
  { labels := st.1, merged := st.2, residual := undersizedComponents st.1 minSize }

/-- A 3-pixel component (label 1) fully surrounded by one larger component (label 0). -/
def surrounded : LabelMap := ⟨3, 5, [0,0,0,0,0, 0,1,1,1,0, 0,0,0,0,0]⟩

/-- The component of `q` is big enough: it has at least `m` pixels, or it is the whole
grid. -/
def BigEnough (m : Int) (M : LabelMap) (q : Pixel) : Prop :=
  m ≤ ((floodFill M q).length : Int) ∨ M.rows * M.cols ≤ (floodFill M q).length

/-- Invariant of the enforcement scan over a start map `L₀`: the dimensions are kept, every
label in use is a label of `L₀`, and every pixel whose label is already processed (`P`), or
is the current label `k` at an already scanned pixel (`D`), lies in a big-enough
component. -/
structure EnfInv (m : Int) (L₀ : LabelMap) (P : Int → Prop) (k : Int) (D : Pixel → Prop)
    (M : LabelMap) : Prop where
  rows : M.rows = L₀.rows
  cols : M.cols = L₀.cols
  labels : ∀ q, M.inBounds q → ∃ q', L₀.inBounds q' ∧ M.get q = L₀.get q'
  big : ∀ q, M.inBounds q → (P (M.get q) ∨ (M.get q = k ∧ D q)) → BigEnough m M q

/-- Image (`cv::Mat` of type `CV_8UC3`): dimensions and the pixel colours in row-major
order. -/
structure Image where
  rows : Nat
  cols : Nat
  data : List (Nat × Nat × Nat)
deriving DecidableEq

/-- Modelled from the spec: error kinds of the core (InvalidInput). -/
inductive CoreError where
  | invalidInput
deriving DecidableEq

/-- Modelled from the spec: `SuperpixelTools::computeRegionSizeFromSuperpixels`
(GeometryPlanner `regionSize(W,H,K)`), whose body is not under src/.  The side length `r` of
a square region with `r ≈ sqrt(W·H / K)`, rounded to the nearest integer and kept `≥ 1`;
`K ≤ 0` or `W·H = 0` fails with an InvalidInput error.  `(Nat.sqrt (4n / K) + 1) / 2` is
`sqrt (n / K)` rounded to the nearest integer (halves up). -/
def computeRegionSizeFromSuperpixels (image : Image) (superpixels : Int) :
    Except CoreError Nat :=
  if superpixels ≤ 0 ∨ image.rows * image.cols = 0 then .error .invalidInput
  else .ok (max 1 ((Nat.sqrt (4 * (image.rows * image.cols) / superpixels.toNat) + 1) / 2))

/-- The integer `r` is a nearest integer to the real `x`. -/
def IsNearestInt (r : Int) (x : ℝ) : Prop := ∀ s : Int, |(r : ℝ) - x| ≤ |(s : ℝ) - x|

/-- Argument value handed to a segmentation algorithm. -/
inductive Value where
  | int (i : Int)
  | real (q : Rat)
  | bool (b : Bool)
deriving DecidableEq

/-- The parsed command line (`boost::program_options::variables_map`, defaults applied):
whether `--help` and `--fair` are present, the `input` option (which has no default), the
two output paths, and the integer- and real-valued options by long name. -/
structure Args where
  help : Bool
  fair : Bool
  input : Option String
  oc : String
  om : String
  int : String → Int
  real : String → Rat

/-- The collaborators a tool calls and whose bodies are not under src/: image decoding, the
`SuperpixelTools` functions, the segmentation algorithms (`segment`, by name, with the
arguments after the image; `seedsLabels` for the label arrays SEEDS and reSEEDS expose) and
the visualization. -/
structure World where
  imread : String → Image
  computeRegionSizeFromSuperpixels : Image → Int → Except CoreError Int
  computeHeightWidthFromSuperpixels : Image → Int → Except CoreError (Int × Int)
  computeRegionSizeLevels : Image → Int → Int → Int → Except CoreError (Int × Int)
  computeHeightWidthLevelsFromSuperpixels :
    Image → Int → Int → Int → Int → Except CoreError (Int × Int × Int)
  relabelConnectedSuperpixels : LabelMap → LabelMap × Int
  enforceMinimumSuperpixelSizeUpTo : Image → LabelMap → Int → LabelMap × Int
  enforceMinimumSuperpixelSize : Image → LabelMap → Int → LabelMap × Int
  relabelSuperpixels : LabelMap → LabelMap
  gaussianBlur : Image → Int → Rat → Image
  segment : String → Image → List Value → LabelMap
  seedsLabels : Image → List Value → List (List Int)
  drawContours : Image → LabelMap → Image
  drawMeans : Image → LabelMap → Image

/-- What a run does, in order: output on stdout, files read and written, and every call of a
collaborator with its arguments. -/
inductive Event where
  | printOptions
  | stdout (text : String)
  | imread (path : String)
  | computeRegionSizeFromSuperpixels (image : Image) (superpixels : Int)
  | computeHeightWidthFromSuperpixels (image : Image) (superpixels : Int)
  | computeRegionSizeLevels (image : Image) (superpixels : Int)
  | computeHeightWidthLevelsFromSuperpixels (image : Image) (superpixels : Int)
  | gaussianBlur (image : Image) (size : Int) (sigma : Rat)
  | segment (algorithm : String) (image : Image) (args : List Value)
  | relabelConnectedSuperpixels (labels : LabelMap)
  | enforceMinimumSuperpixelSizeUpTo (image : Image) (labels : LabelMap) (number : Int)
  | enforceMinimumSuperpixelSize (image : Image) (labels : LabelMap) (size : Int)
  | relabelSuperpixels (labels : LabelMap)
  | drawContours (canvas : Image) (labels : LabelMap)
  | drawMeans (image : Image) (labels : LabelMap)
  | imwrite (path : String) (image : Image)
deriving DecidableEq

/-- How a run ends: `main` returns a status, an exception leaves `main` uncaught, or the
behaviour is undefined (out-of-range read or conversion). -/
inductive Outcome where
  | exit (status : Int)
  | uncaught
  | undefined
deriving DecidableEq

/-- A run of a tool: how it ended and what it did. -/
structure Run where
  outcome : Outcome
  events : List Event
deriving DecidableEq

/-- Canvas `cv::Mat::zeros(cv::Size(image.cols, image.rows), CV_8UC3)`. -/
def blackImage (image : Image) : Image :=
  { rows := image.rows, cols := image.cols,
    data := List.replicate (image.rows * image.cols) (0, 0, 0) }

/-- The common tail of every `main`: contours drawn on a black canvas and written to `oc`,
then mean colours drawn on the image and written to `om`, then `return 0`. -/
def visualize (w : World) (a : Args) (image : Image) (labels : LabelMap)
    (before : List Event) : Run :=
  let blackima := blackImage image
  let image_contours := w.drawContours blackima labels
  let image_means := w.drawMeans image labels
  { outcome := .exit 0,
    events := before ++ [.drawContours blackima labels, .imwrite a.oc image_contours,
      .drawMeans image labels, .imwrite a.om image_means] }

/-- Sum of two C++ `int` values; `none` when the sum leaves the range of `int` (signed
overflow, undefined in C++). -/
def addInt (x y : Int) : Option Int :=
  if -(2 ^ 31) ≤ x + y ∧ x + y < 2 ^ 31 then some (x + y) else none

/-- The variables `labels`, `unconnected_components` and `merged_components` of `main` in
src/ccs_cli/main.cpp after line 78. -/
structure CcsLocals where
  labels : LabelMap
  unconnected_components : Int
  merged_components : Int

/-- Lines 76-78 of src/ccs_cli/main.cpp: the three calls on `labels`, in order, and the
variables afterwards (`none` when `merged_components +=` overflows). -/
def ccs_postprocess (w : World) (image : Image) (labels₀ : LabelMap) :
    List Event × Option CcsLocals :=
  let r₁ := w.relabelConnectedSuperpixels labels₀
  let unconnected_components := r₁.2
  let r₂ := w.enforceMinimumSuperpixelSizeUpTo image r₁.1 unconnected_components
  let merged_components := r₂.2
  let r₃ := w.enforceMinimumSuperpixelSizeUpTo image r₂.1 unconnected_components
  ([.relabelConnectedSuperpixels labels₀,
    .enforceMinimumSuperpixelSizeUpTo image r₁.1 unconnected_components,
    .enforceMinimumSuperpixelSizeUpTo image r₂.1 unconnected_components],
   (addInt merged_components r₃.2).map (fun merged_components =>
     { labels := r₃.1, unconnected_components := unconnected_components,
       merged_components := merged_components }))

/-- Model of `main` in src/ccs_cli/main.cpp. -/
def ccs_cli (w : World) (a : Args) : Run :=
  if a.help then ⟨.exit 1, [.printOptions]⟩ else
  match a.input with
  | none => ⟨.uncaught, []⟩
  | some inputfile =>
    let superpixels := a.int "superpixels"
    let compactness := a.int "compactness"
    let iterations := a.int "iterations"
    let color_space_int := a.int "color-space"
    let lab : Bool := decide (color_space_int > 0)
    let image := w.imread inputfile
    let ev := [Event.imread inputfile, .computeRegionSizeFromSuperpixels image superpixels]
    match w.computeRegionSizeFromSuperpixels image superpixels with
    | .error _ => ⟨.uncaught, ev⟩
    | .ok region_size =>
      let args := [Value.int region_size, .int iterations, .int compactness, .bool lab]
      let labels₀ := w.segment "CCS_OpenCV::computeSuperpixels" image args
      let post := ccs_postprocess w image labels₀
      let ev' := ev ++ [.segment "CCS_OpenCV::computeSuperpixels" image args] ++ post.1
      match post.2 with
      | none => ⟨.undefined, ev'⟩
      | some locals => visualize w a image locals.labels ev'

/-- The part shared by `main` of crs_cli, ergc_cli and lsc_cli: the region plan, replaced by
a square one when `--fair` is given. -/
def planHeightWidth (w : World) (a : Args) (image : Image) (superpixels : Int)
    (before : List Event) : Except Run ((Int × Int) × List Event) :=
  let ev := before ++ [.computeHeightWidthFromSuperpixels image superpixels]
  match w.computeHeightWidthFromSuperpixels image superpixels with
  | .error _ => .error ⟨.uncaught, ev⟩
  | .ok (region_height, region_width) =>
    if a.fair then
      let ev' := ev ++ [.computeRegionSizeFromSuperpixels image superpixels]
      match w.computeRegionSizeFromSuperpixels image superpixels with
      | .error _ => .error ⟨.uncaught, ev'⟩
      | .ok region_size => .ok ((region_size, region_size), ev')
    else .ok ((region_height, region_width), ev)

/-- Model of `main` in src/crs_cli/main.cpp. -/
def crs_cli (w : World) (a : Args) : Run :=
  if a.help then ⟨.exit 1, [.printOptions]⟩ else
  match a.input with
  | none => ⟨.uncaught, []⟩
  | some inputfile =>
    let superpixels := a.int "superpixels"
    let clique_cost := a.real "clique-cost"
    let compactness := a.real "compactness"
    let iterations := a.int "iterations"
    let color_space := a.int "color-space"
    if color_space < 0 ∨ color_space > 1 then
      ⟨.exit 1, [.stdout "Invalid color space."]⟩
    else
      let image := w.imread inputfile
      match planHeightWidth w a image superpixels [.imread inputfile] with
      | .error r => r
      | .ok ((region_height, region_width), ev) =>
        let args := [Value.int region_height, .int region_width, .real clique_cost,
          .real compactness, .int iterations, .int color_space]
        let labels₀ := w.segment "CRS_OpenCV::computeSuperpixels" image args
        let r₁ := w.relabelConnectedSuperpixels labels₀
        let unconnected_components := r₁.2
        let r₂ := w.enforceMinimumSuperpixelSizeUpTo image r₁.1 unconnected_components
        let labels₃ := w.relabelSuperpixels r₂.1
        visualize w a image labels₃
          (ev ++ [.segment "CRS_OpenCV::computeSuperpixels" image args,
            .relabelConnectedSuperpixels labels₀,
            .enforceMinimumSuperpixelSizeUpTo image r₁.1 unconnected_components,
            .relabelSuperpixels r₂.1])

/-- Model of `main` in src/ergc_cli/main.cpp. -/
def ergc_cli (w : World) (a : Args) : Run :=
  if a.help then ⟨.exit 1, [.printOptions]⟩ else
  match a.input with
  | none => ⟨.uncaught, []⟩
  | some inputfile =>
    let superpixels := a.int "superpixels"
    let color_space := a.int "color-space"
    let lab : Bool := decide (color_space > 0)
    let perturb_seeds_int := a.int "perturb-seeds"
    let perturb_seeds : Bool := decide (perturb_seeds_int > 0)
    let compacity := a.int "compacity"
    let image := w.imread inputfile
    match planHeightWidth w a image superpixels [.imread inputfile] with
    | .error r => r
    | .ok ((region_height, region_width), ev) =>
      let args := [Value.int region_height, .int region_width, .bool lab,
        .bool perturb_seeds, .int compacity]
      let labels₀ := w.segment "ERGC_OpenCV::computeSuperpixels" image args
      let r₁ := w.relabelConnectedSuperpixels labels₀
      visualize w a image r₁.1
        (ev ++ [.segment "ERGC_OpenCV::computeSuperpixels" image args,
          .relabelConnectedSuperpixels labels₀])

/-- Model of `main` in src/etps_cli/main.cpp. -/
def etps_cli (w : World) (a : Args) : Run :=
  if a.help then ⟨.exit 1, [.printOptions]⟩ else
  match a.input with
  | none => ⟨.uncaught, []⟩
  | some inputfile =>
    let superpixels := a.int "superpixels"
    let regularization_weight := a.real "regularization-weight"
    let length_weight := a.real "length-weight"
    let size_weight := a.real "size-weight"
    let iterations := a.int "iterations"
    let image := w.imread inputfile
    let ev := [Event.imread inputfile, .computeRegionSizeFromSuperpixels image superpixels]
    match w.computeRegionSizeFromSuperpixels image superpixels with
    | .error _ => ⟨.uncaught, ev⟩
    | .ok region_size =>
      let args := [Value.int region_size, .real regularization_weight, .real length_weight,
        .real size_weight, .int iterations]
      let labels₀ := w.segment "ETPS_OpenCV::computeSuperpixels" image args
      let r₁ := w.relabelConnectedSuperpixels labels₀
      visualize w a image r₁.1
        (ev ++ [.segment "ETPS_OpenCV::computeSuperpixels" image args,
          .relabelConnectedSuperpixels labels₀])

/-- Model of `main` in src/lsc_cli/main.cpp. -/
def lsc_cli (w : World) (a : Args) : Run :=
  if a.help then ⟨.exit 1, [.printOptions]⟩ else
  match a.input with
  | none => ⟨.uncaught, []⟩
  | some inputfile =>
    let superpixels := a.int "superpixels"
    let ratio := a.real "ratio"
    let iterations := a.int "iterations"
    let threshold := a.int "threshold"
    let color_space := a.int "color-space"
    if color_space < 0 ∨ color_space > 1 then
      ⟨.exit 1, [.stdout "Invalid color space."]⟩
    else
      let image := w.imread inputfile
      match planHeightWidth w a image superpixels [.imread inputfile] with
      | .error r => r
      | .ok ((region_height, region_width), ev) =>
        let args := [Value.int region_height, .int region_width, .real ratio,
          .int iterations, .int threshold, .int color_space]
        let labels₀ := w.segment "LSC_OpenCV::computeSuperpixels" image args
        let r₁ := w.relabelConnectedSuperpixels labels₀
        let unconnected_components := r₁.2
        let r₂ := w.enforceMinimumSuperpixelSizeUpTo image r₁.1 unconnected_components
        let labels₃ := w.relabelSuperpixels r₂.1
        visualize w a image labels₃
          (ev ++ [.segment "LSC_OpenCV::computeSuperpixels" image args,
            .relabelConnectedSuperpixels labels₀,
            .enforceMinimumSuperpixelSizeUpTo image r₁.1 unconnected_components,
            .relabelSuperpixels r₂.1])

/-- Model of `main` in src/pb_cli/main.cpp. -/
def pb_cli (w : World) (a : Args) : Run :=
  if a.help then ⟨.exit 1, [.printOptions]⟩ else
  match a.input with
  | none => ⟨.uncaught, []⟩
  | some inputfile =>
    let superpixels := a.int "superpixels"
    let sigma := a.real "sigma"
    let max_flow_int := a.int "max-flow"
    let max_flow : Bool := decide (max_flow_int > 0)
    let image := w.imread inputfile
    let ev := [Event.imread inputfile, .computeRegionSizeFromSuperpixels image superpixels]
    match w.computeRegionSizeFromSuperpixels image superpixels with
    | .error _ => ⟨.uncaught, ev⟩
    | .ok region_size =>
      let args := [Value.int region_size, .real sigma, .bool max_flow]
      let labels₀ := w.segment "PB_OpenCV::computeSuperpixels" image args
      let r₁ := w.relabelConnectedSuperpixels labels₀
      let unconnected_components := r₁.2
      let r₂ := w.enforceMinimumSuperpixelSizeUpTo image r₁.1 unconnected_components
      let labels₃ := w.relabelSuperpixels r₂.1
      visualize w a image labels₃
        (ev ++ [.segment "PB_OpenCV::computeSuperpixels" image args,
          .relabelConnectedSuperpixels labels₀,
          .enforceMinimumSuperpixelSizeUpTo image r₁.1 unconnected_components,
          .relabelSuperpixels r₂.1])

/-- The `double` nearest to the literal `0.01` (0x3F847AE147AE147B). -/
def double_0_01 : Rat := 5764607523034235 / 576460752303423488

/-- Model of `main` in src/refh_cli/main.cpp.  `sigma` is the parsed `float`; the kernel
size `std::ceil(sigma*4) + 1` is taken exactly. -/
def refh_cli (w : World) (a : Args) : Run :=
  if a.help then ⟨.exit 1, [.printOptions]⟩ else
  match a.input with
  | none => ⟨.uncaught, []⟩
  | some inputfile =>
    let sigma := a.real "sigma"
    let threshold := a.real "threshold"
    let minimum_segment_size := a.int "minimum-size"
    let image₀ := w.imread inputfile
    let size : Int := ⌈sigma * 4⌉ + 1
    let smooth : Bool := decide (sigma > double_0_01)
    let image := if smooth then w.gaussianBlur image₀ size sigma else image₀
    let ev := [Event.imread inputfile] ++
      (if smooth then [Event.gaussianBlur image₀ size sigma] else [])
    let args := [Value.real threshold, .int minimum_segment_size]
    let labels₀ := w.segment "GraphSegmentation" image args
    let r₁ := w.relabelConnectedSuperpixels labels₀
    visualize w a image r₁.1
      (ev ++ [.segment "GraphSegmentation" image args, .relabelConnectedSuperpixels labels₀])

/-- The part shared by `main` of seeds_cli and reseeds_cli: region size and number of
levels, starting from `region_width = region_height = levels = 2`. -/
def planLevels (w : World) (a : Args) (image : Image) (superpixels : Int)
    (before : List Event) : Except Run ((Int × Int × Int) × List Event) :=
  if a.fair then
    let ev := before ++ [.computeRegionSizeLevels image superpixels]
    match w.computeRegionSizeLevels image superpixels 2 2 with
    | .error _ => .error ⟨.uncaught, ev⟩
    | .ok (region_width, levels) => .ok ((region_width, region_width, levels), ev)
  else
    let ev := before ++ [.computeHeightWidthLevelsFromSuperpixels image superpixels]
    match w.computeHeightWidthLevelsFromSuperpixels image superpixels 2 2 2 with
    | .error _ => .error ⟨.uncaught, ev⟩
    | .ok (region_height, region_width, levels) =>
      .ok ((region_height, region_width, levels), ev)

/-- Copy loop of seeds_cli: pixel `(i, j)` receives entry `j + cols * i` of the flat buffer;
`none` when a read falls outside the buffer. -/
def copyFlatLabels (rows cols : Nat) (buffer : List Int) : Option LabelMap :=
  ((List.range (rows * cols)).mapM
    (fun k => buffer[(k % cols) + cols * (k / cols)]?)).map
    (fun data => { rows := rows, cols := cols, data := data })

/-- Copy loop of seeds_cli reading `seeds.labels[levels - 1]`; `none` when that level does
not exist or a read falls outside its buffer. -/
def copyLevelLabels (rows cols : Nat) (buffers : List (List Int)) (level : Int) :
    Option LabelMap :=
  if level < 0 then none
  else (buffers[level.toNat]?).bind (copyFlatLabels rows cols)

/-- Copy loop of reseeds_cli: pixel `(i, j)` receives `labeling[i][j]`; `none` when a read
falls outside the array. -/
def copyRowLabels (rows cols : Nat) (labeling : List (List Int)) : Option LabelMap :=
  ((List.range (rows * cols)).mapM
    (fun k => (labeling[k / cols]?).bind (fun row => row[k % cols]?))).map
    (fun data => { rows := rows, cols := cols, data := data })

/-- Model of `main` in src/seeds_cli/main.cpp. -/
def seeds_cli (w : World) (a : Args) : Run :=
  if a.help then ⟨.exit 1, [.printOptions]⟩ else
  match a.input with
  | none => ⟨.uncaught, []⟩
  | some inputfile =>
    let superpixels := a.int "superpixels"
    let iterations := a.int "iterations"
    let bins := a.int "bins"
    let confidence := a.real "confidence"
    let prior : Bool := decide (a.int "prior" > 0)
    let means : Bool := decide (a.int "means" > 0)
    let color_space := a.int "color-space"
    if color_space < 0 ∨ color_space > 2 then
      ⟨.exit 1, [.stdout "Invalid color space."]⟩
    else
      let image := w.imread inputfile
      match planLevels w a image superpixels [.imread inputfile] with
      | .error r => r
      | .ok ((region_height, region_width, levels), ev) =>
        let args := [Value.int bins, .int 0, .real confidence, .bool prior, .bool means,
          .int color_space, .int region_width, .int region_height, .int levels,
          .int iterations]
        let ev' := ev ++ [.segment "SEEDS" image args]
        match copyLevelLabels image.rows image.cols (w.seedsLabels image args) (levels - 1) with
        | none => ⟨.undefined, ev'⟩
        | some labels₀ =>
          let r₁ := w.relabelConnectedSuperpixels labels₀
          visualize w a image r₁.1 (ev' ++ [.relabelConnectedSuperpixels labels₀])

/-- Model of `main` in src/reseeds_cli/main.cpp. -/
def reseeds_cli (w : World) (a : Args) : Run :=
  if a.help then ⟨.exit 1, [.printOptions]⟩ else
  match a.input with
  | none => ⟨.uncaught, []⟩
  | some inputfile =>
    let iterations := a.int "iterations"
    let number_of_bins := a.int "bins"
    let neighborhood_size := a.int "neighborhood"
    let minimum_confidence := a.real "confidence"
    let spatial_weight := a.real "spatial-weight"
    let superpixels := a.int "superpixels"
    let color_space := a.int "color-space"
    if color_space < 0 ∨ color_space > 2 then
      ⟨.exit 1, [.stdout "Invalid color space."]⟩
    else
      let image := w.imread inputfile
      match planLevels w a image superpixels [.imread inputfile] with
      | .error r => r
      | .ok ((region_height, region_width, levels), ev) =>
        let args := [Value.int levels, .int region_width, .int region_height,
          .int number_of_bins, .int neighborhood_size, .real minimum_confidence,
          .real spatial_weight, .int color_space, .int iterations]
        let ev' := ev ++ [.segment "SEEDSRevisedMeanPixels" image args]
        match copyRowLabels image.rows image.cols (w.seedsLabels image args) with
        | none => ⟨.undefined, ev'⟩
        | some labels₀ =>
          let r₁ := w.relabelConnectedSuperpixels labels₀
          visualize w a image r₁.1 (ev' ++ [.relabelConnectedSuperpixels labels₀])

/-- Model of `main` in src/slic_cli/main.cpp. -/
def slic_cli (w : World) (a : Args) : Run :=
  if a.help then ⟨.exit 1, [.printOptions]⟩ else
  match a.input with
  | none => ⟨.uncaught, []⟩
  | some inputfile =>
    let superpixels := a.int "superpixels"
    let compactness := a.real "compactness"
    let iterations := a.int "iterations"
    let perturb_seeds : Bool := decide (a.int "perturb-seeds" > 0)
    let color_space := a.int "color-space"
    let image := w.imread inputfile
    let ev := [Event.imread inputfile, .computeRegionSizeFromSuperpixels image superpixels]
    match w.computeRegionSizeFromSuperpixels image superpixels with
    | .error _ => ⟨.uncaught, ev⟩
    | .ok region_size =>
      let args := [Value.int region_size, .real compactness, .int iterations,
        .bool perturb_seeds, .int color_space]
      let labels₀ := w.segment "SLIC_OpenCV::computeSuperpixels" image args
      let r₁ := w.relabelConnectedSuperpixels labels₀
      visualize w a image r₁.1
        (ev ++ [.segment "SLIC_OpenCV::computeSuperpixels" image args,
          .relabelConnectedSuperpixels labels₀])

/-- Floor of the binary logarithm of a positive natural (`fuel ≥ n` suffices). -/
def floorLog2 : Nat → Nat → Nat
  | 0, _ => 0
  | fuel + 1, n => if n < 2 then 0 else floorLog2 fuel (n / 2) + 1

/-- Binary exponent `e` of the positive ratio `n / d`: `2^e ≤ n / d < 2^(e+1)`. -/
def binaryExponent (n d : Nat) : Int :=
  let e : Int := (floorLog2 n n : Int) - (floorLog2 d d : Int)
  if (if 0 ≤ e then 2 ^ e.toNat * d ≤ n else d ≤ n * 2 ^ (-e).toNat) then e else e - 1

/-- Rounding of the non-negative ratio `n / d` to the nearest `float` (IEEE binary32, ties
to even), returned as numerator and denominator; overflow to infinity is not modelled. -/
def roundToFloat (n d : Nat) : Nat × Nat :=
  if n = 0 then (0, 1) else
    let e := max (binaryExponent n d) (-126)
    -- `k = (n / d) / 2^(e - 23) = A / B`
    let A := if e ≤ 23 then n * 2 ^ (23 - e).toNat else n
    let B := if e ≤ 23 then d else d * 2 ^ (e - 23).toNat
    let f := A / B
    let r := A % B
    let m := if 2 * r < B then f else if B < 2 * r then f + 1 else if f % 2 = 0 then f else f + 1
    if e ≤ 23 then (m, 2 ^ (23 - e).toNat) else (m * 2 ^ (e - 23).toNat, 1)

/-- The threshold `int size = (float) (image.rows*image.cols)/superpixels/10;` of vc_cli:
conversion to `float`, two `float` divisions, then truncation towards zero.  `none` where
C++ leaves the result undefined (overflow of the `int` product, division by zero). -/
def vcSize (image : Image) (superpixels : Int) : Option Int :=
  if 2 ^ 31 ≤ image.rows * image.cols ∨ superpixels = 0 then none
  else
    let area := roundToFloat (image.rows * image.cols) 1
    let count := roundToFloat superpixels.natAbs 1
    let perSuperpixel := roundToFloat (area.1 * count.2) (area.2 * count.1)
    let tenth := roundToFloat perSuperpixel.1 (perSuperpixel.2 * 10)
    let magnitude : Int := ((tenth.1 / tenth.2 : Nat) : Int)
    some (if 0 < superpixels then magnitude else -magnitude)

/-- Model of `main` in src/vc_cli/main.cpp. -/
def vc_cli (w : World) (a : Args) : Run :=
  if a.help then ⟨.exit 1, [.printOptions]⟩ else
  match a.input with
  | none => ⟨.uncaught, []⟩
  | some inputfile =>
    let superpixels := a.int "superpixels"
    let weight := a.real "weight"
    let radius := a.int "radius"
    let neighboring_clusters := a.int "neighboring-clusters"
    let direct_neighbors := a.int "direct-neighbors"
    let threshold := a.int "threshold"
    let image := w.imread inputfile
    let args := [Value.int superpixels, .real weight, .int radius, .int neighboring_clusters,
      .int direct_neighbors, .int threshold]
    let labels₀ := w.segment "VC_OpenCV::computeSuperpixels" image args
    let r₁ := w.relabelConnectedSuperpixels labels₀
    let unconnected_components := r₁.2
    let r₂ := w.enforceMinimumSuperpixelSizeUpTo image r₁.1 unconnected_components
    let ev := [Event.imread inputfile, .segment "VC_OpenCV::computeSuperpixels" image args,
      .relabelConnectedSuperpixels labels₀,
      .enforceMinimumSuperpixelSizeUpTo image r₁.1 unconnected_components]
    match vcSize image superpixels with
    | none => ⟨.undefined, ev⟩
    | some size =>
      let r₃ := w.enforceMinimumSuperpixelSize image r₂.1 size
      let labels₄ := w.relabelSuperpixels r₃.1
      visualize w a image labels₄
        (ev ++ [.enforceMinimumSuperpixelSize image r₂.1 size, .relabelSuperpixels r₃.1])

/-- The eleven command-line tools. -/
inductive Tool where
  | ccs | crs | ergc | etps | lsc | pb | refh | reseeds | seeds | slic | vc
deriving DecidableEq

/-- The `main` of a tool. -/
def Tool.run : Tool → World → Args → Run
  | .ccs => ccs_cli
  | .crs => crs_cli
  | .ergc => ergc_cli
  | .etps => etps_cli
  | .lsc => lsc_cli
  | .pb => pb_cli
  | .refh => refh_cli
  | .reseeds => reseeds_cli
  | .seeds => seeds_cli
  | .slic => slic_cli
  | .vc => vc_cli

/-- The stages that touch the label map after segmentation. -/
inductive Stage where
  | connectivitySplitter
  | sizeEnforcer
  | canonicalizer
  | drawContours
  | drawMeans
deriving DecidableEq

/-- The stage an event belongs to, if any. -/
def Event.stage : Event → Option Stage
  | .relabelConnectedSuperpixels _ => some .connectivitySplitter
  | .enforceMinimumSuperpixelSizeUpTo _ _ _ => some .sizeEnforcer
  | .enforceMinimumSuperpixelSize _ _ _ => some .sizeEnforcer
  | .relabelSuperpixels _ => some .canonicalizer
  | .drawContours _ _ => some .drawContours
  | .drawMeans _ _ => some .drawMeans
  | _ => none

/-- The label-map stages of a run, in the order in which they happened. -/
def Run.stages (r : Run) : List Stage := r.events.filterMap Event.stage

/-- The label maps handed to `Visualization::drawContours` and `Visualization::drawMeans`,
in order. -/
def Run.drawnLabels (r : Run) : List LabelMap :=
  r.events.filterMap (fun e =>
    match e with
    | .drawContours _ labels => some labels
    | .drawMeans _ labels => some labels
    | _ => none)

/-- The order C1 states: splitter, size enforcement once or twice, canonicalizer, then the
two drawing calls. -/
def FullPipeline (s : List Stage) : Prop :=
  s = [.connectivitySplitter, .sizeEnforcer, .canonicalizer, .drawContours, .drawMeans] ∨
  s = [.connectivitySplitter, .sizeEnforcer, .sizeEnforcer, .canonicalizer, .drawContours,
    .drawMeans]

instance (s : List Stage) : Decidable (FullPipeline s) := by
  unfold FullPipeline; infer_instance

/-- Modelled from the spec: `SuperpixelTools::enforceMinimumSuperpixelSizeUpTo`, whose body is
not under src/.  Same merge behaviour as `enforceMinimumSuperpixelSize`; the minimum-size
threshold is derived from `bound` by a rule the spec leaves open, taken here as the
parameter `thresholdOf`. -/
def enforceMinimumSuperpixelSizeUpTo (thresholdOf : Int → Int) (L : LabelMap) (bound : Int) :
    EnforceResult :=
  enforceMinimumSuperpixelSize L (thresholdOf bound)

/-- A world whose post-processing core is the modelled one: every image file decodes to
`image`, every segmentation returns `raw`, the planners return fixed plans, and drawing
returns its first argument. -/
def modelWorld (image : Image) (raw : LabelMap) (thresholdOf : Int → Int) : World where
  imread := fun _ => image
  computeRegionSizeFromSuperpixels := fun _ _ => .ok 1
  computeHeightWidthFromSuperpixels := fun _ _ => .ok (1, 1)
  computeRegionSizeLevels := fun _ _ _ _ => .ok (1, 1)
  computeHeightWidthLevelsFromSuperpixels := fun _ _ _ _ _ => .ok (1, 1, 1)
  relabelConnectedSuperpixels := fun L =>
    ((relabelConnectedSuperpixels L).1, ((relabelConnectedSuperpixels L).2 : Int))
  enforceMinimumSuperpixelSizeUpTo := fun _ L bound =>
    ((enforceMinimumSuperpixelSizeUpTo thresholdOf L bound).labels,
      ((enforceMinimumSuperpixelSizeUpTo thresholdOf L bound).merged : Int))
  enforceMinimumSuperpixelSize := fun _ L size =>
    ((enforceMinimumSuperpixelSize L size).labels,
      ((enforceMinimumSuperpixelSize L size).merged : Int))
  relabelSuperpixels := relabelSuperpixels
  gaussianBlur := fun img _ _ => img
  segment := fun _ _ _ => raw
  seedsLabels := fun _ _ => [raw.data]
  drawContours := fun canvas _ => canvas
  drawMeans := fun img _ => img

/-- A 1x3 image whose segmentation puts the first pixel alone: raw labels `[5, 9, 9]`; the
enforcement threshold derived from a bound is the bound itself. -/
def sampleWorld : World :=
  modelWorld ⟨1, 3, [(0, 0, 0), (9, 9, 9), (9, 9, 9)]⟩ ⟨1, 3, [5, 9, 9]⟩ (fun bound => bound)

/-- A command line with an input file, without `--help` and `--fair`, 2 superpixels and
every other option 1. -/
def sampleArgs : Args where
  help := false
  fair := false
  input := some "image.png"
  oc := "output"
  om := "output"
  int := fun name => if name = "superpixels" then 2 else 1
  real := fun _ => 1

/-- The label values of the map are exactly `0 .. K-1`, `K` the number of distinct labels. -/
def Dense (L : LabelMap) : Prop :=
  L.labels.insertionSort (· ≤ ·) = (List.range L.labels.length).map (fun k : Nat => (k : Int))

instance (L : LabelMap) : Decidable (Dense L) := by
  unfold Dense; infer_instance

/-- The command line with the value of the integer option `name` replaced by `v`. -/
def Args.setInt (a : Args) (name : String) (v : Int) : Args :=
  { a with int := fun n => if n = name then v else a.int n }

/-- The event is a call of the segmentation algorithm. -/
def Event.isSegment : Event → Bool
  | .segment _ _ _ => true
  | _ => false

/-- The event is a call of one of the four geometry planners of `SuperpixelTools`. -/
def Event.isPlanner : Event → Bool
  | .computeRegionSizeFromSuperpixels _ _ => true
  | .computeHeightWidthFromSuperpixels _ _ => true
  | .computeRegionSizeLevels _ _ => true
  | .computeHeightWidthLevelsFromSuperpixels _ _ => true
  | _ => false

/-- The event is a call that receives the label map by mutable reference: the connectivity
splitter, the two size enforcers and the canonicalizer. -/
def Event.changesLabels : Event → Bool
  | .relabelConnectedSuperpixels _ => true
  | .enforceMinimumSuperpixelSizeUpTo _ _ _ => true
  | .enforceMinimumSuperpixelSize _ _ _ => true
  | .relabelSuperpixels _ => true
  | _ => false

/-- The calls of the segmentation algorithm in a run: algorithm, image and arguments. -/
def Run.segmentCalls (r : Run) : List (String × Image × List Value) :=
  r.events.filterMap (fun e =>
    match e with
    | .segment algorithm image args => some (algorithm, image, args)
    | _ => none)

/-- The paths of the image files a run writes, in order. -/
def Run.written (r : Run) : List String :=
  r.events.filterMap (fun e =>
    match e with
    | .imwrite path _ => some path
    | _ => none)

/-- The calls of a run that receive the label map by mutable reference, in order. -/
def Run.labelCalls (r : Run) : List Event := r.events.filter Event.changesLabels

/-- The calls of `enforceMinimumSuperpixelSizeUpTo` in a run: label map and bound. -/
def Run.upToCalls (r : Run) : List (LabelMap × Int) :=
  r.events.filterMap (fun e =>
    match e with
    | .enforceMinimumSuperpixelSizeUpTo _ labels number => some (labels, number)
    | _ => none)

/-- The events of a run up to its first segmentation call. -/
def Run.beforeSegment (r : Run) : List Event :=
  r.events.takeWhile (fun e => !e.isSegment)

/-- The events of a run after its first segmentation call. -/
def Run.afterSegment (r : Run) : List Event :=
  (r.events.dropWhile (fun e => !e.isSegment)).drop 1

/-- The world `sampleWorld` with planners that answer the region size 4 and the rectangular
region of height 3 and width 5. -/
def rectWorld : World :=
  { sampleWorld with
    computeRegionSizeFromSuperpixels := fun _ _ => .ok 4
    computeHeightWidthFromSuperpixels := fun _ _ => .ok (3, 5) }

/-- The command line of `sampleArgs` with `--fair`. -/
def fairArgs : Args := { sampleArgs with fair := true }

/-- Modelled from the spec: the error condition of the geometry planners, "K ≤ 0 or
W·H = 0", for the loaded image and the desired superpixel count. -/
def InvalidPlanInput (image : Image) (superpixels : Int) : Prop :=
  superpixels ≤ 0 ∨ image.rows * image.cols = 0

instance (image : Image) (superpixels : Int) : Decidable (InvalidPlanInput image superpixels) := by
  unfold InvalidPlanInput; infer_instance

/-- Modelled from the spec: the four geometry planners of a world, whose bodies are not under
src/, fail with an InvalidInput error when "K ≤ 0 or W·H = 0". -/
def PlannerContract (w : World) : Prop :=
  ∀ image superpixels, InvalidPlanInput image superpixels →
    w.computeRegionSizeFromSuperpixels image superpixels = .error .invalidInput ∧
    w.computeHeightWidthFromSuperpixels image superpixels = .error .invalidInput ∧
    (∀ region_width levels,
      w.computeRegionSizeLevels image superpixels region_width levels =
        .error .invalidInput) ∧
    (∀ region_height region_width levels,
      w.computeHeightWidthLevelsFromSuperpixels image superpixels region_height region_width
        levels = .error .invalidInput)

/-- Modelled from the spec: a planner answer behind the planners' error condition. -/
def guardedPlan {α : Type} (image : Image) (superpixels : Int) (plan : α) :
    Except CoreError α :=
  if InvalidPlanInput image superpixels then .error .invalidInput else .ok plan

/-- Modelled from the spec: `sampleWorld` with planners that fail with InvalidInput when
"K ≤ 0 or W·H = 0" and answer with regions of side 1 otherwise. -/
def strictWorld : World :=
  { sampleWorld with
    computeRegionSizeFromSuperpixels := fun image superpixels =>
      guardedPlan image superpixels 1
    computeHeightWidthFromSuperpixels := fun image superpixels =>
      guardedPlan image superpixels (1, 1)
    computeRegionSizeLevels := fun image superpixels _ _ =>
      guardedPlan image superpixels (1, 1)
    computeHeightWidthLevelsFromSuperpixels := fun image superpixels _ _ _ =>
      guardedPlan image superpixels (1, 1, 1) }

/-- The image and the superpixel count a planner call receives. -/
def Event.plannerInput : Event → Option (Image × Int)
  | .computeRegionSizeFromSuperpixels image superpixels => some (image, superpixels)
  | .computeHeightWidthFromSuperpixels image superpixels => some (image, superpixels)
  | .computeRegionSizeLevels image superpixels => some (image, superpixels)
  | .computeHeightWidthLevelsFromSuperpixels image superpixels => some (image, superpixels)
  | _ => none

/-- The thresholds handed to `enforceMinimumSuperpixelSize` in a run. -/
def Run.enforcedSizes (r : Run) : List Int :=
  r.events.filterMap (fun e =>
    match e with
    | .enforceMinimumSuperpixelSize _ _ size => some size
    | _ => none)

/-- A 2x10 image whose segmentation is one superpixel (label 7 everywhere), with the modelled
post-processing core. -/
def wideWorld : World :=
  modelWorld ⟨2, 10, List.replicate 20 (0, 0, 0)⟩ ⟨2, 10, List.replicate 20 7⟩
    (fun bound => bound)

/-- Rounding of the non-negative ratio `n / d` to the nearest `double` (IEEE binary64, ties
to even), returned as numerator and denominator; overflow to infinity is not modelled. -/
def roundToDouble (n d : Nat) : Nat × Nat :=
  if n = 0 then (0, 1) else
    let e := max (binaryExponent n d) (-1022)
    -- `k = (n / d) / 2^(e - 52) = A / B`
    let A := if e ≤ 52 then n * 2 ^ (52 - e).toNat else n
    let B := if e ≤ 52 then d else d * 2 ^ (e - 52).toNat
    let f := A / B
    let r := A % B
    let m := if 2 * r < B then f else if B < 2 * r then f + 1 else if f % 2 = 0 then f else f + 1
    if e ≤ 52 then (m, 2 ^ (52 - e).toNat) else (m * 2 ^ (e - 52).toNat, 1)

/-- The default of an entry of an option table, `default_value(...)`: none, an `int`, a
`std::string`, or the decimal literal `num / den` held in a `float` or in a `double`
option. -/
inductive Default where
  | absent
  | int (value : Int)
  | float (num den : Nat)
  | double (num den : Nat)
  | string (value : String)
deriving DecidableEq

/-- An entry of the option table of a tool (`desc.add_options()`): the long name and the
declared default. -/
structure Declared where
  name : String
  default : Default
deriving DecidableEq

/-- A line under "Allowed options" in the usage comment of a tool: the long name and the
default shown as `(=...)`, a decimal numeral `num / den`. -/
structure Documented where
  name : String
  default : Option (Nat × Nat)
deriving DecidableEq

/-- The option table of each `main`. -/
def optionTable : Tool → List Declared
  | .ccs => [⟨"help", .absent⟩, ⟨"input", .absent⟩, ⟨"superpixels", .int 400⟩,
      ⟨"compactness", .int 500⟩, ⟨"iterations", .int 20⟩, ⟨"color-space", .int 0⟩,
      ⟨"oc", .string "output"⟩, ⟨"om", .string "output"⟩]
  | .crs => [⟨"help", .absent⟩, ⟨"input", .absent⟩, ⟨"superpixels", .int 400⟩,
      ⟨"compactness", .double 45 1000⟩, ⟨"clique-cost", .double 3 10⟩,
      ⟨"iterations", .int 3⟩, ⟨"color-space", .int 0⟩, ⟨"fair", .absent⟩,
      ⟨"oc", .string "output"⟩, ⟨"om", .string "output"⟩]
  | .ergc => [⟨"help", .absent⟩, ⟨"input", .absent⟩, ⟨"superpixels", .int 400⟩,
      ⟨"color-space", .int 1⟩, ⟨"perturb-seeds", .int 1⟩, ⟨"compacity", .int 0⟩,
      ⟨"fair", .absent⟩, ⟨"oc", .string "output"⟩, ⟨"om", .string "output"⟩]
  | .etps => [⟨"help", .absent⟩, ⟨"input", .absent⟩, ⟨"superpixels", .int 400⟩,
      ⟨"regularization-weight", .double 1 1⟩, ⟨"length-weight", .double 1 1⟩,
      ⟨"size-weight", .double 1 1⟩, ⟨"iterations", .int 1⟩,
      ⟨"oc", .string "output"⟩, ⟨"om", .string "output"⟩]
  | .lsc => [⟨"help", .absent⟩, ⟨"input", .absent⟩, ⟨"superpixels", .int 400⟩,
      ⟨"ratio", .double 75 1000⟩, ⟨"iterations", .int 20⟩, ⟨"threshold", .int 4⟩,
      ⟨"color-space", .int 1⟩, ⟨"fair", .absent⟩,
      ⟨"oc", .string "output"⟩, ⟨"om", .string "output"⟩]
  | .pb => [⟨"help", .absent⟩, ⟨"input", .absent⟩, ⟨"superpixels", .int 400⟩,
      ⟨"sigma", .float 20 1⟩, ⟨"max-flow", .int 0⟩,
      ⟨"oc", .string "output"⟩, ⟨"om", .string "output"⟩]
  | .refh => [⟨"help", .absent⟩, ⟨"input", .absent⟩, ⟨"sigma", .float 0 1⟩,
      ⟨"threshold", .float 20 1⟩, ⟨"minimum-size", .int 10⟩,
      ⟨"oc", .string "output"⟩, ⟨"om", .string "output"⟩]
  | .reseeds => [⟨"help", .absent⟩, ⟨"input", .absent⟩, ⟨"bins", .int 5⟩,
      ⟨"neighborhood", .int 1⟩, ⟨"confidence", .float 1 10⟩, ⟨"iterations", .int 2⟩,
      ⟨"spatial-weight", .float 25 100⟩, ⟨"superpixels", .int 400⟩,
      ⟨"color-space", .int 1⟩, ⟨"fair", .absent⟩,
      ⟨"oc", .string "output"⟩, ⟨"om", .string "output"⟩]
  | .seeds => [⟨"help", .absent⟩, ⟨"input", .absent⟩, ⟨"superpixels", .int 400⟩,
      ⟨"bins", .int 5⟩, ⟨"confidence", .float 1 10⟩, ⟨"prior", .int 1⟩, ⟨"means", .int 1⟩,
      ⟨"iterations", .int 2⟩, ⟨"color-space", .int 1⟩, ⟨"fair", .absent⟩,
      ⟨"oc", .string "output"⟩, ⟨"om", .string "output"⟩]
  | .slic => [⟨"help", .absent⟩, ⟨"input", .absent⟩, ⟨"superpixels", .int 400⟩,
      ⟨"compactness", .double 40 1⟩, ⟨"perturb-seeds", .int 1⟩, ⟨"iterations", .int 10⟩,
      ⟨"color-space", .int 1⟩, ⟨"oc", .string "output"⟩, ⟨"om", .string "output"⟩]
  | .vc => [⟨"help", .absent⟩, ⟨"input", .absent⟩, ⟨"superpixels", .int 400⟩,
      ⟨"weight", .double 5 1⟩, ⟨"radius", .int 3⟩, ⟨"neighboring-clusters", .int 200⟩,
      ⟨"direct-neighbors", .int 4⟩, ⟨"threshold", .int 10⟩, ⟨"color-space", .int 1⟩,
      ⟨"oc", .string "output"⟩, ⟨"om", .string "output"⟩]

/-- The "Allowed options" of the usage comment above each `main`. -/
def usage : Tool → List Documented
  | .ccs => [⟨"help", none⟩, ⟨"input", none⟩, ⟨"superpixels", some (400, 1)⟩,
      ⟨"compactness", some (500, 1)⟩, ⟨"iterations", some (20, 1)⟩,
      ⟨"color-space", some (0, 1)⟩,
      ⟨"csv", none⟩, ⟨"vis", none⟩, ⟨"prefix", none⟩, ⟨"wordy", none⟩]
  | .crs => [⟨"help", none⟩, ⟨"input", none⟩, ⟨"superpixels", some (400, 1)⟩,
      ⟨"compactness", some (44999999999999998, 10 ^ 18)⟩,
      ⟨"clique-cost", some (29999999999999999, 10 ^ 17)⟩,
      ⟨"iterations", some (3, 1)⟩, ⟨"color-space", some (0, 1)⟩, ⟨"fair", none⟩,
      ⟨"csv", none⟩, ⟨"vis", none⟩, ⟨"prefix", none⟩, ⟨"wordy", none⟩]
  | .ergc => [⟨"help", none⟩, ⟨"input", none⟩, ⟨"superpixels", some (400, 1)⟩,
      ⟨"color-space", some (1, 1)⟩, ⟨"perturb-seeds", some (1, 1)⟩,
      ⟨"compacity", some (0, 1)⟩, ⟨"fair", none⟩,
      ⟨"csv", none⟩, ⟨"vis", none⟩, ⟨"prefix", none⟩, ⟨"wordy", none⟩]
  | .etps => [⟨"help", none⟩, ⟨"input", none⟩, ⟨"superpixels", some (400, 1)⟩,
      ⟨"regularization-weight", some (1, 1)⟩, ⟨"length-weight", some (1, 1)⟩,
      ⟨"size-weight", some (1, 1)⟩, ⟨"iterations", some (1, 1)⟩,
      ⟨"csv", none⟩, ⟨"vis", none⟩, ⟨"prefix", none⟩, ⟨"wordy", none⟩]
  | .lsc => [⟨"help", none⟩, ⟨"input", none⟩, ⟨"superpixels", some (400, 1)⟩,
      ⟨"ratio", some (74999999999999997, 10 ^ 18)⟩, ⟨"iterations", some (20, 1)⟩,
      ⟨"threshold", some (4, 1)⟩, ⟨"color-space", some (1, 1)⟩, ⟨"fair", none⟩,
      ⟨"csv", none⟩, ⟨"vis", none⟩, ⟨"prefix", none⟩, ⟨"wordy", none⟩]
  | .pb => [⟨"help", none⟩, ⟨"input", none⟩, ⟨"superpixels", some (400, 1)⟩,
      ⟨"sigma", some (20, 1)⟩, ⟨"max-flow", some (0, 1)⟩,
      ⟨"csv", none⟩, ⟨"vis", none⟩, ⟨"prefix", none⟩, ⟨"wordy", none⟩]
  | .refh => [⟨"help", none⟩, ⟨"input", none⟩, ⟨"sigma", some (0, 1)⟩,
      ⟨"threshold", some (20, 1)⟩, ⟨"minimum-size", some (10, 1)⟩,
      ⟨"csv", none⟩, ⟨"vis", none⟩, ⟨"prefix", none⟩, ⟨"wordy", none⟩]
  | .reseeds => [⟨"help", none⟩, ⟨"input", none⟩, ⟨"bins", some (5, 1)⟩,
      ⟨"neighborhood", some (1, 1)⟩, ⟨"confidence", some (100000001, 10 ^ 9)⟩,
      ⟨"iterations", some (2, 1)⟩, ⟨"spatial-weight", some (25, 100)⟩,
      ⟨"superpixels", some (400, 1)⟩, ⟨"color-space", some (1, 1)⟩, ⟨"fair", none⟩,
      ⟨"csv", none⟩, ⟨"vis", none⟩, ⟨"prefix", none⟩, ⟨"wordy", none⟩]
  | .seeds => [⟨"help", none⟩, ⟨"input", none⟩, ⟨"superpixels", some (400, 1)⟩,
      ⟨"bins", some (5, 1)⟩, ⟨"confidence", some (100000001, 10 ^ 9)⟩,
      ⟨"prior", some (1, 1)⟩, ⟨"means", some (1, 1)⟩, ⟨"iterations", some (2, 1)⟩,
      ⟨"color-space", some (1, 1)⟩, ⟨"fair", none⟩,
      ⟨"csv", none⟩, ⟨"vis", none⟩, ⟨"prefix", none⟩, ⟨"wordy", none⟩]
  | .slic => [⟨"help", none⟩, ⟨"input", none⟩, ⟨"superpixels", some (400, 1)⟩,
      ⟨"compactness", some (40, 1)⟩, ⟨"perturb-seeds", some (1, 1)⟩,
      ⟨"iterations", some (10, 1)⟩, ⟨"color-space", some (1, 1)⟩,
      ⟨"csv", none⟩, ⟨"vis", none⟩, ⟨"prefix", none⟩, ⟨"wordy", none⟩]
  | .vc => [⟨"help", none⟩, ⟨"input", none⟩, ⟨"superpixels", some (400, 1)⟩,
      ⟨"weight", some (5, 1)⟩, ⟨"radius", some (3, 1)⟩,
      ⟨"neighboring-clusters", some (200, 1)⟩, ⟨"direct-neighbors", some (4, 1)⟩,
      ⟨"threshold", some (10, 1)⟩, ⟨"color-space", some (1, 1)⟩,
      ⟨"csv", none⟩, ⟨"vis", none⟩, ⟨"prefix", none⟩, ⟨"wordy", none⟩]

/-- The declared default is the value the usage text shows: none for none, an `int` equal
to the numeral, a `double` that is the `double` nearest to the numeral, a `float`
(initialised from the `double` nearest to its literal) that is the `float` nearest to the
numeral. -/
def Default.agrees : Default → Option (Nat × Nat) → Bool
  | .absent, none => true
  | .int value, some (n, d) => decide (value * (d : Int) = (n : Int))
  | .double num den, some (n, d) =>
      decide ((roundToDouble num den).1 * (roundToDouble n d).2 =
        (roundToDouble n d).1 * (roundToDouble num den).2)
  | .float num den, some (n, d) =>
      let literal := roundToDouble num den
      decide ((roundToFloat literal.1 literal.2).1 * (roundToFloat n d).2 =
        (roundToFloat n d).1 * (roundToFloat literal.1 literal.2).2)
  | _, _ => false

/-- The long option names a tool documents but does not declare. -/
def documentedOnly (t : Tool) : List String :=
  ((usage t).map (fun o => o.name)).filter
    (fun name => !((optionTable t).map (fun o => o.name)).contains name)

/-- The long option names a tool declares but does not document. -/
def declaredOnly (t : Tool) : List String :=
  ((optionTable t).map (fun o => o.name)).filter
    (fun name => !((usage t).map (fun o => o.name)).contains name)

/-- The options of a tool that are both declared and documented whose declared default is
not the documented one. -/
def defaultMismatches (t : Tool) : List String :=
  ((optionTable t).filter (fun o =>
    (usage t).any (fun u => u.name == o.name && !o.default.agrees u.default))).map
    (fun o => o.name)

/-- The command line with the value of the real-valued option `name` replaced by `v`. -/
def Args.setReal (a : Args) (name : String) (v : Rat) : Args :=
  { a with real := fun n => if n = name then v else a.real n }

/-- The command line `--help`, with no input file. -/
def helpArgs : Args := { sampleArgs with help := true, input := none }

/-- The calls of `cv::GaussianBlur` in a run: image, kernel side length and sigma. -/
def Run.blurCalls (r : Run) : List (Image × Int × Rat) :=
  r.events.filterMap (fun e =>
    match e with
    | .gaussianBlur image size sigma => some (image, size, sigma)
    | _ => none)

/-- The canvases handed to `Visualization::drawContours` in a run. -/
def Run.contourCanvases (r : Run) : List Image :=
  r.events.filterMap (fun e =>
    match e with
    | .drawContours canvas _ => some canvas
    | _ => none)

/-- The images handed to `Visualization::drawMeans` in a run. -/
def Run.meansImages (r : Run) : List Image :=
  r.events.filterMap (fun e =>
    match e with
    | .drawMeans image _ => some image
    | _ => none)

/-- The image files a run writes: path and content, in order. -/
def Run.writes (r : Run) : List (String × Image) :=
  r.events.filterMap (fun e =>
    match e with
    | .imwrite path image => some (path, image)
    | _ => none)

/-- The command line of `sampleArgs` without an input file and with `--color-space 5`. -/
def noInputArgs : Args := { sampleArgs.setInt "color-space" 5 with input := none }

/-- The rational is a finite `float` (IEEE binary32): `m * 2 ^ e` or its negative, with
`m < 2 ^ 24` and `-149 ≤ e ≤ 104`. -/
def IsFloat (q : Rat) : Prop :=
  ∃ (m : Nat) (e : Int), m < 2 ^ 24 ∧ -149 ≤ e ∧ e ≤ 104 ∧
    (q = (m : Rat) * (2 : Rat) ^ e ∨ q = -((m : Rat) * (2 : Rat) ^ e))

/-- The functions a tool calls on the label map after the segmentation, by name. -/
inductive Call where
  | relabelConnectedSuperpixels
  | enforceMinimumSuperpixelSizeUpTo
  | enforceMinimumSuperpixelSize
  | relabelSuperpixels
  | drawContours
  | drawMeans
deriving DecidableEq

/-- The function an event calls on the label map, if any. -/
def Event.call : Event → Option Call
  | .relabelConnectedSuperpixels _ => some .relabelConnectedSuperpixels
  | .enforceMinimumSuperpixelSizeUpTo _ _ _ => some .enforceMinimumSuperpixelSizeUpTo
  | .enforceMinimumSuperpixelSize _ _ _ => some .enforceMinimumSuperpixelSize
  | .relabelSuperpixels _ => some .relabelSuperpixels
  | .drawContours _ _ => some .drawContours
  | .drawMeans _ _ => some .drawMeans
  | _ => none

/-- The calls on the label map in a run, by name, in the order in which they happened. -/
def Run.calls (r : Run) : List Call := r.events.filterMap Event.call

/-- The events of a run that are calls on the label map, in order. -/
def Run.pipeline (r : Run) : List Event := r.events.filter (fun e => e.call.isSome)

/-- The label map a call receives. -/
def Event.labelsIn : Event → Option LabelMap
  | .relabelConnectedSuperpixels labels => some labels
  | .enforceMinimumSuperpixelSizeUpTo _ labels _ => some labels
  | .enforceMinimumSuperpixelSize _ labels _ => some labels
  | .relabelSuperpixels labels => some labels
  | .drawContours _ labels => some labels
  | .drawMeans _ labels => some labels
  | _ => none

/-- The label map as a call leaves it: the splitter, the two size enforcers and the
canonicalizer change `labels` in place (the world gives the map they leave), the two drawing
functions write their result to a separate image and leave `labels` as it is. -/
def Event.labelsOut (w : World) : Event → Option LabelMap
  | .relabelConnectedSuperpixels labels => some (w.relabelConnectedSuperpixels labels).1
  | .enforceMinimumSuperpixelSizeUpTo image labels number =>
      some (w.enforceMinimumSuperpixelSizeUpTo image labels number).1
  | .enforceMinimumSuperpixelSize image labels size =>
      some (w.enforceMinimumSuperpixelSize image labels size).1
  | .relabelSuperpixels labels => some (w.relabelSuperpixels labels)
  | .drawContours _ labels => some labels
  | .drawMeans _ labels => some labels
  | _ => none

/-- In the list of calls, every call receives the label map as the call before it left
it. -/
def threaded (w : World) : List Event → Bool
  | e₁ :: e₂ :: rest => decide (e₂.labelsIn = e₁.labelsOut w) && threaded w (e₂ :: rest)
  | _ => true

/-- Every call on the label map in the run receives the map as the call before it left
it. -/
def Run.Threaded (w : World) (r : Run) : Prop := threaded w r.pipeline = true

instance (w : World) (r : Run) : Decidable (r.Threaded w) := by
  unfold Run.Threaded; infer_instance

/-! ## Theorems -/

theorem mem_neighbours4 (L : LabelMap) (p q : Pixel) :
    q ∈ neighbours4 L p ↔ adjacent4 p q ∧ L.inBounds q := by
  obtain ⟨i, j⟩ := p
  obtain ⟨a, b⟩ := q
  simp only [neighbours4, adjacent4, List.mem_filter, List.mem_append, decide_eq_true_eq,
    and_congr_left_iff]
  intro _
  by_cases hi : 0 < i <;> by_cases hj : 0 < j <;> simp [hi, hj] <;> omega

theorem mem_sameLabelNeighbours (L : LabelMap) (p q : Pixel) :
    q ∈ sameLabelNeighbours L p ↔ SameStep L p q := by
  simp [sameLabelNeighbours, SameStep, mem_neighbours4, and_assoc]

theorem length_neighbours4_le (L : LabelMap) (p : Pixel) : (neighbours4 L p).length ≤ 4 := by
  unfold neighbours4
  refine (List.length_filter_le _ _).trans ?_
  by_cases hi : 0 < p.1 <;> by_cases hj : 0 < p.2 <;> simp [hi, hj]

theorem length_sameLabelNeighbours_le (L : LabelMap) (p : Pixel) :
    (sameLabelNeighbours L p).length ≤ 4 :=
  (List.length_filter_le _ _).trans (length_neighbours4_le L p)

theorem unfilled_cons_lt (U filled : List Pixel) (p : Pixel) (hp : p ∈ U) (hn : p ∉ filled) :
    unfilled U (p :: filled) + 1 ≤ unfilled U filled := by
  unfold unfilled
  induction U with
  | nil => simp at hp
  | cons u U ih =>
    by_cases hu : u = p
    · subst hu
      have hle : (U.filter (fun q => decide (q ∉ u :: filled))).length ≤
          (U.filter (fun q => decide (q ∉ filled))).length := by
        apply List.Sublist.length_le
        apply List.monotone_filter_right
        intro q hq
        simp only [decide_eq_true_eq, List.mem_cons, not_or] at hq ⊢
        exact hq.2
      rw [List.filter_cons_of_neg (by simp), List.filter_cons_of_pos (by simpa using hn)]
      simpa using hle
    · have hp' : p ∈ U := by
        rcases List.mem_cons.1 hp with h | h
        · exact absurd h.symm hu
        · exact h
      have := ih hp'
      by_cases huf : u ∈ filled
      · rw [List.filter_cons_of_neg (by simp [huf]), List.filter_cons_of_neg (by simp [huf])]
        exact this
      · rw [List.filter_cons_of_pos (by simp [huf, hu]), List.filter_cons_of_pos (by simp [huf])]
        simp only [List.length_cons]
        omega

/-- Correctness of the work-stack fill with enough fuel: the result keeps what was filled,
contains the stack, adds only pixels reachable from the stack, and every added pixel has all
its neighbours in the result. -/
theorem fillAux_spec (nbrs : Pixel → List Pixel) (U : List Pixel) (d : Nat)
    (hU : ∀ p ∈ U, ∀ q ∈ nbrs p, q ∈ U) (hd : ∀ p, (nbrs p).length ≤ d) :
    ∀ (n : Nat) (stack filled : List Pixel), (∀ p ∈ stack, p ∈ U) →
      stack.length + d * unfilled U filled ≤ n →
      (∀ v ∈ filled, v ∈ fillAux nbrs n stack filled) ∧
      (∀ v ∈ stack, v ∈ fillAux nbrs n stack filled) ∧
      (∀ v ∈ fillAux nbrs n stack filled, v ∈ filled ∨
        ∃ s ∈ stack, Relation.ReflTransGen (fun a b => b ∈ nbrs a) s v) ∧
      (∀ v ∈ fillAux nbrs n stack filled, v ∉ filled →
        ∀ w ∈ nbrs v, w ∈ fillAux nbrs n stack filled) ∧
      (filled.Nodup → (fillAux nbrs n stack filled).Nodup) := by
  intro n
  induction n with
  | zero =>
    intro stack filled _ hfuel
    have hs : stack = [] := List.length_eq_zero.1 (by omega)
    subst hs
    simp only [fillAux]
    exact ⟨fun v h => h, by simp, fun v h => Or.inl h, fun v h h' => absurd h h', fun h => h⟩
  | succ n ih =>
    intro stack filled hsU hfuel
    cases stack with
    | nil =>
      simp only [fillAux]
      exact ⟨fun v h => h, by simp, fun v h => Or.inl h, fun v h h' => absurd h h', fun h => h⟩
    | cons p stack =>
      have hpU : p ∈ U := hsU p (List.mem_cons_self _ _)
      have hsU' : ∀ q ∈ stack, q ∈ U := fun q hq => hsU q (List.mem_cons_of_mem _ hq)
      by_cases hp : p ∈ filled
      · have hfuel' : stack.length + d * unfilled U filled ≤ n := by
          simp only [List.length_cons] at hfuel; omega
        obtain ⟨h1, h2, h3, h4, h5⟩ := ih stack filled hsU' hfuel'
        simp only [fillAux, hp, if_true]
        refine ⟨h1, ?_, ?_, h4, h5⟩
        · intro v hv
          rcases List.mem_cons.1 hv with h | h
          · subst h; exact h1 _ hp
          · exact h2 v h
        · intro v hv
          rcases h3 v hv with h | ⟨s, hs, hr⟩
          · exact Or.inl h
          · exact Or.inr ⟨s, List.mem_cons_of_mem _ hs, hr⟩
      · have hlt := unfilled_cons_lt U filled p hpU hp
        have hfuel' : (nbrs p ++ stack).length + d * unfilled U (p :: filled) ≤ n := by
          have hdp := hd p
          have hmul : d * unfilled U (p :: filled) + d ≤ d * unfilled U filled := by
            calc d * unfilled U (p :: filled) + d = d * (unfilled U (p :: filled) + 1) := by ring
              _ ≤ d * unfilled U filled := Nat.mul_le_mul_left d hlt
          simp only [List.length_cons, List.length_append] at hfuel ⊢
          omega
        have hsU'' : ∀ q ∈ nbrs p ++ stack, q ∈ U := by
          intro q hq
          rcases List.mem_append.1 hq with h | h
          · exact hU p hpU q h
          · exact hsU' q h
        obtain ⟨h1, h2, h3, h4, h5⟩ := ih (nbrs p ++ stack) (p :: filled) hsU'' hfuel'
        simp only [fillAux, hp, if_false]
        refine ⟨?_, ?_, ?_, ?_, ?_⟩
        · intro v hv
          exact h1 v (List.mem_cons_of_mem _ hv)
        · intro v hv
          rcases List.mem_cons.1 hv with h | h
          · subst h; exact h1 _ (List.mem_cons_self _ _)
          · exact h2 v (List.mem_append_right _ h)
        · intro v hv
          rcases h3 v hv with h | ⟨s, hs, hr⟩
          · rcases List.mem_cons.1 h with h | h
            · subst h
              exact Or.inr ⟨v, List.mem_cons_self _ _, Relation.ReflTransGen.refl⟩
            · exact Or.inl h
          · rcases List.mem_append.1 hs with h | h
            · exact Or.inr ⟨p, List.mem_cons_self _ _, Relation.ReflTransGen.head h hr⟩
            · exact Or.inr ⟨s, List.mem_cons_of_mem _ h, hr⟩
        · intro v hv hvf w hw
          by_cases hvp : v = p
          · subst hvp
            exact h2 w (List.mem_append_left _ hw)
          · exact h4 v hv (by simp [hvp, hvf]) w hw
        · intro hnd
          exact h5 (List.nodup_cons.2 ⟨hp, hnd⟩)

theorem LabelMap.mem_pixels (L : LabelMap) (p : Pixel) : p ∈ L.pixels ↔ L.inBounds p := by
  obtain ⟨i, j⟩ := p
  simp only [LabelMap.pixels, LabelMap.inBounds, List.mem_map, List.mem_range, Prod.mk.injEq]
  constructor
  · rintro ⟨k, hk, rfl, rfl⟩
    have hc : 0 < L.cols := by
      rcases Nat.eq_zero_or_pos L.cols with h | h
      · rw [h] at hk; simp at hk
      · exact h
    exact ⟨Nat.div_lt_of_lt_mul (by rwa [Nat.mul_comm] at hk), Nat.mod_lt _ hc⟩
  · rintro ⟨hi, hj⟩
    refine ⟨i * L.cols + j, ?_, ?_, ?_⟩
    · calc i * L.cols + j < i * L.cols + L.cols := by omega
        _ = (i + 1) * L.cols := by ring
        _ ≤ L.rows * L.cols := Nat.mul_le_mul_right _ hi
    · rw [Nat.add_comm, Nat.add_mul_div_right _ _ (by omega), Nat.div_eq_of_lt hj]; simp
    · rw [Nat.add_comm, Nat.add_mul_mod_self_right, Nat.mod_eq_of_lt hj]

theorem LabelMap.get_tabulate (L : LabelMap) (f : Pixel → Int) (p : Pixel)
    (hp : L.inBounds p) : (L.tabulate f).get p = f p := by
  obtain ⟨i, j⟩ := p
  obtain ⟨hi, hj⟩ := hp
  have hlt : i * L.cols + j < L.rows * L.cols := by
    calc i * L.cols + j < i * L.cols + L.cols := by omega
      _ = (i + 1) * L.cols := by ring
      _ ≤ L.rows * L.cols := Nat.mul_le_mul_right _ hi
  have h1 : (j + i * L.cols) / L.cols = i := by
    rw [Nat.add_mul_div_right _ _ (by omega), Nat.div_eq_of_lt hj]; simp
  have h2 : (j + i * L.cols) % L.cols = j := by
    rw [Nat.add_mul_mod_self_right, Nat.mod_eq_of_lt hj]
  simp only [LabelMap.get, LabelMap.tabulate, LabelMap.pixels, List.map_map]
  rw [List.getD_eq_getElem _ _ (by simpa using hlt)]
  simp only [List.getElem_map, List.getElem_range, Function.comp]
  rw [Nat.add_comm, h1, h2]

theorem Connected.inBounds {L : LabelMap} {p q : Pixel} (h : Connected L p q)
    (hp : L.inBounds p) : L.inBounds q := by
  induction h with
  | refl => exact hp
  | tail _ hs _ => exact hs.2.1

theorem Connected.get_eq {L : LabelMap} {p q : Pixel} (h : Connected L p q) :
    L.get q = L.get p := by
  induction h with
  | refl => rfl
  | tail _ hs ih => rw [hs.2.2, ih]

theorem adjacent4_symm {p q : Pixel} (h : adjacent4 p q) : adjacent4 q p := by
  unfold adjacent4 at *
  omega

theorem Connected.symm {L : LabelMap} {p q : Pixel} (h : Connected L p q)
    (hp : L.inBounds p) : Connected L q p := by
  induction h with
  | refl => exact Relation.ReflTransGen.refl
  | @tail b c hb hs ih =>
    have hbb : L.inBounds b := Connected.inBounds hb hp
    exact Relation.ReflTransGen.head ⟨adjacent4_symm hs.1, hbb, hs.2.2.symm⟩ ih

theorem Connected.trans {L : LabelMap} {p q r : Pixel} (h1 : Connected L p q)
    (h2 : Connected L q r) : Connected L p r :=
  Relation.ReflTransGen.trans h1 h2

theorem unfilled_nil_le (L : LabelMap) : unfilled L.pixels [] ≤ L.rows * L.cols := by
  unfold unfilled
  refine (List.length_filter_le _ _).trans ?_
  simp [LabelMap.pixels]

/-- The flood fill from an in-grid seed is exactly the seed's same-label 4-component. -/
theorem mem_floodFill (L : LabelMap) (p q : Pixel) (hp : L.inBounds p) :
    q ∈ floodFill L p ↔ Connected L p q := by
  have hU : ∀ a ∈ L.pixels, ∀ b ∈ sameLabelNeighbours L a, b ∈ L.pixels := by
    intro a _ b hb
    exact (L.mem_pixels b).2 ((mem_sameLabelNeighbours L a b).1 hb).2.1
  have hfuel : [p].length + 4 * unfilled L.pixels [] ≤ 4 * (L.rows * L.cols) + 1 := by
    have := unfilled_nil_le L
    simp only [List.length_singleton]; omega
  obtain ⟨_, h2, h3, h4, _⟩ := fillAux_spec (sameLabelNeighbours L) L.pixels 4 hU
    (length_sameLabelNeighbours_le L) _ [p] []
    (by intro a ha; rw [List.mem_singleton.1 ha]; exact (L.mem_pixels p).2 hp) hfuel
  constructor
  · intro hq
    rcases h3 q hq with h | ⟨s, hs, hr⟩
    · simp at h
    · rw [List.mem_singleton.1 hs] at hr
      exact Relation.ReflTransGen.mono (fun a b hab => (mem_sameLabelNeighbours L a b).1 hab) hr
  · intro hc
    induction hc with
    | refl => exact h2 p (List.mem_singleton_self p)
    | tail _ hs ih =>
      exact h4 _ ih (by simp) _ ((mem_sameLabelNeighbours L _ _).2 hs)

theorem nodup_floodFill (L : LabelMap) (p : Pixel) (hp : L.inBounds p) :
    (floodFill L p).Nodup := by
  have hU : ∀ a ∈ L.pixels, ∀ b ∈ sameLabelNeighbours L a, b ∈ L.pixels := by
    intro a _ b hb
    exact (L.mem_pixels b).2 ((mem_sameLabelNeighbours L a b).1 hb).2.1
  have hfuel : [p].length + 4 * unfilled L.pixels [] ≤ 4 * (L.rows * L.cols) + 1 := by
    have := unfilled_nil_le L
    simp only [List.length_singleton]; omega
  exact (fillAux_spec (sameLabelNeighbours L) L.pixels 4 hU
    (length_sameLabelNeighbours_le L) _ [p] []
    (by intro a ha; rw [List.mem_singleton.1 ha]; exact (L.mem_pixels p).2 hp) hfuel).2.2.2.2
    List.nodup_nil

theorem splitInv_init (L : LabelMap) : SplitInv L { ids := fun _ => none, next := 0 } :=
  ⟨by simp, by simp, by simp, by simp⟩

theorem splitStep_visited (L : LabelMap) (st : SplitState) (p : Pixel) (hp : L.inBounds p) :
    (splitStep L st p).ids p ≠ none := by
  unfold splitStep
  cases h : st.ids p with
  | some k => simp [h]
  | none =>
    have : p ∈ floodFill L p := (mem_floodFill L p p hp).2 Relation.ReflTransGen.refl
    simp [this]

theorem splitStep_mono (L : LabelMap) (st : SplitState) (hst : SplitInv L st) (p : Pixel)
    (hp : L.inBounds p) (q : Pixel) (hq : st.ids q ≠ none) :
    (splitStep L st p).ids q = st.ids q := by
  unfold splitStep
  cases h : st.ids p with
  | some k => rfl
  | none =>
    simp only
    by_cases hm : q ∈ floodFill L p
    · exfalso
      obtain ⟨k, hk⟩ := Option.ne_none_iff_exists'.1 hq
      have hc : Connected L p q := (mem_floodFill L p q hp).1 hm
      have hqb : L.inBounds q := hst.inb q k hk
      have := (hst.comp q k hk p).2 (hc.symm hp)
      rw [h] at this
      exact Option.noConfusion this
    · simp [hm]

theorem splitStep_inv (L : LabelMap) (st : SplitState) (hst : SplitInv L st) (p : Pixel)
    (hp : L.inBounds p) : SplitInv L (splitStep L st p) := by
  unfold splitStep
  cases h : st.ids p with
  | some k => exact hst
  | none =>
    have hfresh : ∀ q, q ∈ floodFill L p → st.ids q = none := by
      intro q hm
      by_contra hq
      have := splitStep_mono L st hst p hp q hq
      unfold splitStep at this
      rw [h] at this
      simp only [hm, if_true] at this
      obtain ⟨k, hk⟩ := Option.ne_none_iff_exists'.1 hq
      rw [hk] at this
      have hlt := hst.lt q k hk
      simp only [Option.some.injEq] at this
      omega
    refine ⟨?_, ?_, ?_, ?_⟩
    · intro q k hk
      simp only at hk
      by_cases hm : q ∈ floodFill L p
      · exact ((mem_floodFill L p q hp).1 hm).inBounds hp
      · simp only [hm, if_false] at hk
        exact hst.inb q k hk
    · intro q k hk
      simp only at hk ⊢
      by_cases hm : q ∈ floodFill L p
      · simp only [hm, if_true, Option.some.injEq] at hk
        omega
      · simp only [hm, if_false] at hk
        have := hst.lt q k hk
        omega
    · intro k hk
      simp only at hk ⊢
      by_cases hkn : k = st.next
      · refine ⟨p, ?_⟩
        have : p ∈ floodFill L p := (mem_floodFill L p p hp).2 Relation.ReflTransGen.refl
        simp [this, hkn]
      · obtain ⟨q, hq⟩ := hst.surj k (by omega)
        refine ⟨q, ?_⟩
        have hm : q ∉ floodFill L p := by
          intro hm
          rw [hfresh q hm] at hq
          exact Option.noConfusion hq
        simp [hm, hq]
    · intro q k hk r
      simp only at hk ⊢
      by_cases hm : q ∈ floodFill L p
      · simp only [hm, if_true, Option.some.injEq] at hk
        subst hk
        have hpq : Connected L p q := (mem_floodFill L p q hp).1 hm
        have hqb : L.inBounds q := hpq.inBounds hp
        by_cases hr : r ∈ floodFill L p
        · simp only [hr, if_true, true_iff]
          exact (hpq.symm hp).trans ((mem_floodFill L p r hp).1 hr)
        · simp only [hr, if_false]
          constructor
          · intro hk'
            have := hst.lt r _ hk'
            omega
          · intro hqr
            exact absurd ((mem_floodFill L p r hp).2 (hpq.trans hqr)) hr
      · simp only [hm, if_false] at hk
        have hqb : L.inBounds q := hst.inb q k hk
        have hklt := hst.lt q k hk
        by_cases hr : r ∈ floodFill L p
        · simp only [hr, if_true, Option.some.injEq]
          constructor
          · intro hk'
            omega
          · intro hqr
            exfalso
            have h1 := (hst.comp q k hk r).2 hqr
            rw [hfresh r hr] at h1
            exact Option.noConfusion h1
        · simp only [hr, if_false]
          exact hst.comp q k hk r

theorem splitFold_inv (L : LabelMap) (l : List Pixel) (hl : ∀ p ∈ l, L.inBounds p) :
    ∀ st, SplitInv L st →
      SplitInv L (l.foldl (splitStep L) st) ∧
      (∀ q, st.ids q ≠ none → (l.foldl (splitStep L) st).ids q = st.ids q) ∧
      (∀ p ∈ l, (l.foldl (splitStep L) st).ids p ≠ none) := by
  induction l with
  | nil => intro st hst; exact ⟨hst, fun _ _ => rfl, by simp⟩
  | cons a l ih =>
    intro st hst
    have ha : L.inBounds a := hl a (List.mem_cons_self _ _)
    have hst' := splitStep_inv L st hst a ha
    obtain ⟨h1, h2, h3⟩ := ih (fun p hp => hl p (List.mem_cons_of_mem _ hp)) _ hst'
    simp only [List.foldl_cons]
    refine ⟨h1, ?_, ?_⟩
    · intro q hq
      have hm := splitStep_mono L st hst a ha q hq
      rw [h2 q (by rw [hm]; exact hq), hm]
    · intro p hp
      rcases List.mem_cons.1 hp with h | h
      · subst h
        have hv := splitStep_visited L st p ha
        rw [h2 p hv]; exact hv
      · exact h3 p h

/-- Summary of the splitter scan: every in-grid pixel has an id below `next`, every id below
`next` is in use, and two in-grid pixels share an id iff they are same-label 4-connected. -/
theorem splitScan_spec (L : LabelMap) :
    (∀ p, L.inBounds p → ∃ k, (splitScan L).ids p = some k ∧ k < (splitScan L).next) ∧
    (∀ k, k < (splitScan L).next → ∃ p, L.inBounds p ∧ (splitScan L).ids p = some k) ∧
    (∀ p q, L.inBounds p → L.inBounds q →
      ((splitScan L).ids p = (splitScan L).ids q ↔ Connected L p q)) := by
  obtain ⟨hinv, _, hvis⟩ := splitFold_inv L L.pixels (fun p hp => (L.mem_pixels p).1 hp) _
    (splitInv_init L)
  have hex : ∀ p, L.inBounds p → ∃ k, (splitScan L).ids p = some k ∧ k < (splitScan L).next := by
    intro p hp
    obtain ⟨k, hk⟩ := Option.ne_none_iff_exists'.1 (hvis p ((L.mem_pixels p).2 hp))
    exact ⟨k, hk, hinv.lt p k hk⟩
  refine ⟨hex, ?_, ?_⟩
  · intro k hk
    obtain ⟨p, hp⟩ := hinv.surj k hk
    exact ⟨p, hinv.inb p k hp, hp⟩
  · intro p q hp hq
    obtain ⟨k, hk, _⟩ := hex p hp
    have := hinv.comp p k hk q
    unfold splitScan at *
    rw [hk]
    constructor
    · intro h; exact this.1 h.symm
    · intro h; exact (this.2 h).symm

theorem connected_iff_regionPath (M : LabelMap) (p q : Pixel) :
    Connected M p q ↔
      Relation.ReflTransGen (fun a b => adjacent4 a b ∧ M.region (M.get p) b) p q := by
  constructor
  · intro h
    induction h with
    | refl => exact Relation.ReflTransGen.refl
    | @tail b c hb hs ih =>
      refine Relation.ReflTransGen.tail ih ⟨hs.1, hs.2.1, ?_⟩
      rw [hs.2.2, Connected.get_eq hb]
  · intro h
    have key : Connected M p q ∧ M.get q = M.get p := by
      induction h with
      | refl => exact ⟨Relation.ReflTransGen.refl, rfl⟩
      | @tail b c _ hs ih =>
        exact ⟨Relation.ReflTransGen.tail ih.1 ⟨hs.1, hs.2.1, by rw [hs.2.2, ih.2]⟩, hs.2.2⟩
    exact key.1

theorem regionsConnected_iff (M : LabelMap) :
    (∀ l, FourConnected (M.region l)) ↔
      ∀ p q, M.inBounds p → M.inBounds q → M.get p = M.get q → Connected M p q := by
  constructor
  · intro h p q hp hq hpq
    exact (connected_iff_regionPath M p q).2 (h (M.get p) p q ⟨hp, rfl⟩ ⟨hq, hpq.symm⟩)
  · intro h l p q hp hq
    have := (connected_iff_regionPath M p q).1 (h p q hp.1 hq.1 (by rw [hp.2, hq.2]))
    rwa [hp.2] at this

theorem split_inBounds (L : LabelMap) (p : Pixel) :
    (relabelConnectedSuperpixels L).1.inBounds p ↔ L.inBounds p := Iff.rfl

theorem split_get (L : LabelMap) (p : Pixel) (hp : L.inBounds p) :
    ∃ k, (splitScan L).ids p = some k ∧ k < (relabelConnectedSuperpixels L).2 ∧
      (relabelConnectedSuperpixels L).1.get p = (k : Int) := by
  obtain ⟨k, hk, hlt⟩ := (splitScan_spec L).1 p hp
  refine ⟨k, hk, hlt, ?_⟩
  simp only [relabelConnectedSuperpixels]
  rw [LabelMap.get_tabulate L _ p hp, hk]
  rfl

theorem split_get_eq_iff (L : LabelMap) (p q : Pixel) (hp : L.inBounds p) (hq : L.inBounds q) :
    (relabelConnectedSuperpixels L).1.get p = (relabelConnectedSuperpixels L).1.get q ↔
      Connected L p q := by
  obtain ⟨k, hk, _, hgk⟩ := split_get L p hp
  obtain ⟨k', hk', _, hgk'⟩ := split_get L q hq
  rw [hgk, hgk', ← (splitScan_spec L).2.2 p q hp hq, hk, hk']
  simp

theorem split_regionsConnected (L : LabelMap) :
    ∀ p q, (relabelConnectedSuperpixels L).1.inBounds p →
      (relabelConnectedSuperpixels L).1.inBounds q →
      (relabelConnectedSuperpixels L).1.get p = (relabelConnectedSuperpixels L).1.get q →
      Connected (relabelConnectedSuperpixels L).1 p q := by
  intro p q hp hq hpq
  have hc : Connected L p q := (split_get_eq_iff L p q hp hq).1 hpq
  clear hpq hq
  induction hc with
  | refl => exact Relation.ReflTransGen.refl
  | @tail b c hb hs ih =>
    have hbb : L.inBounds b := Connected.inBounds hb hp
    refine Relation.ReflTransGen.tail ih ⟨hs.1, hs.2.1, ?_⟩
    exact ((split_get_eq_iff L b c hbb hs.2.1).2
      (Relation.ReflTransGen.single hs)).symm

theorem split_surj (L : LabelMap) (k : Nat) (hk : k < (relabelConnectedSuperpixels L).2) :
    ∃ p, L.inBounds p ∧ (relabelConnectedSuperpixels L).1.get p = (k : Int) := by
  obtain ⟨p, hp, hid⟩ := (splitScan_spec L).2.1 k hk
  obtain ⟨k', hk', _, hg⟩ := split_get L p hp
  rw [hid] at hk'
  cases hk'
  exact ⟨p, hp, hg⟩

/-- Counting the splitter's components against the distinct input labels. -/
theorem split_count (L : LabelMap) :
    L.labels.length ≤ (relabelConnectedSuperpixels L).2 ∧
    ((relabelConnectedSuperpixels L).2 = L.labels.length ↔
      ∀ p q, L.inBounds p → L.inBounds q → L.get p = L.get q → Connected L p q) := by
  classical
  set n := (relabelConnectedSuperpixels L).2 with hn
  have hrep : ∀ k : Nat, ∃ p : Pixel, k < n →
      L.inBounds p ∧ (relabelConnectedSuperpixels L).1.get p = (k : Int) := by
    intro k
    by_cases hk : k < n
    · obtain ⟨p, hp⟩ := split_surj L k hk
      exact ⟨p, fun _ => hp⟩
    · exact ⟨(0, 0), fun h => absurd h hk⟩
  choose rep hrep using hrep
  have himg : (L.pixels.map L.get).toFinset = (Finset.range n).image (fun k => L.get (rep k)) := by
    ext l
    simp only [List.mem_toFinset, List.mem_map, Finset.mem_image, Finset.mem_range]
    constructor
    · rintro ⟨p, hp, rfl⟩
      have hpb := (L.mem_pixels p).1 hp
      obtain ⟨k, _, hk, hg⟩ := split_get L p hpb
      refine ⟨k, hk, ?_⟩
      obtain ⟨hrb, hrg⟩ := hrep k hk
      exact ((split_get_eq_iff L _ _ hrb hpb).1 (by rw [hrg, hg])).get_eq.symm
    · rintro ⟨k, hk, rfl⟩
      exact ⟨rep k, (L.mem_pixels _).2 (hrep k hk).1, rfl⟩
  have hcard : L.labels.length = ((Finset.range n).image (fun k => L.get (rep k))).card := by
    rw [← himg, List.card_toFinset]; rfl
  constructor
  · rw [hcard]
    exact (Finset.card_image_le).trans (by simp)
  · rw [hcard]
    constructor
    · intro heq p q hp hq hpq
      have hinj : Set.InjOn (fun k => L.get (rep k)) (Finset.range n : Set Nat) :=
        Finset.card_image_iff.1 (by rw [← heq]; simp)
      obtain ⟨k, _, hk, hg⟩ := split_get L p hp
      obtain ⟨k', _, hk', hg'⟩ := split_get L q hq
      obtain ⟨hrb, hrg⟩ := hrep k hk
      obtain ⟨hrb', hrg'⟩ := hrep k' hk'
      have h1 : L.get p = L.get (rep k) :=
        ((split_get_eq_iff L _ _ hrb hp).1 (by rw [hrg, hg])).get_eq
      have h2 : L.get q = L.get (rep k') :=
        ((split_get_eq_iff L _ _ hrb' hq).1 (by rw [hrg', hg'])).get_eq
      have hkk : k = k' := hinj (by simpa using hk) (by simpa using hk')
        (by show L.get (rep k) = L.get (rep k'); rw [← h1, ← h2, hpq])
      exact (split_get_eq_iff L p q hp hq).1 (by rw [hg, hg', hkk])
    · intro hconn
      have hinj : Set.InjOn (fun k => L.get (rep k)) (Finset.range n : Set Nat) := by
        intro k hk k' hk' hkk
        simp only [Finset.coe_range, Set.mem_Iio] at hk hk'
        obtain ⟨hrb, hrg⟩ := hrep k hk
        obtain ⟨hrb', hrg'⟩ := hrep k' hk'
        have := (split_get_eq_iff L _ _ hrb hrb').2 (hconn _ _ hrb hrb' hkk)
        rw [hrg, hrg'] at this
        exact_mod_cast this
      rw [Finset.card_image_iff.2 hinj]
      simp

theorem split_labels_length (L : LabelMap) :
    (relabelConnectedSuperpixels L).1.labels.length = (relabelConnectedSuperpixels L).2 := by
  classical
  have himg : ((relabelConnectedSuperpixels L).1.pixels.map (relabelConnectedSuperpixels L).1.get).toFinset
      = (Finset.range (relabelConnectedSuperpixels L).2).image (fun k : Nat => (k : Int)) := by
    ext l
    simp only [List.mem_toFinset, List.mem_map, Finset.mem_image, Finset.mem_range]
    constructor
    · rintro ⟨p, hp, rfl⟩
      have hpb : L.inBounds p := (LabelMap.mem_pixels _ p).1 hp
      obtain ⟨k, _, hk, hg⟩ := split_get L p hpb
      exact ⟨k, hk, hg.symm⟩
    · rintro ⟨k, hk, rfl⟩
      obtain ⟨p, hp, hg⟩ := split_surj L k hk
      exact ⟨p, (LabelMap.mem_pixels _ p).2 hp, hg⟩
  have : (relabelConnectedSuperpixels L).1.labels.length
      = ((Finset.range (relabelConnectedSuperpixels L).2).image (fun k : Nat => (k : Int))).card := by
    rw [← himg, List.card_toFinset]; rfl
  rw [this, Finset.card_image_of_injective _ Nat.cast_injective]
  simp

/-- Decidable test for "every label is one 4-connected piece". -/
theorem regionsConnected_of_check (M : LabelMap)
    (h : ∀ p ∈ M.pixels, ∀ q ∈ M.pixels, M.get p = M.get q → q ∈ floodFill M p) :
    ∀ l, FourConnected (M.region l) := by
  rw [regionsConnected_iff]
  intro p q hp hq hpq
  exact (mem_floodFill M p q hp).1 (h p ((M.mem_pixels p).2 hp) q ((M.mem_pixels q).2 hq) hpq)

/-- C3: every output label of the connectivity splitter marks a 4-connected set of pixels
that all carried one label in the input; on the map whose label 7 occupies two diagonally
touching 2x2 blocks, label 7 is split into the two output labels 0 and 3 of 4 pixels each. -/
theorem C3_splitter_output_labels_connected (L : LabelMap) (l : Int) :
    FourConnected ((relabelConnectedSuperpixels L).1.region l) ∧
    (∀ p q, (relabelConnectedSuperpixels L).1.region l p →
      (relabelConnectedSuperpixels L).1.region l q → L.get p = L.get q) ∧
    (((diagonalBlocks.pixels.filter (fun p => decide (diagonalBlocks.get p = 7))).map
        (relabelConnectedSuperpixels diagonalBlocks).1.get).dedup = [0, 3] ∧
      (relabelConnectedSuperpixels diagonalBlocks).1.size 0 = 4 ∧
      (relabelConnectedSuperpixels diagonalBlocks).1.size 3 = 4) := by
  refine ⟨?_, ?_, by decide⟩
  · exact (regionsConnected_iff _).2 (split_regionsConnected L) l
  · intro p q hp hq
    have := (split_get_eq_iff L p q hp.1 hq.1).1 (by rw [hp.2, hq.2])
    exact this.get_eq.symm

/-- C4: the splitter produces at least as many components as the input has distinct labels,
with equality exactly when every input label is one 4-connected piece; a 4x4 map with a
single label yields 1 component of 16 pixels. -/
theorem C4_splitter_component_count (L : LabelMap) :
    L.labels.length ≤ (relabelConnectedSuperpixels L).2 ∧
    ((relabelConnectedSuperpixels L).2 = L.labels.length ↔ ∀ l, FourConnected (L.region l)) ∧
    (relabelConnectedSuperpixels L).1.labels.length = (relabelConnectedSuperpixels L).2 ∧
    ((relabelConnectedSuperpixels ⟨4, 4, List.replicate 16 1⟩).2 = 1 ∧
      (relabelConnectedSuperpixels ⟨4, 4, List.replicate 16 1⟩).1.size 0 = 16) := by
  refine ⟨(split_count L).1, ?_, split_labels_length L, by decide⟩
  rw [regionsConnected_iff]
  exact (split_count L).2

/-- C5: on a map whose labels are each one 4-connected piece the splitter keeps the
partition (same component count, same membership), and splitting twice induces the same
partition and count as splitting once. -/
theorem C5_splitter_idempotent_on_partitions (L : LabelMap) :
    ((∀ l, FourConnected (L.region l)) →
      (relabelConnectedSuperpixels L).2 = L.labels.length ∧
      ∀ p q, L.inBounds p → L.inBounds q →
        ((relabelConnectedSuperpixels L).1.get p = (relabelConnectedSuperpixels L).1.get q ↔
          L.get p = L.get q)) ∧
    ((relabelConnectedSuperpixels (relabelConnectedSuperpixels L).1).2 =
        (relabelConnectedSuperpixels L).2 ∧
      ∀ p q, L.inBounds p → L.inBounds q →
        ((relabelConnectedSuperpixels (relabelConnectedSuperpixels L).1).1.get p =
            (relabelConnectedSuperpixels (relabelConnectedSuperpixels L).1).1.get q ↔
          (relabelConnectedSuperpixels L).1.get p = (relabelConnectedSuperpixels L).1.get q)) := by
  have key : ∀ M : LabelMap,
      (∀ p q, M.inBounds p → M.inBounds q → M.get p = M.get q → Connected M p q) →
      (relabelConnectedSuperpixels M).2 = M.labels.length ∧
      ∀ p q, M.inBounds p → M.inBounds q →
        ((relabelConnectedSuperpixels M).1.get p = (relabelConnectedSuperpixels M).1.get q ↔
          M.get p = M.get q) := by
    intro M hM
    refine ⟨(split_count M).2.2 hM, ?_⟩
    intro p q hp hq
    rw [split_get_eq_iff M p q hp hq]
    exact ⟨fun h => h.get_eq.symm, hM p q hp hq⟩
  constructor
  · intro h
    exact key L ((regionsConnected_iff L).1 h)
  · obtain ⟨h1, h2⟩ := key (relabelConnectedSuperpixels L).1 (split_regionsConnected L)
    exact ⟨by rw [h1, split_labels_length], h2⟩

/-- C5 at a concrete map of two connected labels: the hypothesis holds and the splitter
keeps the partition. -/
theorem C5_splitter_idempotent_witness :
    (∀ l, FourConnected ((⟨2, 2, [5, 5, 9, 9]⟩ : LabelMap).region l)) ∧
    (relabelConnectedSuperpixels ⟨2, 2, [5, 5, 9, 9]⟩).2 =
      (⟨2, 2, [5, 5, 9, 9]⟩ : LabelMap).labels.length :=
  ⟨regionsConnected_of_check _ (by decide),
    ((C5_splitter_idempotent_on_partitions ⟨2, 2, [5, 5, 9, 9]⟩).1
      (regionsConnected_of_check _ (by decide))).1⟩

theorem scanTable_extends (seen xs : List Int) : ∃ ext, scanTable seen xs = seen ++ ext := by
  induction xs generalizing seen with
  | nil => exact ⟨[], by simp [scanTable]⟩
  | cons x xs ih =>
    unfold scanTable
    split
    · exact ih seen
    · obtain ⟨ext, h⟩ := ih (seen ++ [x])
      exact ⟨x :: ext, by rw [h]; simp⟩

theorem scanTable_nodup (seen xs : List Int) (h : seen.Nodup) : (scanTable seen xs).Nodup := by
  induction xs generalizing seen with
  | nil => simpa [scanTable] using h
  | cons x xs ih =>
    unfold scanTable
    split
    · exact ih seen h
    · rename_i hx
      apply ih
      rw [List.nodup_append]
      refine ⟨h, List.nodup_singleton x, ?_⟩
      intro a ha hb
      rw [List.mem_singleton.1 hb] at ha
      exact hx ha

theorem mem_scanTable (seen xs : List Int) (a : Int) :
    a ∈ scanTable seen xs ↔ a ∈ seen ∨ a ∈ xs := by
  induction xs generalizing seen with
  | nil => simp [scanTable]
  | cons x xs ih =>
    unfold scanTable
    split
    · rename_i hx
      rw [ih]
      constructor
      · rintro (h | h)
        · exact Or.inl h
        · exact Or.inr (List.mem_cons_of_mem _ h)
      · rintro (h | h)
        · exact Or.inl h
        · rcases List.mem_cons.1 h with h | h
          · subst h; exact Or.inl hx
          · exact Or.inr h
    · rw [ih]
      simp only [List.mem_append, List.mem_singleton, List.mem_cons]
      tauto

theorem relabelScan_length (seen xs : List Int) : (relabelScan seen xs).length = xs.length := by
  induction xs generalizing seen with
  | nil => simp [relabelScan]
  | cons x xs ih =>
    unfold relabelScan
    split <;> simp [ih]

/-- Closed form of the scan: every entry is replaced by its position in the final table. -/
theorem relabelScan_eq_map (seen xs : List Int) :
    relabelScan seen xs = xs.map (fun x => ((scanTable seen xs).indexOf x : Int)) := by
  induction xs generalizing seen with
  | nil => simp [relabelScan]
  | cons x xs ih =>
    unfold relabelScan scanTable
    split
    · rename_i hx
      obtain ⟨ext, hext⟩ := scanTable_extends seen xs
      simp only [List.map_cons]
      congr 1
      · rw [hext, List.indexOf_append_of_mem hx]
      · exact ih seen
    · rename_i hx
      obtain ⟨ext, hext⟩ := scanTable_extends (seen ++ [x]) xs
      simp only [List.map_cons]
      congr 1
      · rw [hext, List.append_assoc, List.indexOf_append_of_not_mem hx]
        simp
      · exact ih (seen ++ [x])

theorem relabelScan_append (seen xs ys : List Int) :
    relabelScan seen (xs ++ ys) = relabelScan seen xs ++ relabelScan (scanTable seen xs) ys := by
  induction xs generalizing seen with
  | nil => simp [relabelScan, scanTable]
  | cons x xs ih =>
    simp only [List.cons_append]
    by_cases hx : x ∈ seen
    · rw [relabelScan, if_pos hx, relabelScan, if_pos hx, scanTable, if_pos hx, ih]
      simp
    · rw [relabelScan, if_neg hx, relabelScan, if_neg hx, scanTable, if_neg hx, ih]
      simp

theorem scanTable_length (xs : List Int) : (scanTable [] xs).length = xs.dedup.length := by
  apply List.Perm.length_eq
  rw [List.perm_ext_iff_of_nodup (scanTable_nodup [] xs List.nodup_nil) (List.nodup_dedup xs)]
  intro a
  simp [mem_scanTable]

theorem relabelSuperpixels_eq_tabulate (L : LabelMap) :
    relabelSuperpixels L =
      L.tabulate (fun p => ((scanTable [] (L.pixels.map L.get)).indexOf (L.get p) : Int)) := by
  simp only [relabelSuperpixels, LabelMap.tabulate, relabelScan_eq_map, List.map_map]
  rfl

theorem relabel_get (L : LabelMap) (p : Pixel) (hp : L.inBounds p) :
    (relabelSuperpixels L).get p =
      ((scanTable [] (L.pixels.map L.get)).indexOf (L.get p) : Int) := by
  rw [relabelSuperpixels_eq_tabulate, LabelMap.get_tabulate L _ p hp]

theorem relabel_get_mem (L : LabelMap) (p : Pixel) (hp : L.inBounds p) :
    L.get p ∈ scanTable [] (L.pixels.map L.get) := by
  rw [mem_scanTable]
  exact Or.inr (List.mem_map.2 ⟨p, (L.mem_pixels p).2 hp, rfl⟩)

theorem relabel_get_eq_iff (L : LabelMap) (p q : Pixel) (hp : L.inBounds p)
    (hq : L.inBounds q) :
    (relabelSuperpixels L).get p = (relabelSuperpixels L).get q ↔ L.get p = L.get q := by
  rw [relabel_get L p hp, relabel_get L q hq, Nat.cast_inj,
    List.indexOf_inj (relabel_get_mem L p hp) (relabel_get_mem L q hq)]

theorem relabel_get_range (L : LabelMap) (p : Pixel) (hp : L.inBounds p) :
    0 ≤ (relabelSuperpixels L).get p ∧ (relabelSuperpixels L).get p < (L.labels.length : Int) := by
  rw [relabel_get L p hp]
  refine ⟨Int.natCast_nonneg _, ?_⟩
  have := List.indexOf_lt_length.2 (relabel_get_mem L p hp)
  rw [scanTable_length] at this
  exact_mod_cast this

theorem relabel_surj (L : LabelMap) (k : Nat) (hk : k < L.labels.length) :
    ∃ p, L.inBounds p ∧ (relabelSuperpixels L).get p = (k : Int) := by
  have hk' : k < (scanTable [] (L.pixels.map L.get)).length := by
    rw [scanTable_length]; exact hk
  have hmem : (scanTable [] (L.pixels.map L.get))[k] ∈ scanTable [] (L.pixels.map L.get) :=
    List.getElem_mem _
  rw [mem_scanTable] at hmem
  rcases hmem with h | h
  · simp at h
  · obtain ⟨p, hp, hpk⟩ := List.mem_map.1 h
    have hpb := (L.mem_pixels p).1 hp
    refine ⟨p, hpb, ?_⟩
    rw [relabel_get L p hpb, hpk,
      List.indexOf_getElem (scanTable_nodup [] _ List.nodup_nil) k hk']

/-- A label met for the first time at scan position `i` receives the number of distinct
labels met before position `i`. -/
theorem relabelScan_first (d : List Int) (i : Nat) (hi : i < d.length)
    (hnew : d[i] ∉ d.take i) :
    (relabelScan [] d)[i]? = some (((d.take i).dedup.length : Nat) : Int) := by
  have hsplit : d = d.take i ++ d[i] :: d.drop (i + 1) := by
    rw [List.getElem_cons_drop, List.take_append_drop]
  have hlen : (relabelScan [] (d.take i)).length = i := by
    rw [relabelScan_length, List.length_take]; omega
  have hnot : d[i] ∉ scanTable [] (d.take i) := by
    rw [mem_scanTable]; simpa using hnew
  have h2 : relabelScan (scanTable [] (List.take i d)) (d[i] :: List.drop (i + 1) d) =
      ((scanTable [] (List.take i d)).length : Int) ::
        relabelScan (scanTable [] (List.take i d) ++ [d[i]]) (List.drop (i + 1) d) := by
    rw [relabelScan, if_neg hnot]
  have h3 : relabelScan [] d = relabelScan [] (List.take i d) ++
      (((scanTable [] (List.take i d)).length : Int) ::
        relabelScan (scanTable [] (List.take i d) ++ [d[i]]) (List.drop (i + 1) d)) := by
    rw [← h2, ← relabelScan_append, ← hsplit]
  rw [h3, List.getElem?_append_right (by omega), hlen, Nat.sub_self, scanTable_length]
  simp

theorem indexOf_eq_of_forall₂ (R : Int → Int → Prop)
    (hl : ∀ a b b', R a b → R a b' → b = b') (hr : ∀ a a' b, R a b → R a' b → a = a')
    {s t : List Int} (hst : List.Forall₂ R s t) {x y : Int} (hxy : R x y) :
    s.indexOf x = t.indexOf y := by
  induction hst with
  | nil => rfl
  | @cons a b s t hab _ ih =>
    rw [List.indexOf_cons, List.indexOf_cons]
    by_cases hxa : a = x
    · have hyb : b = y := by subst hxa; exact hl _ _ _ hab hxy
      simp [hxa, hyb]
    · have hyb : b ≠ y := by
        intro h; subst h; exact hxa (hr _ _ _ hab hxy)
      have h1 : (a == x) = false := by simpa using hxa
      have h2 : (b == y) = false := by simpa using hyb
      simp [h1, h2, ih]

/-- The relabelling scan only sees the grouping: sequences related entry by entry through a
one-to-one correspondence of labels give the same output. -/
theorem relabelScan_congr (R : Int → Int → Prop)
    (hl : ∀ a b b', R a b → R a b' → b = b') (hr : ∀ a a' b, R a b → R a' b → a = a')
    {xs ys : List Int} (hxy : List.Forall₂ R xs ys) :
    ∀ {s t : List Int}, List.Forall₂ R s t → relabelScan s xs = relabelScan t ys := by
  induction hxy with
  | nil => intro s t _; rfl
  | @cons x y xs ys hR _ ih =>
    intro s t hst
    have hidx := indexOf_eq_of_forall₂ R hl hr hst hR
    have hlen := hst.length_eq
    have hmem : x ∈ s ↔ y ∈ t := by
      rw [← List.indexOf_lt_length, ← List.indexOf_lt_length, hidx, hlen]
    by_cases hx : x ∈ s
    · rw [relabelScan, if_pos hx, relabelScan, if_pos (hmem.1 hx), hidx, ih hst]
    · rw [relabelScan, if_neg hx, relabelScan, if_neg (fun h => hx (hmem.2 h)), hlen,
        ih (List.rel_append hst (List.Forall₂.cons hR List.Forall₂.nil))]

theorem relabel_congr (L₁ L₂ : LabelMap) (hrows : L₁.rows = L₂.rows) (hcols : L₁.cols = L₂.cols)
    (hpart : ∀ p q, L₁.inBounds p → L₁.inBounds q →
      (L₁.get p = L₁.get q ↔ L₂.get p = L₂.get q)) :
    relabelSuperpixels L₁ = relabelSuperpixels L₂ := by
  have hpix : L₂.pixels = L₁.pixels := by simp [LabelMap.pixels, hrows, hcols]
  let R : Int → Int → Prop := fun a b => ∃ p, L₁.inBounds p ∧ L₁.get p = a ∧ L₂.get p = b
  have hl : ∀ a b b', R a b → R a b' → b = b' := by
    rintro a b b' ⟨p, hp, rfl, rfl⟩ ⟨q, hq, hqa, rfl⟩
    exact (hpart p q hp hq).1 hqa.symm
  have hr : ∀ a a' b, R a b → R a' b → a = a' := by
    rintro a a' b ⟨p, hp, rfl, rfl⟩ ⟨q, hq, rfl, hqb⟩
    exact (hpart p q hp hq).2 hqb.symm
  have hF : List.Forall₂ R (L₁.pixels.map L₁.get) (L₂.pixels.map L₂.get) := by
    rw [hpix, List.forall₂_map_left_iff, List.forall₂_map_right_iff, List.forall₂_same]
    intro p hp
    exact ⟨p, (L₁.mem_pixels p).1 hp, rfl, rfl⟩
  simp only [relabelSuperpixels, hrows, hcols]
  rw [relabelScan_congr R hl hr hF List.Forall₂.nil]

theorem relabelScan_canonical (k : Nat) (xs : List Int) (h : CanonicalFrom k xs) :
    relabelScan ((List.range k).map (fun n : Nat => (n : Int))) xs = xs := by
  induction xs generalizing k with
  | nil => rfl
  | cons x xs ih =>
    rcases h with ⟨h0, hk, hrest⟩ | ⟨hx, hrest⟩
    · obtain ⟨n, rfl⟩ := Int.eq_ofNat_of_zero_le h0
      have hn : n < k := by exact_mod_cast hk
      have hmem : (n : Int) ∈ (List.range k).map (fun n : Nat => (n : Int)) :=
        List.mem_map.2 ⟨n, List.mem_range.2 hn, rfl⟩
      have hidx : ((List.range k).map (fun n : Nat => (n : Int))).indexOf (n : Int) = n := by
        have hnd : ((List.range k).map (fun n : Nat => (n : Int))).Nodup :=
          (List.nodup_range k).map Nat.cast_injective
        have hlt : n < ((List.range k).map (fun n : Nat => (n : Int))).length := by simpa using hn
        have := List.indexOf_getElem hnd n hlt
        simpa using this
      rw [relabelScan, if_pos hmem, hidx, ih k hrest]
    · subst hx
      have hnot : (k : Int) ∉ (List.range k).map (fun n : Nat => (n : Int)) := by
        simp
      have hsucc : (List.range k).map (fun n : Nat => (n : Int)) ++ [(k : Int)] =
          (List.range (k + 1)).map (fun n : Nat => (n : Int)) := by
        rw [List.range_succ]; simp
      rw [relabelScan, if_neg hnot, hsucc, ih (k + 1) hrest]
      simp

theorem LabelMap.map_get_pixels (L : LabelMap) (h : L.data.length = L.rows * L.cols) :
    L.pixels.map L.get = L.data := by
  apply List.ext_getElem
  · simp [LabelMap.pixels, h]
  · intro i h1 h2
    simp only [LabelMap.pixels, List.map_map, List.getElem_map, List.getElem_range,
      Function.comp, LabelMap.get]
    rw [Nat.mul_comm, Nat.div_add_mod, List.getD_eq_getElem _ _ h2]

/-- Decidable test for "two maps of one shape group the pixels alike". -/
theorem samePartition_of_check (L₁ L₂ : LabelMap)
    (h : ∀ p ∈ L₁.pixels, ∀ q ∈ L₁.pixels, (L₁.get p = L₁.get q ↔ L₂.get p = L₂.get q)) :
    ∀ p q, L₁.inBounds p → L₁.inBounds q → (L₁.get p = L₁.get q ↔ L₂.get p = L₂.get q) :=
  fun p q hp hq => h p ((L₁.mem_pixels p).2 hp) q ((L₁.mem_pixels q).2 hq)

/-- C6: the canonicalizer's output labels are exactly `0 .. K-1` for `K` the number of
distinct input labels; a label first met at scan position `i` receives the number of
distinct labels met before `i` (first-met order); two pixels share an output label iff they
shared an input label; and the row `[0,2,5,5,2,0]` becomes `[0,1,2,2,1,0]`. -/
theorem C6_canonicalizer_dense_first_met (L : LabelMap) :
    (∀ p, L.inBounds p → 0 ≤ (relabelSuperpixels L).get p ∧
      (relabelSuperpixels L).get p < (L.labels.length : Int)) ∧
    (∀ k : Nat, k < L.labels.length → ∃ p, L.inBounds p ∧ (relabelSuperpixels L).get p = (k : Int)) ∧
    (∀ (i : Nat) (hi : i < (L.pixels.map L.get).length),
      (L.pixels.map L.get)[i] ∉ (L.pixels.map L.get).take i →
      (relabelSuperpixels L).data[i]? =
        some ((((L.pixels.map L.get).take i).dedup.length : Nat) : Int)) ∧
    (∀ p q, L.inBounds p → L.inBounds q →
      ((relabelSuperpixels L).get p = (relabelSuperpixels L).get q ↔ L.get p = L.get q)) ∧
    relabelSuperpixels ⟨1, 6, [0, 2, 5, 5, 2, 0]⟩ = ⟨1, 6, [0, 1, 2, 2, 1, 0]⟩ :=
  ⟨relabel_get_range L, relabel_surj L, fun i hi h => relabelScan_first _ i hi h,
    relabel_get_eq_iff L, by decide⟩

/-- C7: two label maps of the same dimensions that group the pixels alike canonicalize to
the same map; canonicalizing twice equals canonicalizing once; and a well-formed map whose
labels are already dense and in first-met order is returned unchanged. -/
theorem C7_canonicalizer_partition_only (L₁ L₂ : LabelMap) (hrows : L₁.rows = L₂.rows)
    (hcols : L₁.cols = L₂.cols)
    (hpart : ∀ p q, L₁.inBounds p → L₁.inBounds q →
      (L₁.get p = L₁.get q ↔ L₂.get p = L₂.get q)) :
    relabelSuperpixels L₁ = relabelSuperpixels L₂ ∧
    relabelSuperpixels (relabelSuperpixels L₁) = relabelSuperpixels L₁ ∧
    (L₁.data.length = L₁.rows * L₁.cols → CanonicalFrom 0 L₁.data →
      relabelSuperpixels L₁ = L₁) := by
  refine ⟨relabel_congr L₁ L₂ hrows hcols hpart, ?_, ?_⟩
  · exact relabel_congr (relabelSuperpixels L₁) L₁ rfl rfl (relabel_get_eq_iff L₁)
  · intro hwf hcan
    have := relabelScan_canonical 0 L₁.data hcan
    simp only [relabelSuperpixels, L₁.map_get_pixels hwf]
    simp only [List.range_zero, List.map_nil] at this
    rw [this]

/-- C7 at two concrete maps `[4,9,4]` and `[7,2,7]` that group the pixels alike. -/
theorem C7_canonicalizer_partition_only_witness :
    relabelSuperpixels ⟨1, 3, [4, 9, 4]⟩ = relabelSuperpixels ⟨1, 3, [7, 2, 7]⟩ ∧
    relabelSuperpixels (relabelSuperpixels ⟨1, 3, [4, 9, 4]⟩) =
      relabelSuperpixels ⟨1, 3, [4, 9, 4]⟩ :=
  ⟨(C7_canonicalizer_partition_only ⟨1, 3, [4, 9, 4]⟩ ⟨1, 3, [7, 2, 7]⟩ rfl rfl
      (samePartition_of_check _ _ (by decide))).1,
    (C7_canonicalizer_partition_only ⟨1, 3, [4, 9, 4]⟩ ⟨1, 3, [7, 2, 7]⟩ rfl rfl
      (samePartition_of_check _ _ (by decide))).2.1⟩

theorem mem_boundaryLabels (M : LabelMap) (C : List Pixel) (b : Int) :
    b ∈ boundaryLabels M C ↔
      ∃ c ∈ C, ∃ x, adjacent4 c x ∧ M.inBounds x ∧ M.get x ≠ M.get c ∧ M.get x = b := by
  simp only [boundaryLabels, List.mem_flatMap, List.mem_map, List.mem_filter, mem_neighbours4,
    decide_eq_true_eq]
  constructor
  · rintro ⟨c, hc, x, ⟨⟨h1, h2⟩, h3⟩, h4⟩
    exact ⟨c, hc, x, h1, h2, h3, h4⟩
  · rintro ⟨c, hc, x, h1, h2, h3, h4⟩
    exact ⟨c, hc, x, ⟨⟨h1, h2⟩, h3⟩, h4⟩

theorem LabelMap.nodup_pixels (L : LabelMap) : L.pixels.Nodup := by
  unfold LabelMap.pixels
  apply List.Nodup.map_on _ (List.nodup_range _)
  intro a _ b _ h
  simp only [Prod.mk.injEq] at h
  rw [← Nat.div_add_mod a L.cols, ← Nat.div_add_mod b L.cols, h.1, h.2]

theorem LabelMap.length_pixels (L : LabelMap) : L.pixels.length = L.rows * L.cols := by
  simp [LabelMap.pixels]

/-- Any two pixels of the grid are joined by a 4-path inside the grid. -/
theorem grid_path (M : LabelMap) (p q : Pixel) (hp : M.inBounds p) (hq : M.inBounds q) :
    Relation.ReflTransGen (fun a b => adjacent4 a b ∧ M.inBounds b) p q := by
  have hsymm : ∀ a b, M.inBounds a →
      Relation.ReflTransGen (fun a b => adjacent4 a b ∧ M.inBounds b) a b →
      Relation.ReflTransGen (fun a b => adjacent4 a b ∧ M.inBounds b) b a := by
    intro a b ha h
    induction h with
    | refl => exact Relation.ReflTransGen.refl
    | @tail u v hu hs ih =>
      have hub : M.inBounds u := by
        clear ih hs
        induction hu with
        | refl => exact ha
        | tail _ hs' _ => exact hs'.2
      exact Relation.ReflTransGen.head ⟨adjacent4_symm hs.1, hub⟩ ih
  have hdown : ∀ n i j, i + n < M.rows → j < M.cols →
      Relation.ReflTransGen (fun a b => adjacent4 a b ∧ M.inBounds b) (i, j) (i + n, j) := by
    intro n
    induction n with
    | zero => intro i j _ _; exact Relation.ReflTransGen.refl
    | succ n ih =>
      intro i j hi hj
      refine Relation.ReflTransGen.tail (ih i j (by omega) hj) ⟨?_, ?_, hj⟩
      · right; exact ⟨rfl, Or.inl (by simp; omega)⟩
      · show i + (n + 1) < M.rows
        exact hi
  have hright : ∀ n i j, i < M.rows → j + n < M.cols →
      Relation.ReflTransGen (fun a b => adjacent4 a b ∧ M.inBounds b) (i, j) (i, j + n) := by
    intro n
    induction n with
    | zero => intro i j _ _; exact Relation.ReflTransGen.refl
    | succ n ih =>
      intro i j hi hj
      refine Relation.ReflTransGen.tail (ih i j hi (by omega)) ⟨?_, hi, ?_⟩
      · left; exact ⟨rfl, Or.inl (by simp; omega)⟩
      · show j + (n + 1) < M.cols
        exact hj
  have horigin : ∀ a, M.inBounds a →
      Relation.ReflTransGen (fun a b => adjacent4 a b ∧ M.inBounds b) (0, 0) a := by
    rintro ⟨i, j⟩ ⟨hi, hj⟩
    have h1 := hdown i 0 0 (by simpa using hi) (by omega)
    have h2 := hright j (0 + i) 0 (by simpa using hi) (by simpa using hj)
    simp only [Nat.zero_add] at h1 h2
    exact h1.trans h2
  have h0 : M.inBounds (0, 0) := ⟨by have := hp.1; omega, by have := hp.2; omega⟩
  exact (hsymm _ _ h0 (horigin p hp)).trans (horigin q hq)

/-- A component with no differently labelled neighbour is the whole grid. -/
theorem floodFill_full (M : LabelMap) (p : Pixel) (hp : M.inBounds p)
    (h : boundaryLabels M (floodFill M p) = []) :
    M.rows * M.cols ≤ (floodFill M p).length := by
  have hall : ∀ q, M.inBounds q → q ∈ floodFill M p := by
    intro q hq
    have hpath := grid_path M p q hp hq
    induction hpath with
    | refl => exact (mem_floodFill M p p hp).2 Relation.ReflTransGen.refl
    | @tail u v _ hs ih =>
      have hu : Connected M p u := (mem_floodFill M p u hp).1 (ih (by
        rename_i hpu
        clear ih hs
        induction hpu with
        | refl => exact hp
        | tail _ hs' _ => exact hs'.2))
      have hv : M.get v = M.get u := by
        by_contra hne
        have : M.get v ∈ boundaryLabels M (floodFill M p) :=
          (mem_boundaryLabels M _ _).2
            ⟨u, (mem_floodFill M p u hp).2 hu, v, hs.1, hs.2, hne, rfl⟩
        rw [h] at this
        simp at this
      exact (mem_floodFill M p v hp).2 (Relation.ReflTransGen.tail hu ⟨hs.1, hs.2, hv⟩)
  rw [← M.length_pixels]
  exact (List.Nodup.subperm M.nodup_pixels
    (fun q hq => hall q ((M.mem_pixels q).1 hq))).length_le

theorem bestNeighbour_eq (bl : List Int) : bestNeighbour bl = bl.foldl (pickBetter bl) none := rfl

theorem foldl_pickBetter (bl : List Int) (xs : List Int) :
    ∀ init : Option Int, ∀ b, xs.foldl (pickBetter bl) init = some b →
      (b ∈ xs ∨ init = some b) ∧
      (∀ a, (a ∈ xs ∨ init = some a) → ¬ betterNeighbour bl a b) := by
  induction xs with
  | nil =>
    intro init b h
    simp only [List.foldl_nil] at h
    refine ⟨Or.inr h, ?_⟩
    rintro a (ha | ha)
    · simp at ha
    · rw [h] at ha
      cases ha
      unfold betterNeighbour; omega
  | cons x xs ih =>
    intro init b h
    simp only [List.foldl_cons] at h
    obtain ⟨h1, h2⟩ := ih _ b h
    cases init with
    | none =>
      simp only [pickBetter] at h1 h2
      refine ⟨?_, ?_⟩
      · rcases h1 with h1 | h1
        · exact Or.inl (List.mem_cons_of_mem _ h1)
        · cases h1; exact Or.inl (List.mem_cons_self _ _)
      · rintro a (ha | ha)
        · rcases List.mem_cons.1 ha with ha | ha
          · exact h2 a (Or.inr (by rw [ha]))
          · exact h2 a (Or.inl ha)
        · cases ha
    | some a₀ =>
      simp only [pickBetter] at h1 h2
      by_cases hb : betterNeighbour bl x a₀
      · simp only [hb, if_true] at h1 h2
        refine ⟨?_, ?_⟩
        · rcases h1 with h1 | h1
          · exact Or.inl (List.mem_cons_of_mem _ h1)
          · cases h1; exact Or.inl (List.mem_cons_self _ _)
        · rintro a (ha | ha)
          · rcases List.mem_cons.1 ha with ha | ha
            · exact h2 a (Or.inr (by rw [ha]))
            · exact h2 a (Or.inl ha)
          · cases ha
            have hx := h2 x (Or.inr rfl)
            unfold betterNeighbour at *
            omega
      · simp only [hb, if_false] at h1 h2
        refine ⟨?_, ?_⟩
        · rcases h1 with h1 | h1
          · exact Or.inl (List.mem_cons_of_mem _ h1)
          · exact Or.inr h1
        · rintro a (ha | ha)
          · rcases List.mem_cons.1 ha with ha | ha
            · have ha₀ := h2 a₀ (Or.inr rfl)
              subst ha
              unfold betterNeighbour at *
              omega
            · exact h2 a (Or.inl ha)
          · exact h2 a (Or.inr ha)

theorem foldl_pickBetter_ne_none (bl : List Int) (xs : List Int) :
    ∀ init : Option Int, (xs ≠ [] ∨ init ≠ none) → xs.foldl (pickBetter bl) init ≠ none := by
  induction xs with
  | nil => intro init h; simpa using h
  | cons x xs ih =>
    intro init _
    simp only [List.foldl_cons]
    apply ih
    right
    cases init with
    | none => simp [pickBetter]
    | some a => simp only [pickBetter]; split <;> simp

/-- The chosen neighbour occurs on the boundary and no other boundary label is preferred to
it. -/
theorem bestNeighbour_spec (bl : List Int) (b : Int) (h : bestNeighbour bl = some b) :
    b ∈ bl ∧ ∀ a ∈ bl, ¬ betterNeighbour bl a b := by
  rw [bestNeighbour_eq] at h
  obtain ⟨h1, h2⟩ := foldl_pickBetter bl bl none b h
  refine ⟨?_, fun a ha => h2 a (Or.inl ha)⟩
  rcases h1 with h1 | h1
  · exact h1
  · cases h1

theorem bestNeighbour_none (bl : List Int) (h : bestNeighbour bl = none) : bl = [] := by
  by_contra hne
  exact foldl_pickBetter_ne_none bl bl none (Or.inl hne) h

theorem mergeComponent_some (M : LabelMap) (p : Pixel) (m : Int) (M' : LabelMap)
    (h : mergeComponent M p m = some M') :
    ((floodFill M p).length : Int) < m ∧
    ∃ b, bestNeighbour (boundaryLabels M (floodFill M p)) = some b ∧
      M' = mergeInto M (floodFill M p) b := by
  unfold mergeComponent at h
  split at h
  · rename_i hlt
    refine ⟨hlt, ?_⟩
    cases hb : bestNeighbour (boundaryLabels M (floodFill M p)) with
    | none => rw [hb] at h; simp at h
    | some b =>
      rw [hb] at h
      simp only [Option.map_some', Option.some.injEq] at h
      exact ⟨b, rfl, h.symm⟩
  · cases h

theorem mergeComponent_none (M : LabelMap) (p : Pixel) (m : Int)
    (h : mergeComponent M p m = none) :
    m ≤ ((floodFill M p).length : Int) ∨ boundaryLabels M (floodFill M p) = [] := by
  unfold mergeComponent at h
  split at h
  · right
    apply bestNeighbour_none
    simpa using h
  · left; omega

theorem mergeInto_get (M : LabelMap) (C : List Pixel) (b : Int) (q : Pixel)
    (hq : M.inBounds q) :
    (mergeInto M C b).get q = if q ∈ C then b else M.get q :=
  LabelMap.get_tabulate M _ q hq

theorem floodFill_length_eq (M M' : LabelMap) (q q' : Pixel) (hq : M.inBounds q)
    (hq' : M'.inBounds q') (h : ∀ r, Connected M q r ↔ Connected M' q' r) :
    (floodFill M q).length = (floodFill M' q').length := by
  apply List.Perm.length_eq
  rw [List.perm_ext_iff_of_nodup (nodup_floodFill M q hq) (nodup_floodFill M' q' hq')]
  intro r
  rw [mem_floodFill M q r hq, mem_floodFill M' q' r hq', h]

theorem floodFill_length_le (M M' : LabelMap) (q q' : Pixel) (hq : M.inBounds q)
    (hq' : M'.inBounds q') (h : ∀ r, Connected M q r → Connected M' q' r) :
    (floodFill M q).length ≤ (floodFill M' q').length := by
  apply List.Subperm.length_le
  apply List.Nodup.subperm (nodup_floodFill M q hq)
  intro r hr
  rw [mem_floodFill M' q' r hq']
  exact h r ((mem_floodFill M q r hq).1 hr)

/-- Merging the component `C` of `p₀` into the neighbouring label `b` leaves every
component of another label as it was. -/
theorem merge_connected_other (M : LabelMap) (p₀ : Pixel) (hp₀ : M.inBounds p₀) (b : Int)
    (q : Pixel) (hq : M.inBounds q) (hqb : (mergeInto M (floodFill M p₀) b).get q ≠ b) (r : Pixel) :
    Connected (mergeInto M (floodFill M p₀) b) q r ↔ Connected M q r := by
  have hout : ∀ u, M.inBounds u → (mergeInto M (floodFill M p₀) b).get u ≠ b →
      u ∉ floodFill M p₀ ∧ (mergeInto M (floodFill M p₀) b).get u = M.get u := by
    intro u hu hne
    rw [mergeInto_get M _ b u hu] at hne ⊢
    by_cases hm : u ∈ floodFill M p₀
    · simp [hm] at hne
    · simp [hm]
  constructor
  · intro h
    have key : Connected M q r ∧ (mergeInto M (floodFill M p₀) b).get r ≠ b := by
      induction h with
      | refl => exact ⟨Relation.ReflTransGen.refl, hqb⟩
      | @tail u v _ hs ih =>
        obtain ⟨ih1, ih2⟩ := ih
        have hub : M.inBounds u := Connected.inBounds ih1 hq
        have hvb : M.inBounds v := hs.2.1
        have hvne : (mergeInto M (floodFill M p₀) b).get v ≠ b := by rw [hs.2.2]; exact ih2
        refine ⟨Relation.ReflTransGen.tail ih1 ⟨hs.1, hvb, ?_⟩, hvne⟩
        rw [← (hout u hub ih2).2, ← (hout v hvb hvne).2]
        exact hs.2.2
    exact key.1
  · intro h
    have key : Connected (mergeInto M (floodFill M p₀) b) q r ∧
        (mergeInto M (floodFill M p₀) b).get r ≠ b := by
      induction h with
      | refl => exact ⟨Relation.ReflTransGen.refl, hqb⟩
      | @tail u v hu hs ih =>
        obtain ⟨ih1, ih2⟩ := ih
        have hub : M.inBounds u := Connected.inBounds hu hq
        have hvb : M.inBounds v := hs.2.1
        have hun := (hout u hub ih2).1
        have hvn : v ∉ floodFill M p₀ := by
          intro hv
          apply hun
          have hpv : Connected M p₀ v := (mem_floodFill M p₀ v hp₀).1 hv
          exact (mem_floodFill M p₀ u hp₀).2
            (Relation.ReflTransGen.tail hpv ⟨adjacent4_symm hs.1, hub, hs.2.2.symm⟩)
        have hvg : (mergeInto M (floodFill M p₀) b).get v = M.get v := by
          rw [mergeInto_get M _ b v hvb]; simp [hvn]
        have hveq : (mergeInto M (floodFill M p₀) b).get v =
            (mergeInto M (floodFill M p₀) b).get u := by
          rw [hvg, (hout u hub ih2).2]; exact hs.2.2
        exact ⟨Relation.ReflTransGen.tail ih1 ⟨hs.1, hvb, hveq⟩, by rw [hveq]; exact ih2⟩
    exact key.1

/-- Old pixels of label `b` stay connected to what they were connected to. -/
theorem merge_connected_target (M : LabelMap) (p₀ : Pixel) (b : Int) (q : Pixel) (hq : M.inBounds q) (hqb : M.get q = b) (r : Pixel)
    (h : Connected M q r) : Connected (mergeInto M (floodFill M p₀) b) q r := by
  have hout : ∀ u, M.inBounds u → M.get u = b →
      (mergeInto M (floodFill M p₀) b).get u = b := by
    intro u hu hub
    rw [mergeInto_get M _ b u hu]
    split
    · rfl
    · exact hub
  induction h with
  | refl => exact Relation.ReflTransGen.refl
  | @tail u v hu hs ih =>
    have hub : M.inBounds u := Connected.inBounds hu hq
    have hul : M.get u = b := by rw [Connected.get_eq hu, hqb]
    have hvl : M.get v = b := by rw [hs.2.2, hul]
    exact Relation.ReflTransGen.tail ih ⟨hs.1, hs.2.1, by
      rw [hout v hs.2.1 hvl, hout u hub hul]⟩

/-- After the merge every pixel of the merged component is connected to the neighbouring
pixel `x` of label `b`. -/
theorem merge_connected_source (M : LabelMap) (p₀ : Pixel) (hp₀ : M.inBounds p₀) (b : Int)
    (c x : Pixel) (hc : c ∈ floodFill M p₀) (hadj : adjacent4 c x) (hxb : M.inBounds x)
    (hxl : M.get x = b) (q : Pixel) (hq : q ∈ floodFill M p₀) :
    Connected (mergeInto M (floodFill M p₀) b) q x := by
  have hpq : Connected M p₀ q := (mem_floodFill M p₀ q hp₀).1 hq
  have hpc : Connected M p₀ c := (mem_floodFill M p₀ c hp₀).1 hc
  have hqb : M.inBounds q := Connected.inBounds hpq hp₀
  have hqc : Connected M q c := (Connected.symm hpq hp₀).trans hpc
  have hin : ∀ u, u ∈ floodFill M p₀ → (mergeInto M (floodFill M p₀) b).get u = b := by
    intro u hu
    have hub : M.inBounds u := Connected.inBounds ((mem_floodFill M p₀ u hp₀).1 hu) hp₀
    rw [mergeInto_get M _ b u hub]; simp [hu]
  have hpath : ∀ v, Connected M q v →
      Connected (mergeInto M (floodFill M p₀) b) q v ∧ v ∈ floodFill M p₀ := by
    intro v hv
    induction hv with
    | refl => exact ⟨Relation.ReflTransGen.refl, hq⟩
    | @tail u v hu hs ih =>
      obtain ⟨ih1, ih2⟩ := ih
      have hv : v ∈ floodFill M p₀ :=
        (mem_floodFill M p₀ v hp₀).2 ((hpq.trans hu).tail hs)
      exact ⟨Relation.ReflTransGen.tail ih1 ⟨hs.1, hs.2.1, by rw [hin v hv, hin u ih2]⟩, hv⟩
  refine Relation.ReflTransGen.tail (hpath c hqc).1 ⟨hadj, hxb, ?_⟩
  rw [hin c hc, mergeInto_get M _ b x hxb]
  split
  · rfl
  · exact hxl

theorem enforceStep_inv (m : Int) (L₀ : LabelMap) (P : Int → Prop) (k : Int)
    (D : Pixel → Prop) (st : LabelMap × Nat) (p : Pixel) (hp : st.1.inBounds p)
    (hinv : EnfInv m L₀ P k D st.1) :
    EnfInv m L₀ P k (fun q => D q ∨ q = p) (enforceStep m k st p).1 := by
  obtain ⟨M, cnt⟩ := st
  simp only at hp hinv
  unfold enforceStep
  simp only
  by_cases hk : M.get p = k
  · rw [if_pos hk]
    cases hmc : mergeComponent M p m with
    | none =>
      simp only
      refine ⟨hinv.rows, hinv.cols, hinv.labels, ?_⟩
      intro q hq hcase
      rcases hcase with h | ⟨h1, h2 | h2⟩
      · exact hinv.big q hq (Or.inl h)
      · exact hinv.big q hq (Or.inr ⟨h1, h2⟩)
      · subst h2
        rcases mergeComponent_none M q m hmc with h | h
        · exact Or.inl h
        · exact Or.inr (floodFill_full M q hq h)
    | some M' =>
      simp only
      obtain ⟨_, b, hbest, rfl⟩ := mergeComponent_some M p m M' hmc
      obtain ⟨hbmem, _⟩ := bestNeighbour_spec _ b hbest
      obtain ⟨c, hc, x, hadj, hxb, hxne, hxl⟩ := (mem_boundaryLabels M _ b).1 hbmem
      have hck : M.get c = k := by
        rw [Connected.get_eq ((mem_floodFill M p c hp).1 hc), hk]
      have hbk : b ≠ k := by rw [← hxl, ← hck]; exact hxne
      have hpC : p ∈ floodFill M p := (mem_floodFill M p p hp).2 Relation.ReflTransGen.refl
      refine ⟨hinv.rows, hinv.cols, ?_, ?_⟩
      · intro q hq
        have hq' : M.inBounds q := hq
        rw [mergeInto_get M _ b q hq']
        split
        · obtain ⟨q', h1, h2⟩ := hinv.labels x hxb
          exact ⟨q', h1, by rw [← hxl, h2]⟩
        · exact hinv.labels q hq'
      · intro q hq hcase
        have hq' : M.inBounds q := hq
        by_cases hql : (mergeInto M (floodFill M p) b).get q = b
        · -- the component of `q` contains an old component of label `b`
          have hPb : P b := by
            rcases hcase with h | ⟨h1, _⟩
            · rwa [hql] at h
            · exact absurd (hql.symm.trans h1) hbk
          obtain ⟨q₀, hq₀b, hq₀l, hsub⟩ : ∃ q₀, M.inBounds q₀ ∧ M.get q₀ = b ∧
              ∀ r, Connected M q₀ r → Connected (mergeInto M (floodFill M p) b) q r := by
            by_cases hqC : q ∈ floodFill M p
            · refine ⟨x, hxb, hxl, fun r hr => ?_⟩
              exact (merge_connected_source M p hp b c x hc hadj hxb hxl q hqC).trans
                (merge_connected_target M p b x hxb hxl r hr)
            · have : M.get q = b := by
                rw [mergeInto_get M _ b q hq'] at hql
                simpa [hqC] using hql
              exact ⟨q, hq', this, fun r hr => merge_connected_target M p b q hq' this r hr⟩
          have hle := floodFill_length_le M (mergeInto M (floodFill M p) b) q₀ q hq₀b hq hsub
          rcases hinv.big q₀ hq₀b (Or.inl (by rw [hq₀l]; exact hPb)) with h | h
          · left; omega
          · right
            show M.rows * M.cols ≤ _
            omega
        · -- the component of `q` is untouched
          have hsame := merge_connected_other M p hp b q hq' hql
          have hlen := floodFill_length_eq (mergeInto M (floodFill M p) b) M q q hq hq' hsame
          have hqC : q ∉ floodFill M p := by
            intro h
            apply hql
            rw [mergeInto_get M _ b q hq']; simp [h]
          have hget : (mergeInto M (floodFill M p) b).get q = M.get q := by
            rw [mergeInto_get M _ b q hq']; simp [hqC]
          have hold : BigEnough m M q := by
            apply hinv.big q hq'
            rcases hcase with h | ⟨h1, h2 | h2⟩
            · left; rwa [hget] at h
            · right; exact ⟨by rw [← hget]; exact h1, h2⟩
            · subst h2; exact absurd hpC hqC
          unfold BigEnough at hold ⊢
          rw [hlen]
          exact hold
  · rw [if_neg hk]
    refine ⟨hinv.rows, hinv.cols, hinv.labels, ?_⟩
    intro q hq hcase
    rcases hcase with h | ⟨h1, h2 | h2⟩
    · exact hinv.big q hq (Or.inl h)
    · exact hinv.big q hq (Or.inr ⟨h1, h2⟩)
    · subst h2; exact absurd h1 hk

theorem enforceLabel_inv (m : Int) (L₀ : LabelMap) (P : Int → Prop) (k : Int)
    (pix : List Pixel) (hpix : ∀ p ∈ pix, L₀.inBounds p) :
    ∀ (D : Pixel → Prop) (st : LabelMap × Nat), EnfInv m L₀ P k D st.1 →
      EnfInv m L₀ P k (fun q => D q ∨ q ∈ pix) (enforceLabel m pix st k).1 := by
  induction pix with
  | nil =>
    intro D st h
    simpa [enforceLabel] using h
  | cons p pix ih =>
    intro D st h
    have hp : st.1.inBounds p := by
      have := hpix p (List.mem_cons_self _ _)
      exact ⟨by rw [h.rows]; exact this.1, by rw [h.cols]; exact this.2⟩
    have h1 := enforceStep_inv m L₀ P k D st p hp h
    have h2 := ih (fun q hq => hpix q (List.mem_cons_of_mem _ hq)) _ _ h1
    simp only [enforceLabel, List.foldl_cons] at h2 ⊢
    refine ⟨h2.rows, h2.cols, h2.labels, ?_⟩
    intro q hq hcase
    apply h2.big q hq
    rcases hcase with h | ⟨h3, h4 | h4⟩
    · exact Or.inl h
    · exact Or.inr ⟨h3, Or.inl (Or.inl h4)⟩
    · rcases List.mem_cons.1 h4 with h5 | h5
      · exact Or.inr ⟨h3, Or.inl (Or.inr h5)⟩
      · exact Or.inr ⟨h3, Or.inr h5⟩

theorem enforceFold_inv (m : Int) (L₀ : LabelMap) (ks : List Int) :
    ∀ (P : Int → Prop) (st : LabelMap × Nat), EnfInv m L₀ P 0 (fun _ => False) st.1 →
      EnfInv m L₀ (fun l => P l ∨ l ∈ ks) 0 (fun _ => False)
        (ks.foldl (enforceLabel m L₀.pixels) st).1 := by
  induction ks with
  | nil =>
    intro P st h
    simpa using h
  | cons k ks ih =>
    intro P st h
    have h0 : EnfInv m L₀ P k (fun _ => False) st.1 :=
      ⟨h.rows, h.cols, h.labels, fun q hq hc => h.big q hq (by
        rcases hc with hc | ⟨_, hc⟩
        · exact Or.inl hc
        · exact absurd hc id)⟩
    have h1 := enforceLabel_inv m L₀ P k L₀.pixels (fun p hp => (L₀.mem_pixels p).1 hp) _ st h0
    have h2 : EnfInv m L₀ (fun l => P l ∨ l = k) 0 (fun _ => False)
        (enforceLabel m L₀.pixels st k).1 := by
      refine ⟨h1.rows, h1.cols, h1.labels, ?_⟩
      intro q hq hc
      apply h1.big q hq
      rcases hc with (hc | hc) | ⟨_, hc⟩
      · exact Or.inl hc
      · refine Or.inr ⟨hc, Or.inr ?_⟩
        exact (L₀.mem_pixels q).2 ⟨by rw [← h1.rows]; exact hq.1, by rw [← h1.cols]; exact hq.2⟩
      · exact absurd hc id
    have h3 := ih _ _ h2
    simp only [List.foldl_cons]
    refine ⟨h3.rows, h3.cols, h3.labels, ?_⟩
    intro q hq hc
    apply h3.big q hq
    rcases hc with (hc | hc) | ⟨_, hc⟩
    · exact Or.inl (Or.inl (Or.inl hc))
    · rcases List.mem_cons.1 hc with h5 | h5
      · exact Or.inl (Or.inl (Or.inr h5))
      · exact Or.inl (Or.inr h5)
    · exact absurd hc id

/-- After size enforcement every component has at least `m` pixels or is the whole grid. -/
theorem enforce_bigEnough (L : LabelMap) (m : Int) :
    (enforceMinimumSuperpixelSize L m).labels.rows = L.rows ∧
    (enforceMinimumSuperpixelSize L m).labels.cols = L.cols ∧
    (∀ q, L.inBounds q → ∃ q', L.inBounds q' ∧
      (enforceMinimumSuperpixelSize L m).labels.get q = L.get q') ∧
    ∀ q, L.inBounds q → BigEnough m (enforceMinimumSuperpixelSize L m).labels q := by
  have hinit : EnfInv m L (fun _ => False) 0 (fun _ => False) (L, 0).1 :=
    ⟨rfl, rfl, fun q hq => ⟨q, hq, rfl⟩, fun q _ hc => by
      rcases hc with hc | ⟨_, hc⟩ <;> exact absurd hc id⟩
  have h := enforceFold_inv m L (L.labels.insertionSort (· ≤ ·)) _ _ hinit
  have hb : ∀ q, L.inBounds q → (enforceMinimumSuperpixelSize L m).labels.inBounds q := by
    intro q hq
    exact ⟨by rw [show (enforceMinimumSuperpixelSize L m).labels.rows = L.rows from h.rows];
              exact hq.1,
           by rw [show (enforceMinimumSuperpixelSize L m).labels.cols = L.cols from h.cols];
              exact hq.2⟩
  refine ⟨h.rows, h.cols, fun q hq => h.labels q (hb q hq), ?_⟩
  intro q hq
  apply h.big q (hb q hq)
  left; right
  obtain ⟨q', hq', hl⟩ := h.labels q (hb q hq)
  rw [(List.perm_insertionSort _ _).mem_iff]
  show (enforceMinimumSuperpixelSize L m).labels.get q ∈ L.labels
  rw [show (enforceMinimumSuperpixelSize L m).labels.get q = L.get q' from hl]
  unfold LabelMap.labels
  rw [List.mem_dedup]
  exact List.mem_map.2 ⟨q', (L.mem_pixels q').2 hq', rfl⟩

theorem LabelMap.size_eq_filter (M : LabelMap) (l : Int) :
    M.size l = (M.pixels.filter (fun r => decide (M.get r = l))).length := by
  unfold LabelMap.size
  rw [List.count_eq_countP, List.countP_map, List.countP_eq_length_filter]
  congr 1

/-- The pixel count of a splitter output label is the size of the component it marks. -/
theorem split_size (M : LabelMap) (q : Pixel) (hq : M.inBounds q) :
    (relabelConnectedSuperpixels M).1.size ((relabelConnectedSuperpixels M).1.get q) =
      (floodFill M q).length := by
  rw [LabelMap.size_eq_filter]
  apply List.Perm.length_eq
  rw [List.perm_ext_iff_of_nodup ((LabelMap.nodup_pixels _).filter _) (nodup_floodFill M q hq)]
  intro r
  rw [List.mem_filter, mem_floodFill M q r hq, LabelMap.mem_pixels]
  simp only [decide_eq_true_eq]
  constructor
  · rintro ⟨hr, h⟩
    exact (split_get_eq_iff M q r hq hr).1 h.symm
  · intro h
    have hr : M.inBounds r := Connected.inBounds h hq
    exact ⟨hr, ((split_get_eq_iff M q r hq hr).2 h).symm⟩

theorem floodFill_length_le_total (M : LabelMap) (q : Pixel) (hq : M.inBounds q) :
    (floodFill M q).length ≤ M.rows * M.cols := by
  rw [← M.length_pixels]
  apply List.Subperm.length_le
  apply List.Nodup.subperm (nodup_floodFill M q hq)
  intro r hr
  exact (M.mem_pixels r).2 (Connected.inBounds ((mem_floodFill M q r hq).1 hr) hq)

theorem undersized_zero (M : LabelMap) (m : Int)
    (h : ∀ q, M.inBounds q → m ≤ ((floodFill M q).length : Int)) :
    undersizedComponents M m = 0 := by
  unfold undersizedComponents
  rw [List.length_eq_zero, List.filter_eq_nil_iff]
  intro k hk
  obtain ⟨q, hq, hg⟩ := split_surj M k (List.mem_range.1 hk)
  have := split_size M q hq
  rw [hg] at this
  simp only [decide_eq_true_eq, not_lt]
  have h' : (relabelConnectedSuperpixels M).1.size (Int.ofNat k) = (floodFill M q).length := this
  rw [h']
  exact h q hq

theorem undersized_one (M : LabelMap) (m : Int) (hpos : 0 < M.rows * M.cols)
    (hm : ((M.rows * M.cols : Nat) : Int) < m)
    (h : ∀ q, M.inBounds q → M.rows * M.cols ≤ (floodFill M q).length) :
    undersizedComponents M m = 1 ∧ ∀ p q, M.inBounds p → M.inBounds q → Connected M p q := by
  have hconn : ∀ p q, M.inBounds p → M.inBounds q → Connected M p q := by
    intro p q hp hq
    rw [← mem_floodFill M p q hp]
    have hsub : (floodFill M p).Subperm M.pixels :=
      List.Nodup.subperm (nodup_floodFill M p hp)
        (fun r hr => (M.mem_pixels r).2 (Connected.inBounds ((mem_floodFill M p r hp).1 hr) hp))
    have hperm := hsub.perm_of_length_le (by rw [M.length_pixels]; exact h p hp)
    exact hperm.mem_iff.2 ((M.mem_pixels q).2 hq)
  refine ⟨?_, hconn⟩
  have h0 : M.inBounds (0, 0) := by
    constructor
    · show 0 < M.rows
      exact Nat.pos_of_ne_zero (fun h => by rw [h] at hpos; simp at hpos)
    · show 0 < M.cols
      exact Nat.pos_of_ne_zero (fun h => by rw [h] at hpos; simp at hpos)
  have hn : (relabelConnectedSuperpixels M).2 = 1 := by
    obtain ⟨k₀, _, hk₀, hg₀⟩ := split_get M (0, 0) h0
    have hall : ∀ k, k < (relabelConnectedSuperpixels M).2 → k = k₀ := by
      intro k hk
      obtain ⟨q, hq, hg⟩ := split_surj M k hk
      have := (split_get_eq_iff M (0, 0) q h0 hq).2 (hconn _ _ h0 hq)
      rw [hg₀, hg] at this
      exact_mod_cast this.symm
    have h1 := hall 0 (by omega)
    by_contra hne
    have h2 := hall 1 (by omega)
    omega
  unfold undersizedComponents
  rw [hn]
  obtain ⟨q, hq, hg⟩ := split_surj M 0 (by rw [hn]; omega)
  have hs := split_size M q hq
  rw [hg] at hs
  have hle := floodFill_length_le_total M q hq
  have : decide (((relabelConnectedSuperpixels M).1.size (Int.ofNat 0) : Int) < m) = true := by
    have hs' : (relabelConnectedSuperpixels M).1.size (Int.ofNat 0) = (floodFill M q).length := hs
    rw [decide_eq_true_eq, hs']
    omega
  rw [show List.range 1 = [0] from rfl]
  simp only [List.filter_cons, List.filter_nil, this, if_true, List.length_singleton]

/-- The component of a pixel, as a finite set, has the cardinality counted by the fill. -/
theorem component_finset (M : LabelMap) (q : Pixel) (hq : M.inBounds q) :
    ∃ S : Finset Pixel, (∀ r, r ∈ S ↔ Connected M q r) ∧ S.card = (floodFill M q).length :=
  ⟨(floodFill M q).toFinset, fun r => by rw [List.mem_toFinset, mem_floodFill M q r hq],
    List.toFinset_card_of_nodup (nodup_floodFill M q hq)⟩

/-- C8: after `enforceMinimumSuperpixelSize L m` with `m` not above the pixel count, every
connected component of the result has at least `m` pixels and no residual is reported; when
the (non-empty) grid has fewer than `m` pixels the operation still returns, the result is a
single component and exactly one residual undersized component is reported. -/
theorem C8_enforce_minimum_size (L : LabelMap) (m : Int) :
    (m ≤ ((L.rows * L.cols : Nat) : Int) →
      (∀ q, (enforceMinimumSuperpixelSize L m).labels.inBounds q →
        ∃ S : Finset Pixel,
          (∀ r, r ∈ S ↔ Connected (enforceMinimumSuperpixelSize L m).labels q r) ∧
          m ≤ (S.card : Int)) ∧
      (enforceMinimumSuperpixelSize L m).residual = 0) ∧
    (0 < L.rows * L.cols → ((L.rows * L.cols : Nat) : Int) < m →
      (enforceMinimumSuperpixelSize L m).residual = 1 ∧
      ∀ p q, (enforceMinimumSuperpixelSize L m).labels.inBounds p →
        (enforceMinimumSuperpixelSize L m).labels.inBounds q →
        Connected (enforceMinimumSuperpixelSize L m).labels p q) := by
  obtain ⟨hrows, hcols, _, hbig⟩ := enforce_bigEnough L m
  have hb : ∀ q, (enforceMinimumSuperpixelSize L m).labels.inBounds q → L.inBounds q := by
    intro q hq
    exact ⟨by rw [← hrows]; exact hq.1, by rw [← hcols]; exact hq.2⟩
  constructor
  · intro hm
    have hge : ∀ q, (enforceMinimumSuperpixelSize L m).labels.inBounds q →
        m ≤ ((floodFill (enforceMinimumSuperpixelSize L m).labels q).length : Int) := by
      intro q hq
      rcases hbig q (hb q hq) with h | h
      · exact h
      · rw [hrows, hcols] at h
        have : ((L.rows * L.cols : Nat) : Int) ≤
            ((floodFill (enforceMinimumSuperpixelSize L m).labels q).length : Int) := by
          exact_mod_cast h
        omega
    refine ⟨?_, undersized_zero (enforceMinimumSuperpixelSize L m).labels m hge⟩
    intro q hq
    obtain ⟨S, hS, hcard⟩ := component_finset _ q hq
    exact ⟨S, hS, by rw [hcard]; exact hge q hq⟩
  · intro hpos hm
    have hfull : ∀ q, (enforceMinimumSuperpixelSize L m).labels.inBounds q →
        (enforceMinimumSuperpixelSize L m).labels.rows *
          (enforceMinimumSuperpixelSize L m).labels.cols ≤
          (floodFill (enforceMinimumSuperpixelSize L m).labels q).length := by
      intro q hq
      rcases hbig q (hb q hq) with h | h
      · exfalso
        have := floodFill_length_le_total _ q hq
        rw [hrows, hcols] at this
        have : ((floodFill (enforceMinimumSuperpixelSize L m).labels q).length : Int) ≤
            ((L.rows * L.cols : Nat) : Int) := by exact_mod_cast this
        omega
      · exact h
    exact undersized_one (enforceMinimumSuperpixelSize L m).labels m
      (by rw [hrows, hcols]; exact hpos) (by rw [hrows, hcols]; exact hm) hfull

set_option maxRecDepth 100000 in
/-- C8 at the map with a 3-pixel island and threshold 5 (15 pixels in all): no residual is
reported and the component of pixel (1, 1) has at least 5 pixels. -/
theorem C8_enforce_minimum_size_witness :
    (5 : Int) ≤ ((surrounded.rows * surrounded.cols : Nat) : Int) ∧
    (enforceMinimumSuperpixelSize surrounded 5).residual = 0 ∧
    ∃ S : Finset Pixel,
      (∀ r, r ∈ S ↔ Connected (enforceMinimumSuperpixelSize surrounded 5).labels (1, 1) r) ∧
      (5 : Int) ≤ (S.card : Int) :=
  ⟨by decide, ((C8_enforce_minimum_size surrounded 5).1 (by decide)).2,
    ((C8_enforce_minimum_size surrounded 5).1 (by decide)).1 (1, 1) (by decide)⟩

theorem enforceStep_merge (m k : Int) (M : LabelMap) (n : Nat) (p : Pixel)
    (h : (enforceStep m k (M, n) p).2 ≠ n) :
    M.get p = k ∧ ∃ M', mergeComponent M p m = some M' ∧ enforceStep m k (M, n) p = (M', n + 1) := by
  unfold enforceStep at h ⊢
  simp only at h ⊢
  by_cases hk : M.get p = k
  · rw [if_pos hk] at h ⊢
    cases hmc : mergeComponent M p m with
    | none => rw [hmc] at h; exact absurd rfl h
    | some M' => exact ⟨hk, M', rfl, rfl⟩
  · rw [if_neg hk] at h
    exact absurd rfl h

theorem sortedLabels_spec (L : LabelMap) :
    (L.labels.insertionSort (· ≤ ·)).Sorted (· < ·) ∧
    ∀ l, l ∈ L.labels.insertionSort (· ≤ ·) ↔ l ∈ L.labels := by
  constructor
  · apply List.Sorted.lt_of_le (List.sorted_insertionSort _ _)
    exact (List.perm_insertionSort _ _).nodup_iff.2 (List.nodup_dedup _)
  · intro l
    exact (List.perm_insertionSort _ _).mem_iff

theorem regionSize_example :
    computeRegionSizeFromSuperpixels ⟨100, 100, []⟩ 400 = .ok 5 := by
  have h : Nat.sqrt 100 = 10 := Nat.sqrt_eq 10
  simp [computeRegionSizeFromSuperpixels, h]

theorem halfRound_bounds (n K : Nat) (hK : 0 < K) :
    let x := Real.sqrt ((n : ℝ) / (K : ℝ))
    let r₀ := (Nat.sqrt (4 * n / K) + 1) / 2
    (r₀ : ℝ) - 1 / 2 ≤ x ∧ x < (r₀ : ℝ) + 1 / 2 := by
  intro x r₀
  set t := Nat.sqrt (4 * n / K) with ht
  have hKr : (0 : ℝ) < (K : ℝ) := by exact_mod_cast hK
  have hx0 : 0 ≤ x := Real.sqrt_nonneg _
  have hx2 : x * x = (n : ℝ) / (K : ℝ) := Real.mul_self_sqrt (by positivity)
  have h1 : t * t ≤ 4 * n / K := Nat.sqrt_le _
  have h2 : 4 * n / K < (t + 1) * (t + 1) := Nat.lt_succ_sqrt _
  have h3 : t * t * K ≤ 4 * n := by
    calc t * t * K ≤ 4 * n / K * K := Nat.mul_le_mul_right _ h1
      _ ≤ 4 * n := Nat.div_mul_le_self _ _
  have h4 : 4 * n < (t + 1) * (t + 1) * K := by
    have := Nat.lt_succ_iff.2 (le_refl (4 * n / K))
    have h5 : 4 * n / K + 1 ≤ (t + 1) * (t + 1) := h2
    calc 4 * n < (4 * n / K + 1) * K := by
          rw [Nat.add_mul, Nat.one_mul]
          have := Nat.div_add_mod (4 * n) K
          have := Nat.mod_lt (4 * n) hK
          nlinarith [Nat.mul_comm K (4 * n / K)]
      _ ≤ (t + 1) * (t + 1) * K := Nat.mul_le_mul_right _ h5
  have h3r : (t : ℝ) * t * K ≤ 4 * n := by exact_mod_cast h3
  have h4r : (4 : ℝ) * n < ((t : ℝ) + 1) * (t + 1) * K := by exact_mod_cast h4
  have hn : (n : ℝ) = x * x * K := by rw [hx2]; field_simp
  have hlo : (t : ℝ) ≤ 2 * x := by
    by_contra hcon
    push_neg at hcon
    have ht0 : (0 : ℝ) ≤ t := Nat.cast_nonneg _
    have : (2 * x) * (2 * x) < (t : ℝ) * t := by nlinarith
    have : (2 * x) * (2 * x) * K < (t : ℝ) * t * K := by nlinarith
    nlinarith
  have hhi : 2 * x < (t : ℝ) + 1 := by
    by_contra hcon
    push_neg at hcon
    have ht0 : (0 : ℝ) ≤ t := Nat.cast_nonneg _
    have : ((t : ℝ) + 1) * (t + 1) ≤ (2 * x) * (2 * x) := by nlinarith
    have : ((t : ℝ) + 1) * (t + 1) * K ≤ (2 * x) * (2 * x) * K := by nlinarith
    nlinarith
  have hr1 : 2 * r₀ ≤ t + 1 := by
    show 2 * ((t + 1) / 2) ≤ t + 1
    omega
  have hr2 : t + 1 ≤ 2 * r₀ + 1 := by
    show t + 1 ≤ 2 * ((t + 1) / 2) + 1
    omega
  have hr1r : (2 : ℝ) * r₀ ≤ t + 1 := by exact_mod_cast hr1
  have hr2r : (t : ℝ) + 1 ≤ 2 * r₀ + 1 := by exact_mod_cast hr2
  constructor <;> linarith

theorem regionSize_ok (image : Image) (K : Int) (hN : 0 < image.rows * image.cols)
    (hK : 0 < K) :
    computeRegionSizeFromSuperpixels image K =
      .ok (max 1 ((Nat.sqrt (4 * (image.rows * image.cols) / K.toNat) + 1) / 2)) := by
  unfold computeRegionSizeFromSuperpixels
  rw [if_neg]
  push_neg
  exact ⟨hK, by omega⟩

theorem regionSize_mono (n K K' : Nat) (hK : 0 < K) (hKK : K ≤ K') :
    max 1 ((Nat.sqrt (4 * n / K') + 1) / 2) ≤ max 1 ((Nat.sqrt (4 * n / K) + 1) / 2) := by
  have h1 : 4 * n / K' ≤ 4 * n / K := Nat.div_le_div_left hKK hK
  have h2 : Nat.sqrt (4 * n / K') ≤ Nat.sqrt (4 * n / K) := Nat.sqrt_le_sqrt h1
  have h3 : (Nat.sqrt (4 * n / K') + 1) / 2 ≤ (Nat.sqrt (4 * n / K) + 1) / 2 :=
    Nat.div_le_div_right (by omega)
  exact max_le_max (le_refl 1) h3

/-- C10 as stated fails: for a 1x1 image and K = 5 the value sqrt(1/5) lies below 1/2, so
no result can be both at least 1 and a nearest integer to it. -/
theorem C10_region_size_counterexample :
    ¬ ∃ r : Nat, computeRegionSizeFromSuperpixels ⟨1, 1, [(0, 0, 0)]⟩ 5 = .ok r ∧ 1 ≤ r ∧
      IsNearestInt (r : Int) (Real.sqrt (((1 * 1 : Nat) : ℝ) / ((5 : Int) : ℝ))) := by
  rintro ⟨r, _, hr, hnear⟩
  have hx : Real.sqrt (((1 * 1 : Nat) : ℝ) / ((5 : Int) : ℝ)) < 1 / 2 := by
    rw [Real.sqrt_lt' (by norm_num)]
    norm_num
  have hx0 : 0 ≤ Real.sqrt (((1 * 1 : Nat) : ℝ) / ((5 : Int) : ℝ)) := Real.sqrt_nonneg _
  have h0 := hnear 0
  have hr' : (1 : ℝ) ≤ ((r : Int) : ℝ) := by exact_mod_cast hr
  rw [abs_of_nonneg (by linarith), Int.cast_zero, zero_sub, abs_neg, abs_of_nonneg hx0] at h0
  linarith

/-- C10 (amended): for a non-empty image and `K > 0` the region size is an integer `r ≥ 1`
that is nearest to `sqrt(W·H/K)` among the integers `≥ 1`, and nearest among all integers
whenever `K ≤ 4·W·H`; it is non-increasing in `K`; and `regionSize(100,100,400) = 5`. -/
theorem C10_region_size (image : Image) (K : Int) (hN : 0 < image.rows * image.cols)
    (hK : 0 < K) :
    ∃ r : Nat, computeRegionSizeFromSuperpixels image K = .ok r ∧ 1 ≤ r ∧
      (∀ s : Int, 1 ≤ s →
        |((r : Int) : ℝ) - Real.sqrt (((image.rows * image.cols : Nat) : ℝ) / (K : ℝ))| ≤
          |(s : ℝ) - Real.sqrt (((image.rows * image.cols : Nat) : ℝ) / (K : ℝ))|) ∧
      (K ≤ 4 * ((image.rows * image.cols : Nat) : Int) →
        IsNearestInt (r : Int) (Real.sqrt (((image.rows * image.cols : Nat) : ℝ) / (K : ℝ)))) ∧
      (∀ K' : Int, K ≤ K' →
        ∃ r' : Nat, computeRegionSizeFromSuperpixels image K' = .ok r' ∧ r' ≤ r) ∧
      computeRegionSizeFromSuperpixels ⟨100, 100, []⟩ 400 = .ok 5 := by
  obtain ⟨k, rfl⟩ := Int.eq_ofNat_of_zero_le hK.le
  have hk : 0 < k := by exact_mod_cast hK
  set n := image.rows * image.cols with hn
  refine ⟨_, regionSize_ok image k hN hK, le_max_left _ _, ?_, ?_, ?_, regionSize_example⟩
  · intro s hs
    obtain ⟨hlo, hhi⟩ := halfRound_bounds n k hk
    simp only [Int.toNat_ofNat, Int.cast_natCast] at hlo hhi ⊢
    set x := Real.sqrt ((n : ℝ) / (k : ℝ))
    set r₀ := (Nat.sqrt (4 * n / k) + 1) / 2
    have hx0 : 0 ≤ x := Real.sqrt_nonneg _
    have hs' : (1 : ℝ) ≤ (s : ℝ) := by exact_mod_cast hs
    rcases Nat.eq_zero_or_pos r₀ with h0 | hpos
    · rw [h0] at hhi ⊢
      simp only [Nat.cast_zero, zero_add] at hhi
      have : max 1 0 = 1 := rfl
      rw [this, Nat.cast_one, abs_of_nonneg (by linarith), abs_of_nonneg (by linarith)]
      linarith
    · have hmax : max 1 r₀ = r₀ := max_eq_right hpos
      rw [hmax]
      rcases lt_trichotomy s (r₀ : Int) with hlt | heq | hgt
      · have : (s : ℝ) + 1 ≤ (r₀ : ℝ) := by exact_mod_cast hlt
        rw [abs_le]
        constructor
        · rw [abs_of_nonpos (by linarith)]; linarith
        · rw [abs_of_nonpos (by linarith)]; linarith
      · rw [heq]; simp
      · have : (r₀ : ℝ) + 1 ≤ (s : ℝ) := by exact_mod_cast hgt
        rw [abs_le]
        constructor
        · rw [abs_of_nonneg (by linarith)]; linarith
        · rw [abs_of_nonneg (by linarith)]; linarith
  · intro hle s
    obtain ⟨hlo, hhi⟩ := halfRound_bounds n k hk
    simp only [Int.toNat_ofNat, Int.cast_natCast] at hlo hhi ⊢
    have hle' : k ≤ 4 * n := by exact_mod_cast hle
    have hpos : 0 < (Nat.sqrt (4 * n / k) + 1) / 2 := by
      have h1 : 1 ≤ 4 * n / k := (Nat.one_le_div_iff hk).2 hle'
      have h2 : 1 ≤ Nat.sqrt (4 * n / k) := by
        rw [Nat.le_sqrt]; simpa using h1
      omega
    set x := Real.sqrt ((n : ℝ) / (k : ℝ))
    set r₀ := (Nat.sqrt (4 * n / k) + 1) / 2
    have hmax : max 1 r₀ = r₀ := max_eq_right hpos
    rw [hmax]
    rcases lt_trichotomy s (r₀ : Int) with hlt | heq | hgt
    · have : (s : ℝ) + 1 ≤ (r₀ : ℝ) := by exact_mod_cast hlt
      rw [abs_le]
      constructor
      · rw [abs_of_nonpos (by linarith)]; linarith
      · rw [abs_of_nonpos (by linarith)]; linarith
    · rw [heq]; simp
    · have : (r₀ : ℝ) + 1 ≤ (s : ℝ) := by exact_mod_cast hgt
      rw [abs_le]
      constructor
      · rw [abs_of_nonneg (by linarith)]; linarith
      · rw [abs_of_nonneg (by linarith)]; linarith
  · intro K' hKK
    have hK' : 0 < K' := lt_of_lt_of_le hK hKK
    obtain ⟨k', rfl⟩ := Int.eq_ofNat_of_zero_le hK'.le
    refine ⟨_, regionSize_ok image k' hN hK', ?_⟩
    simp only [Int.toNat_ofNat]
    exact regionSize_mono n k k' hk (by exact_mod_cast hKK)

/-- C10 at a 100x100 image and K = 400: the region size is 5. -/
theorem C10_region_size_witness :
    ∃ r : Nat, computeRegionSizeFromSuperpixels ⟨100, 100, []⟩ 400 = .ok r ∧ 1 ≤ r :=
  let ⟨r, h1, h2, _⟩ := C10_region_size ⟨100, 100, []⟩ 400 (by decide) (by decide)
  ⟨r, h1, h2⟩

theorem visualize_stages (w : World) (a : Args) (image : Image) (labels : LabelMap)
    (before : List Event) :
    (visualize w a image labels before).stages =
      before.filterMap Event.stage ++ [.drawContours, .drawMeans] := by
  simp [visualize, Run.stages, Event.stage, List.filterMap_append]

theorem planHeightWidth_stages (w : World) (a : Args) (image : Image) (superpixels : Int)
    (before : List Event) :
    (∀ r, planHeightWidth w a image superpixels before = .error r → r.outcome = .uncaught) ∧
    (before.filterMap Event.stage = [] →
      ∀ p ev, planHeightWidth w a image superpixels before = .ok (p, ev) →
        ev.filterMap Event.stage = []) := by
  unfold planHeightWidth
  constructor
  · intro r h
    simp only at h
    split at h
    · cases h; rfl
    · split at h
      · split at h
        · cases h; rfl
        · cases h
      · cases h
  · intro hb p ev h
    simp only at h
    split at h
    · cases h
    · split at h
      · split at h
        · cases h
        · cases h; simp [List.filterMap_append, hb, Event.stage]
      · cases h; simp [List.filterMap_append, hb, Event.stage]

theorem planHeightWidth_error (w : World) (a : Args) (image : Image) (superpixels : Int)
    (before : List Event) (r : Run)
    (h : planHeightWidth w a image superpixels before = .error r) : r.outcome = .uncaught :=
  (planHeightWidth_stages w a image superpixels before).1 r h

theorem crs_cli_stages (w : World) (a : Args) (h : (crs_cli w a).outcome = .exit 0) :
    (crs_cli w a).stages =
      [.connectivitySplitter, .sizeEnforcer, .canonicalizer, .drawContours, .drawMeans] := by
  unfold crs_cli at h ⊢
  by_cases hh : a.help = true
  · simp [hh] at h
  · cases hi : a.input with
    | none => simp [hh, hi] at h
    | some f =>
      by_cases hcs : (a.int "color-space" < 0 ∨ a.int "color-space" > 1)
      · simp [hh, hi, hcs] at h
      · cases hp : planHeightWidth w a (w.imread f) (a.int "superpixels") [.imread f] with
        | error r =>
          have := planHeightWidth_error w a _ _ _ r hp
          simp [hh, hi, hcs, hp, this] at h
        | ok v =>
          obtain ⟨⟨rh, rw⟩, ev⟩ := v
          have := (planHeightWidth_stages w a _ _ _).2 (by simp [Event.stage]) _ ev hp
          simp [hh, hi, hcs, hp, visualize_stages, List.filterMap_append, this, Event.stage]

theorem lsc_cli_stages (w : World) (a : Args) (h : (lsc_cli w a).outcome = .exit 0) :
    (lsc_cli w a).stages =
      [.connectivitySplitter, .sizeEnforcer, .canonicalizer, .drawContours, .drawMeans] := by
  unfold lsc_cli at h ⊢
  by_cases hh : a.help = true
  · simp [hh] at h
  · cases hi : a.input with
    | none => simp [hh, hi] at h
    | some f =>
      by_cases hcs : (a.int "color-space" < 0 ∨ a.int "color-space" > 1)
      · simp [hh, hi, hcs] at h
      · cases hp : planHeightWidth w a (w.imread f) (a.int "superpixels") [.imread f] with
        | error r =>
          have := planHeightWidth_error w a _ _ _ r hp
          simp [hh, hi, hcs, hp, this] at h
        | ok v =>
          obtain ⟨⟨rh, rw⟩, ev⟩ := v
          have := (planHeightWidth_stages w a _ _ _).2 (by simp [Event.stage]) _ ev hp
          simp [hh, hi, hcs, hp, visualize_stages, List.filterMap_append, this, Event.stage]

theorem ergc_cli_stages (w : World) (a : Args) (h : (ergc_cli w a).outcome = .exit 0) :
    (ergc_cli w a).stages = [.connectivitySplitter, .drawContours, .drawMeans] := by
  unfold ergc_cli at h ⊢
  by_cases hh : a.help = true
  · simp [hh] at h
  · cases hi : a.input with
    | none => simp [hh, hi] at h
    | some f =>
      cases hp : planHeightWidth w a (w.imread f) (a.int "superpixels") [.imread f] with
      | error r =>
        have := planHeightWidth_error w a _ _ _ r hp
        simp [hh, hi, hp, this] at h
      | ok v =>
        obtain ⟨⟨rh, rw⟩, ev⟩ := v
        have := (planHeightWidth_stages w a _ _ _).2 (by simp [Event.stage]) _ ev hp
        simp [hh, hi, hp, visualize_stages, List.filterMap_append, this, Event.stage]

theorem pb_cli_stages (w : World) (a : Args) (h : (pb_cli w a).outcome = .exit 0) :
    (pb_cli w a).stages =
      [.connectivitySplitter, .sizeEnforcer, .canonicalizer, .drawContours, .drawMeans] := by
  unfold pb_cli at h ⊢
  by_cases hh : a.help = true
  · simp [hh] at h
  · cases hi : a.input with
    | none => simp [hh, hi] at h
    | some f =>
      cases hp : w.computeRegionSizeFromSuperpixels (w.imread f) (a.int "superpixels") with
      | error e => simp [hh, hi, hp] at h
      | ok v => simp [hh, hi, hp, visualize_stages, List.filterMap_append, Event.stage]

theorem ccs_cli_stages (w : World) (a : Args) (h : (ccs_cli w a).outcome = .exit 0) :
    (ccs_cli w a).stages =
      [.connectivitySplitter, .sizeEnforcer, .sizeEnforcer, .drawContours, .drawMeans] := by
  unfold ccs_cli at h ⊢
  by_cases hh : a.help = true
  · simp [hh] at h
  · cases hi : a.input with
    | none => simp [hh, hi] at h
    | some f =>
      cases hp : w.computeRegionSizeFromSuperpixels (w.imread f) (a.int "superpixels") with
      | error e => simp [hh, hi, hp] at h
      | ok v =>
        simp only [hh, hi, hp, Bool.false_eq_true, if_false] at h ⊢
        cases hq : (ccs_postprocess w (w.imread f)
            (w.segment "CCS_OpenCV::computeSuperpixels" (w.imread f)
              [Value.int v, .int (a.int "iterations"), .int (a.int "compactness"),
                .bool (decide (a.int "color-space" > 0))])).2 with
        | none => simp [hq] at h
        | some locals =>
          simp [hq, ccs_postprocess, visualize_stages, List.filterMap_append, Event.stage]

theorem etps_cli_stages (w : World) (a : Args) (h : (etps_cli w a).outcome = .exit 0) :
    (etps_cli w a).stages = [.connectivitySplitter, .drawContours, .drawMeans] := by
  unfold etps_cli at h ⊢
  by_cases hh : a.help = true
  · simp [hh] at h
  · cases hi : a.input with
    | none => simp [hh, hi] at h
    | some f =>
      cases hp : w.computeRegionSizeFromSuperpixels (w.imread f) (a.int "superpixels") with
      | error e => simp [hh, hi, hp] at h
      | ok v => simp [hh, hi, hp, visualize_stages, List.filterMap_append, Event.stage]

theorem slic_cli_stages (w : World) (a : Args) (h : (slic_cli w a).outcome = .exit 0) :
    (slic_cli w a).stages = [.connectivitySplitter, .drawContours, .drawMeans] := by
  unfold slic_cli at h ⊢
  by_cases hh : a.help = true
  · simp [hh] at h
  · cases hi : a.input with
    | none => simp [hh, hi] at h
    | some f =>
      cases hp : w.computeRegionSizeFromSuperpixels (w.imread f) (a.int "superpixels") with
      | error e => simp [hh, hi, hp] at h
      | ok v => simp [hh, hi, hp, visualize_stages, List.filterMap_append, Event.stage]

theorem refh_cli_stages (w : World) (a : Args) (h : (refh_cli w a).outcome = .exit 0) :
    (refh_cli w a).stages = [.connectivitySplitter, .drawContours, .drawMeans] := by
  unfold refh_cli at h ⊢
  by_cases hh : a.help = true
  · simp [hh] at h
  · cases hi : a.input with
    | none => simp [hh, hi] at h
    | some f =>
      by_cases hs : a.real "sigma" > double_0_01
      · simp [hh, hi, hs, visualize_stages, List.filterMap_append, Event.stage]
      · simp [hh, hi, hs, visualize_stages, List.filterMap_append, Event.stage]

theorem vc_cli_stages (w : World) (a : Args) (h : (vc_cli w a).outcome = .exit 0) :
    (vc_cli w a).stages =
      [.connectivitySplitter, .sizeEnforcer, .sizeEnforcer, .canonicalizer, .drawContours,
        .drawMeans] := by
  unfold vc_cli at h ⊢
  by_cases hh : a.help = true
  · simp [hh] at h
  · cases hi : a.input with
    | none => simp [hh, hi] at h
    | some f =>
      cases hp : vcSize (w.imread f) (a.int "superpixels") with
      | none => simp [hh, hi, hp] at h
      | some v => simp [hh, hi, hp, visualize_stages, List.filterMap_append, Event.stage]

theorem planLevels_stages (w : World) (a : Args) (image : Image) (superpixels : Int)
    (before : List Event) :
    (∀ r, planLevels w a image superpixels before = .error r → r.outcome = .uncaught) ∧
    (before.filterMap Event.stage = [] →
      ∀ p ev, planLevels w a image superpixels before = .ok (p, ev) →
        ev.filterMap Event.stage = []) := by
  unfold planLevels
  constructor
  · intro r h
    simp only at h
    split at h
    · split at h
      · cases h; rfl
      · cases h
    · split at h
      · cases h; rfl
      · cases h
  · intro hb p ev h
    simp only at h
    split at h
    · split at h
      · cases h
      · cases h; simp [List.filterMap_append, hb, Event.stage]
    · split at h
      · cases h
      · cases h; simp [List.filterMap_append, hb, Event.stage]

theorem seeds_cli_stages (w : World) (a : Args) (h : (seeds_cli w a).outcome = .exit 0) :
    (seeds_cli w a).stages = [.connectivitySplitter, .drawContours, .drawMeans] := by
  unfold seeds_cli at h ⊢
  by_cases hh : a.help = true
  · simp [hh] at h
  · cases hi : a.input with
    | none => simp [hh, hi] at h
    | some f =>
      by_cases hcs : (a.int "color-space" < 0 ∨ a.int "color-space" > 2)
      · simp [hh, hi, hcs] at h
      · cases hp : planLevels w a (w.imread f) (a.int "superpixels") [.imread f] with
        | error r =>
          have := (planLevels_stages w a _ _ _).1 r hp
          simp [hh, hi, hcs, hp, this] at h
        | ok v =>
          obtain ⟨⟨rh, rw, lv⟩, ev⟩ := v
          have := (planLevels_stages w a _ _ _).2 (by simp [Event.stage]) _ ev hp
          simp only [hh, hi, hcs, hp, if_false] at h ⊢
          generalize copyLevelLabels _ _ _ _ = ob at h ⊢
          cases ob with
          | none => cases h
          | some l => simp [visualize_stages, List.filterMap_append, this, Event.stage]

theorem reseeds_cli_stages (w : World) (a : Args) (h : (reseeds_cli w a).outcome = .exit 0) :
    (reseeds_cli w a).stages = [.connectivitySplitter, .drawContours, .drawMeans] := by
  unfold reseeds_cli at h ⊢
  by_cases hh : a.help = true
  · simp [hh] at h
  · cases hi : a.input with
    | none => simp [hh, hi] at h
    | some f =>
      by_cases hcs : (a.int "color-space" < 0 ∨ a.int "color-space" > 2)
      · simp [hh, hi, hcs] at h
      · cases hp : planLevels w a (w.imread f) (a.int "superpixels") [.imread f] with
        | error r =>
          have := (planLevels_stages w a _ _ _).1 r hp
          simp [hh, hi, hcs, hp, this] at h
        | ok v =>
          obtain ⟨⟨rh, rw, lv⟩, ev⟩ := v
          have := (planLevels_stages w a _ _ _).2 (by simp [Event.stage]) _ ev hp
          simp only [hh, hi, hcs, hp, if_false] at h ⊢
          generalize copyRowLabels _ _ _ = ob at h ⊢
          cases ob with
          | none => cases h
          | some l => simp [visualize_stages, List.filterMap_append, this, Event.stage]

set_option maxRecDepth 100000 in
/-- C2 at the failing input: ccs_cli on the raw map `[5, 9, 9]` completes and hands
`[1, 1, 1]` to drawContours and drawMeans, whose single label 1 is not the range `[0, 0]`;
crs_cli, which calls relabelSuperpixels after the same enforcement, hands over
`[0, 0, 0]`. -/
theorem C2_ccs_draws_sparse_labels :
    (ccs_cli sampleWorld sampleArgs).outcome = .exit 0 ∧
    (ccs_cli sampleWorld sampleArgs).drawnLabels = [⟨1, 3, [1, 1, 1]⟩, ⟨1, 3, [1, 1, 1]⟩] ∧
    ¬ Dense ⟨1, 3, [1, 1, 1]⟩ ∧
    (crs_cli sampleWorld sampleArgs).drawnLabels = [⟨1, 3, [0, 0, 0]⟩, ⟨1, 3, [0, 0, 0]⟩] ∧
    Dense ⟨1, 3, [0, 0, 0]⟩ := by
  decide

theorem addInt_eq_some {x y m : Int} (h : addInt x y = some m) : m = x + y := by
  unfold addInt at h
  split at h
  · exact (Option.some.inj h).symm
  · cases h

theorem ccs_cli_events (w : World) (a : Args) (h : (ccs_cli w a).outcome = .exit 0) :
    ∃ f region_size labels₀ r₁ r₂ r₃,
      a.input = some f ∧
      w.computeRegionSizeFromSuperpixels (w.imread f) (a.int "superpixels") = .ok region_size ∧
      labels₀ = w.segment "CCS_OpenCV::computeSuperpixels" (w.imread f)
        [.int region_size, .int (a.int "iterations"), .int (a.int "compactness"),
          .bool (decide (a.int "color-space" > 0))] ∧
      r₁ = w.relabelConnectedSuperpixels labels₀ ∧
      r₂ = w.enforceMinimumSuperpixelSizeUpTo (w.imread f) r₁.1 r₁.2 ∧
      r₃ = w.enforceMinimumSuperpixelSizeUpTo (w.imread f) r₂.1 r₁.2 ∧
      (ccs_postprocess w (w.imread f) labels₀).2 = some ⟨r₃.1, r₁.2, r₂.2 + r₃.2⟩ ∧
      (ccs_cli w a).events =
        [.imread f, .computeRegionSizeFromSuperpixels (w.imread f) (a.int "superpixels"),
          .segment "CCS_OpenCV::computeSuperpixels" (w.imread f)
            [.int region_size, .int (a.int "iterations"), .int (a.int "compactness"),
              .bool (decide (a.int "color-space" > 0))],
          .relabelConnectedSuperpixels labels₀,
          .enforceMinimumSuperpixelSizeUpTo (w.imread f) r₁.1 r₁.2,
          .enforceMinimumSuperpixelSizeUpTo (w.imread f) r₂.1 r₁.2,
          .drawContours (blackImage (w.imread f)) r₃.1,
          .imwrite a.oc (w.drawContours (blackImage (w.imread f)) r₃.1),
          .drawMeans (w.imread f) r₃.1,
          .imwrite a.om (w.drawMeans (w.imread f) r₃.1)] := by
  unfold ccs_cli at h ⊢
  by_cases hh : a.help = true
  · simp [hh] at h
  · cases hi : a.input with
    | none => simp [hh, hi] at h
    | some f =>
      cases hp : w.computeRegionSizeFromSuperpixels (w.imread f) (a.int "superpixels") with
      | error e => simp [hh, hi, hp] at h
      | ok v =>
        simp only [hh, hi, hp, Bool.false_eq_true, if_false] at h ⊢
        refine ⟨f, v, _, _, _, _, rfl, hp, rfl, rfl, rfl, rfl, ?_⟩
        unfold ccs_postprocess at h ⊢
        simp only [] at h ⊢
        generalize w.segment "CCS_OpenCV::computeSuperpixels" (w.imread f) _ = L0 at h ⊢
        cases hq : addInt (w.enforceMinimumSuperpixelSizeUpTo (w.imread f)
            (w.relabelConnectedSuperpixels L0).1 (w.relabelConnectedSuperpixels L0).2).2
            (w.enforceMinimumSuperpixelSizeUpTo (w.imread f)
              (w.enforceMinimumSuperpixelSizeUpTo (w.imread f)
                (w.relabelConnectedSuperpixels L0).1 (w.relabelConnectedSuperpixels L0).2).1
              (w.relabelConnectedSuperpixels L0).2).2 with
        | none => simp [hq] at h
        | some m =>
          have hm := addInt_eq_some hq
          subst hm
          simp [visualize]

theorem etps_cli_events (w : World) (a : Args) (h : (etps_cli w a).outcome = .exit 0) :
    ∃ f region_size labels₀ r₁,
      a.input = some f ∧
      w.computeRegionSizeFromSuperpixels (w.imread f) (a.int "superpixels") = .ok region_size ∧
      labels₀ = w.segment "ETPS_OpenCV::computeSuperpixels" (w.imread f)
        [.int region_size, .real (a.real "regularization-weight"),
          .real (a.real "length-weight"), .real (a.real "size-weight"),
          .int (a.int "iterations")] ∧
      r₁ = w.relabelConnectedSuperpixels labels₀ ∧
      (etps_cli w a).events =
        [.imread f, .computeRegionSizeFromSuperpixels (w.imread f) (a.int "superpixels"),
          .segment "ETPS_OpenCV::computeSuperpixels" (w.imread f)
            [.int region_size, .real (a.real "regularization-weight"),
          .real (a.real "length-weight"), .real (a.real "size-weight"),
          .int (a.int "iterations")],
          .relabelConnectedSuperpixels labels₀,
          .drawContours (blackImage (w.imread f)) r₁.1,
          .imwrite a.oc (w.drawContours (blackImage (w.imread f)) r₁.1),
          .drawMeans (w.imread f) r₁.1,
          .imwrite a.om (w.drawMeans (w.imread f) r₁.1)] := by
  unfold etps_cli at h ⊢
  by_cases hh : a.help = true
  · simp [hh] at h
  · cases hi : a.input with
    | none => simp [hh, hi] at h
    | some f =>
      cases hp : w.computeRegionSizeFromSuperpixels (w.imread f) (a.int "superpixels") with
      | error e => simp [hh, hi, hp] at h
      | ok v =>
        refine ⟨f, v, _, _, rfl, hp, rfl, rfl, ?_⟩
        simp [hh, hp, visualize]

theorem slic_cli_events (w : World) (a : Args) (h : (slic_cli w a).outcome = .exit 0) :
    ∃ f region_size labels₀ r₁,
      a.input = some f ∧
      w.computeRegionSizeFromSuperpixels (w.imread f) (a.int "superpixels") = .ok region_size ∧
      labels₀ = w.segment "SLIC_OpenCV::computeSuperpixels" (w.imread f)
        [.int region_size, .real (a.real "compactness"), .int (a.int "iterations"),
          .bool (decide (a.int "perturb-seeds" > 0)), .int (a.int "color-space")] ∧
      r₁ = w.relabelConnectedSuperpixels labels₀ ∧
      (slic_cli w a).events =
        [.imread f, .computeRegionSizeFromSuperpixels (w.imread f) (a.int "superpixels"),
          .segment "SLIC_OpenCV::computeSuperpixels" (w.imread f)
            [.int region_size, .real (a.real "compactness"), .int (a.int "iterations"),
          .bool (decide (a.int "perturb-seeds" > 0)), .int (a.int "color-space")],
          .relabelConnectedSuperpixels labels₀,
          .drawContours (blackImage (w.imread f)) r₁.1,
          .imwrite a.oc (w.drawContours (blackImage (w.imread f)) r₁.1),
          .drawMeans (w.imread f) r₁.1,
          .imwrite a.om (w.drawMeans (w.imread f) r₁.1)] := by
  unfold slic_cli at h ⊢
  by_cases hh : a.help = true
  · simp [hh] at h
  · cases hi : a.input with
    | none => simp [hh, hi] at h
    | some f =>
      cases hp : w.computeRegionSizeFromSuperpixels (w.imread f) (a.int "superpixels") with
      | error e => simp [hh, hi, hp] at h
      | ok v =>
        refine ⟨f, v, _, _, rfl, hp, rfl, rfl, ?_⟩
        simp [hh, hp, visualize]

theorem pb_cli_events (w : World) (a : Args) (h : (pb_cli w a).outcome = .exit 0) :
    ∃ f region_size labels₀ r₁ r₂,
      a.input = some f ∧
      w.computeRegionSizeFromSuperpixels (w.imread f) (a.int "superpixels") = .ok region_size ∧
      labels₀ = w.segment "PB_OpenCV::computeSuperpixels" (w.imread f)
        [.int region_size, .real (a.real "sigma"), .bool (decide (a.int "max-flow" > 0))] ∧
      r₁ = w.relabelConnectedSuperpixels labels₀ ∧
      r₂ = w.enforceMinimumSuperpixelSizeUpTo (w.imread f) r₁.1 r₁.2 ∧
      (pb_cli w a).events =
        [.imread f, .computeRegionSizeFromSuperpixels (w.imread f) (a.int "superpixels"),
          .segment "PB_OpenCV::computeSuperpixels" (w.imread f)
            [.int region_size, .real (a.real "sigma"), .bool (decide (a.int "max-flow" > 0))],
          .relabelConnectedSuperpixels labels₀,
          .enforceMinimumSuperpixelSizeUpTo (w.imread f) r₁.1 r₁.2,
          .relabelSuperpixels r₂.1,
          .drawContours (blackImage (w.imread f)) (w.relabelSuperpixels r₂.1),
          .imwrite a.oc (w.drawContours (blackImage (w.imread f)) (w.relabelSuperpixels r₂.1)),
          .drawMeans (w.imread f) (w.relabelSuperpixels r₂.1),
          .imwrite a.om (w.drawMeans (w.imread f) (w.relabelSuperpixels r₂.1))] := by
  unfold pb_cli at h ⊢
  by_cases hh : a.help = true
  · simp [hh] at h
  · cases hi : a.input with
    | none => simp [hh, hi] at h
    | some f =>
      cases hp : w.computeRegionSizeFromSuperpixels (w.imread f) (a.int "superpixels") with
      | error e => simp [hh, hi, hp] at h
      | ok v =>
        refine ⟨f, v, _, _, _, rfl, hp, rfl, rfl, rfl, ?_⟩
        simp [hh, hp, visualize]

theorem crs_cli_events (w : World) (a : Args) (h : (crs_cli w a).outcome = .exit 0) :
    ∃ f plan ev labels₀ r₁ r₂,
      a.input = some f ∧
      ¬ (a.int "color-space" < 0 ∨ a.int "color-space" > 1) ∧
      planHeightWidth w a (w.imread f) (a.int "superpixels") [.imread f] = .ok (plan, ev) ∧
      labels₀ = w.segment "CRS_OpenCV::computeSuperpixels" (w.imread f)
        [.int plan.1, .int plan.2, .real (a.real "clique-cost"),
          .real (a.real "compactness"), .int (a.int "iterations"), .int (a.int "color-space")] ∧
      r₁ = w.relabelConnectedSuperpixels labels₀ ∧
      r₂ = w.enforceMinimumSuperpixelSizeUpTo (w.imread f) r₁.1 r₁.2 ∧
      (crs_cli w a).events = ev ++
        [.segment "CRS_OpenCV::computeSuperpixels" (w.imread f)
            [.int plan.1, .int plan.2, .real (a.real "clique-cost"),
          .real (a.real "compactness"), .int (a.int "iterations"), .int (a.int "color-space")],
          .relabelConnectedSuperpixels labels₀,
          .enforceMinimumSuperpixelSizeUpTo (w.imread f) r₁.1 r₁.2,
          .relabelSuperpixels r₂.1,
          .drawContours (blackImage (w.imread f)) (w.relabelSuperpixels r₂.1),
          .imwrite a.oc (w.drawContours (blackImage (w.imread f)) (w.relabelSuperpixels r₂.1)),
          .drawMeans (w.imread f) (w.relabelSuperpixels r₂.1),
          .imwrite a.om (w.drawMeans (w.imread f) (w.relabelSuperpixels r₂.1))] := by
  unfold crs_cli at h ⊢
  by_cases hh : a.help = true
  · simp [hh] at h
  · cases hi : a.input with
    | none => simp [hh, hi] at h
    | some f =>
      by_cases hcs : (a.int "color-space" < 0 ∨ a.int "color-space" > 1)
      · simp [hh, hi, hcs] at h
      · cases hp : planHeightWidth w a (w.imread f) (a.int "superpixels") [.imread f] with
        | error r =>
          have := planHeightWidth_error w a _ _ _ r hp
          simp [hh, hi, hcs, hp, this] at h
        | ok v =>
          obtain ⟨⟨rh, rw⟩, ev⟩ := v
          refine ⟨f, (rh, rw), ev, _, _, _, rfl, hcs, hp, rfl, rfl, rfl, ?_⟩
          simp [hh, hcs, hp, visualize]

theorem lsc_cli_events (w : World) (a : Args) (h : (lsc_cli w a).outcome = .exit 0) :
    ∃ f plan ev labels₀ r₁ r₂,
      a.input = some f ∧
      ¬ (a.int "color-space" < 0 ∨ a.int "color-space" > 1) ∧
      planHeightWidth w a (w.imread f) (a.int "superpixels") [.imread f] = .ok (plan, ev) ∧
      labels₀ = w.segment "LSC_OpenCV::computeSuperpixels" (w.imread f)
        [.int plan.1, .int plan.2, .real (a.real "ratio"), .int (a.int "iterations"),
          .int (a.int "threshold"), .int (a.int "color-space")] ∧
      r₁ = w.relabelConnectedSuperpixels labels₀ ∧
      r₂ = w.enforceMinimumSuperpixelSizeUpTo (w.imread f) r₁.1 r₁.2 ∧
      (lsc_cli w a).events = ev ++
        [.segment "LSC_OpenCV::computeSuperpixels" (w.imread f)
            [.int plan.1, .int plan.2, .real (a.real "ratio"), .int (a.int "iterations"),
          .int (a.int "threshold"), .int (a.int "color-space")],
          .relabelConnectedSuperpixels labels₀,
          .enforceMinimumSuperpixelSizeUpTo (w.imread f) r₁.1 r₁.2,
          .relabelSuperpixels r₂.1,
          .drawContours (blackImage (w.imread f)) (w.relabelSuperpixels r₂.1),
          .imwrite a.oc (w.drawContours (blackImage (w.imread f)) (w.relabelSuperpixels r₂.1)),
          .drawMeans (w.imread f) (w.relabelSuperpixels r₂.1),
          .imwrite a.om (w.drawMeans (w.imread f) (w.relabelSuperpixels r₂.1))] := by
  unfold lsc_cli at h ⊢
  by_cases hh : a.help = true
  · simp [hh] at h
  · cases hi : a.input with
    | none => simp [hh, hi] at h
    | some f =>
      by_cases hcs : (a.int "color-space" < 0 ∨ a.int "color-space" > 1)
      · simp [hh, hi, hcs] at h
      · cases hp : planHeightWidth w a (w.imread f) (a.int "superpixels") [.imread f] with
        | error r =>
          have := planHeightWidth_error w a _ _ _ r hp
          simp [hh, hi, hcs, hp, this] at h
        | ok v =>
          obtain ⟨⟨rh, rw⟩, ev⟩ := v
          refine ⟨f, (rh, rw), ev, _, _, _, rfl, hcs, hp, rfl, rfl, rfl, ?_⟩
          simp [hh, hcs, hp, visualize]

theorem ergc_cli_events (w : World) (a : Args) (h : (ergc_cli w a).outcome = .exit 0) :
    ∃ f plan ev labels₀ r₁,
      a.input = some f ∧
      planHeightWidth w a (w.imread f) (a.int "superpixels") [.imread f] = .ok (plan, ev) ∧
      labels₀ = w.segment "ERGC_OpenCV::computeSuperpixels" (w.imread f)
        [.int plan.1, .int plan.2, .bool (decide (a.int "color-space" > 0)),
          .bool (decide (a.int "perturb-seeds" > 0)), .int (a.int "compacity")] ∧
      r₁ = w.relabelConnectedSuperpixels labels₀ ∧
      (ergc_cli w a).events = ev ++
        [.segment "ERGC_OpenCV::computeSuperpixels" (w.imread f)
            [.int plan.1, .int plan.2, .bool (decide (a.int "color-space" > 0)),
          .bool (decide (a.int "perturb-seeds" > 0)), .int (a.int "compacity")],
          .relabelConnectedSuperpixels labels₀,
          .drawContours (blackImage (w.imread f)) r₁.1,
          .imwrite a.oc (w.drawContours (blackImage (w.imread f)) r₁.1),
          .drawMeans (w.imread f) r₁.1,
          .imwrite a.om (w.drawMeans (w.imread f) r₁.1)] := by
  unfold ergc_cli at h ⊢
  by_cases hh : a.help = true
  · simp [hh] at h
  · cases hi : a.input with
    | none => simp [hh, hi] at h
    | some f =>
      cases hp : planHeightWidth w a (w.imread f) (a.int "superpixels") [.imread f] with
        | error r =>
          have := planHeightWidth_error w a _ _ _ r hp
          simp [hh, hi, hp, this] at h
        | ok v =>
          obtain ⟨⟨rh, rw⟩, ev⟩ := v
          refine ⟨f, (rh, rw), ev, _, _, rfl, hp, rfl, rfl, ?_⟩
          simp [hh, hp, visualize]

theorem vc_cli_events (w : World) (a : Args) (h : (vc_cli w a).outcome = .exit 0) :
    ∃ f size labels₀ r₁ r₂ r₃,
      a.input = some f ∧
      vcSize (w.imread f) (a.int "superpixels") = some size ∧
      labels₀ = w.segment "VC_OpenCV::computeSuperpixels" (w.imread f)
        [.int (a.int "superpixels"), .real (a.real "weight"), .int (a.int "radius"),
          .int (a.int "neighboring-clusters"), .int (a.int "direct-neighbors"),
          .int (a.int "threshold")] ∧
      r₁ = w.relabelConnectedSuperpixels labels₀ ∧
      r₂ = w.enforceMinimumSuperpixelSizeUpTo (w.imread f) r₁.1 r₁.2 ∧
      r₃ = w.enforceMinimumSuperpixelSize (w.imread f) r₂.1 size ∧
      (vc_cli w a).events =
        [.imread f,
          .segment "VC_OpenCV::computeSuperpixels" (w.imread f)
            [.int (a.int "superpixels"), .real (a.real "weight"), .int (a.int "radius"),
              .int (a.int "neighboring-clusters"), .int (a.int "direct-neighbors"),
              .int (a.int "threshold")],
          .relabelConnectedSuperpixels labels₀,
          .enforceMinimumSuperpixelSizeUpTo (w.imread f) r₁.1 r₁.2,
          .enforceMinimumSuperpixelSize (w.imread f) r₂.1 size,
          .relabelSuperpixels r₃.1,
          .drawContours (blackImage (w.imread f)) (w.relabelSuperpixels r₃.1),
          .imwrite a.oc (w.drawContours (blackImage (w.imread f)) (w.relabelSuperpixels r₃.1)),
          .drawMeans (w.imread f) (w.relabelSuperpixels r₃.1),
          .imwrite a.om (w.drawMeans (w.imread f) (w.relabelSuperpixels r₃.1))] := by
  unfold vc_cli at h ⊢
  by_cases hh : a.help = true
  · simp [hh] at h
  · cases hi : a.input with
    | none => simp [hh, hi] at h
    | some f =>
      cases hp : vcSize (w.imread f) (a.int "superpixels") with
      | none => simp [hh, hi, hp] at h
      | some v =>
        refine ⟨f, v, _, _, _, _, rfl, hp, rfl, rfl, rfl, rfl, ?_⟩
        simp [hh, hp, visualize]

theorem seeds_cli_events (w : World) (a : Args) (h : (seeds_cli w a).outcome = .exit 0) :
    ∃ f plan ev labels₀ r₁,
      a.input = some f ∧
      ¬ (a.int "color-space" < 0 ∨ a.int "color-space" > 2) ∧
      planLevels w a (w.imread f) (a.int "superpixels") [.imread f] = .ok (plan, ev) ∧
      copyLevelLabels (w.imread f).rows (w.imread f).cols
        (w.seedsLabels (w.imread f)
          [.int (a.int "bins"), .int 0, .real (a.real "confidence"),
            .bool (decide (a.int "prior" > 0)), .bool (decide (a.int "means" > 0)),
            .int (a.int "color-space"), .int plan.2.1, .int plan.1, .int plan.2.2,
            .int (a.int "iterations")]) (plan.2.2 - 1) = some labels₀ ∧
      r₁ = w.relabelConnectedSuperpixels labels₀ ∧
      (seeds_cli w a).events = ev ++
        [.segment "SEEDS" (w.imread f)
            [.int (a.int "bins"), .int 0, .real (a.real "confidence"),
              .bool (decide (a.int "prior" > 0)), .bool (decide (a.int "means" > 0)),
              .int (a.int "color-space"), .int plan.2.1, .int plan.1, .int plan.2.2,
              .int (a.int "iterations")],
          .relabelConnectedSuperpixels labels₀,
          .drawContours (blackImage (w.imread f)) r₁.1,
          .imwrite a.oc (w.drawContours (blackImage (w.imread f)) r₁.1),
          .drawMeans (w.imread f) r₁.1,
          .imwrite a.om (w.drawMeans (w.imread f) r₁.1)] := by
  unfold seeds_cli at h ⊢
  by_cases hh : a.help = true
  · simp [hh] at h
  · cases hi : a.input with
    | none => simp [hh, hi] at h
    | some f =>
      by_cases hcs : (a.int "color-space" < 0 ∨ a.int "color-space" > 2)
      · simp [hh, hi, hcs] at h
      · cases hp : planLevels w a (w.imread f) (a.int "superpixels") [.imread f] with
        | error r =>
          have := (planLevels_stages w a _ _ _).1 r hp
          simp [hh, hi, hcs, hp, this] at h
        | ok v =>
          obtain ⟨⟨rh, rw, lv⟩, ev⟩ := v
          cases hc : copyLevelLabels (w.imread f).rows (w.imread f).cols
              (w.seedsLabels (w.imread f)
                [.int (a.int "bins"), .int 0, .real (a.real "confidence"),
                  .bool (decide (a.int "prior" > 0)), .bool (decide (a.int "means" > 0)),
                  .int (a.int "color-space"), .int rw, .int rh, .int lv,
                  .int (a.int "iterations")]) (lv - 1) with
          | none => simp [hh, hi, hcs, hp, hc] at h
          | some l =>
            refine ⟨f, (rh, rw, lv), ev, l, _, rfl, hcs, hp, hc, rfl, ?_⟩
            simp [hh, hcs, hp, hc, visualize]

theorem reseeds_cli_events (w : World) (a : Args) (h : (reseeds_cli w a).outcome = .exit 0) :
    ∃ f plan ev labels₀ r₁,
      a.input = some f ∧
      ¬ (a.int "color-space" < 0 ∨ a.int "color-space" > 2) ∧
      planLevels w a (w.imread f) (a.int "superpixels") [.imread f] = .ok (plan, ev) ∧
      copyRowLabels (w.imread f).rows (w.imread f).cols
        (w.seedsLabels (w.imread f)
          [.int plan.2.2, .int plan.2.1, .int plan.1, .int (a.int "bins"),
            .int (a.int "neighborhood"), .real (a.real "confidence"),
            .real (a.real "spatial-weight"), .int (a.int "color-space"),
            .int (a.int "iterations")]) = some labels₀ ∧
      r₁ = w.relabelConnectedSuperpixels labels₀ ∧
      (reseeds_cli w a).events = ev ++
        [.segment "SEEDSRevisedMeanPixels" (w.imread f)
            [.int plan.2.2, .int plan.2.1, .int plan.1, .int (a.int "bins"),
              .int (a.int "neighborhood"), .real (a.real "confidence"),
              .real (a.real "spatial-weight"), .int (a.int "color-space"),
              .int (a.int "iterations")],
          .relabelConnectedSuperpixels labels₀,
          .drawContours (blackImage (w.imread f)) r₁.1,
          .imwrite a.oc (w.drawContours (blackImage (w.imread f)) r₁.1),
          .drawMeans (w.imread f) r₁.1,
          .imwrite a.om (w.drawMeans (w.imread f) r₁.1)] := by
  unfold reseeds_cli at h ⊢
  by_cases hh : a.help = true
  · simp [hh] at h
  · cases hi : a.input with
    | none => simp [hh, hi] at h
    | some f =>
      by_cases hcs : (a.int "color-space" < 0 ∨ a.int "color-space" > 2)
      · simp [hh, hi, hcs] at h
      · cases hp : planLevels w a (w.imread f) (a.int "superpixels") [.imread f] with
        | error r =>
          have := (planLevels_stages w a _ _ _).1 r hp
          simp [hh, hi, hcs, hp, this] at h
        | ok v =>
          obtain ⟨⟨rh, rw, lv⟩, ev⟩ := v
          cases hc : copyRowLabels (w.imread f).rows (w.imread f).cols
              (w.seedsLabels (w.imread f)
                [.int lv, .int rw, .int rh, .int (a.int "bins"),
                  .int (a.int "neighborhood"), .real (a.real "confidence"),
                  .real (a.real "spatial-weight"), .int (a.int "color-space"),
                  .int (a.int "iterations")]) with
          | none => simp [hh, hi, hcs, hp, hc] at h
          | some l =>
            refine ⟨f, (rh, rw, lv), ev, l, _, rfl, hcs, hp, hc, rfl, ?_⟩
            simp [hh, hcs, hp, hc, visualize]

theorem planHeightWidth_ok (w : World) (a : Args) (image : Image) (superpixels : Int)
    (before : List Event) (plan : Int × Int) (ev : List Event)
    (h : planHeightWidth w a image superpixels before = .ok (plan, ev)) :
    ∃ hw, w.computeHeightWidthFromSuperpixels image superpixels = .ok hw ∧
      ((a.fair = true ∧
          ∃ r, w.computeRegionSizeFromSuperpixels image superpixels = .ok r ∧ plan = (r, r) ∧
            ev = before ++ [.computeHeightWidthFromSuperpixels image superpixels,
              .computeRegionSizeFromSuperpixels image superpixels]) ∨
        (a.fair = false ∧ plan = hw ∧
          ev = before ++ [.computeHeightWidthFromSuperpixels image superpixels])) := by
  unfold planHeightWidth at h
  cases hhw : w.computeHeightWidthFromSuperpixels image superpixels with
  | error e => simp [hhw] at h
  | ok v =>
    obtain ⟨h0, w0⟩ := v
    refine ⟨(h0, w0), rfl, ?_⟩
    by_cases hf : a.fair = true
    · cases hrs : w.computeRegionSizeFromSuperpixels image superpixels with
      | error e => simp [hhw, hf, hrs] at h
      | ok r =>
        simp [hhw, hf, hrs] at h
        exact Or.inl ⟨hf, r, rfl, h.1.symm, by simp [← h.2]⟩
    · simp [hhw, hf] at h
      exact Or.inr ⟨by simpa using hf, h.1.symm, by simp [← h.2]⟩

theorem planLevels_ok (w : World) (a : Args) (image : Image) (superpixels : Int)
    (before : List Event) (plan : Int × Int × Int) (ev : List Event)
    (h : planLevels w a image superpixels before = .ok (plan, ev)) :
    (a.fair = true ∧
      ∃ r levels, w.computeRegionSizeLevels image superpixels 2 2 = .ok (r, levels) ∧
        plan = (r, r, levels) ∧ ev = before ++ [.computeRegionSizeLevels image superpixels]) ∨
    (a.fair = false ∧
      w.computeHeightWidthLevelsFromSuperpixels image superpixels 2 2 2 = .ok plan ∧
      ev = before ++ [.computeHeightWidthLevelsFromSuperpixels image superpixels]) := by
  unfold planLevels at h
  by_cases hf : a.fair = true
  · cases hrs : w.computeRegionSizeLevels image superpixels 2 2 with
    | error e => simp [hf, hrs] at h
    | ok v =>
      obtain ⟨r, lv⟩ := v
      simp [hf, hrs] at h
      exact Or.inl ⟨hf, r, lv, rfl, h.1.symm, h.2.symm⟩
  · cases hrs : w.computeHeightWidthLevelsFromSuperpixels image superpixels 2 2 2 with
    | error e => simp [hf, hrs] at h
    | ok v =>
      obtain ⟨rh, rw, lv⟩ := v
      simp [hf, hrs] at h
      exact Or.inr ⟨by simpa using hf, by rw [← h.1], h.2.symm⟩

theorem refh_cli_events (w : World) (a : Args) (h : (refh_cli w a).outcome = .exit 0) :
    ∃ f image pre labels₀ r₁,
      a.input = some f ∧
      (pre = [.imread f] ∨
        pre = [.imread f,
          .gaussianBlur (w.imread f) (⌈a.real "sigma" * 4⌉ + 1) (a.real "sigma")]) ∧
      labels₀ = w.segment "GraphSegmentation" image
        [.real (a.real "threshold"), .int (a.int "minimum-size")] ∧
      r₁ = w.relabelConnectedSuperpixels labels₀ ∧
      (refh_cli w a).events = pre ++
        [.segment "GraphSegmentation" image
            [.real (a.real "threshold"), .int (a.int "minimum-size")],
          .relabelConnectedSuperpixels labels₀,
          .drawContours (blackImage image) r₁.1,
          .imwrite a.oc (w.drawContours (blackImage image) r₁.1),
          .drawMeans image r₁.1,
          .imwrite a.om (w.drawMeans image r₁.1)] := by
  unfold refh_cli at h ⊢
  by_cases hh : a.help = true
  · simp [hh] at h
  · cases hi : a.input with
    | none => simp [hh, hi] at h
    | some f =>
      by_cases hs : a.real "sigma" > double_0_01
      · refine ⟨f, w.gaussianBlur (w.imread f) (⌈a.real "sigma" * 4⌉ + 1) (a.real "sigma"),
          _, _, _, rfl, Or.inr rfl, rfl, rfl, ?_⟩
        simp [hh, hs, visualize]
      · refine ⟨f, w.imread f, _, _, _, rfl, Or.inl rfl, rfl, rfl, ?_⟩
        simp [hh, hs, visualize]

/-- C12: in every completed run of ccs_cli the calls that receive the label map are, in
order, relabelConnectedSuperpixels on the segmentation's map and two calls of
enforceMinimumSuperpixelSizeUpTo; both passes receive as bound the value
relabelConnectedSuperpixels returned, the second pass receives the map the first pass left,
`merged_components` ends as the sum of the two returned values (a run in which that sum
overflows `int` is undefined, not completed), and the map the second pass left is the one
drawn. -/
theorem C12_ccs_enforces_twice (w : World) (a : Args)
    (h : (ccs_cli w a).outcome = .exit 0) :
    ∃ image args labels₀ r₁ r₂ r₃ locals,
      (ccs_cli w a).segmentCalls = [("CCS_OpenCV::computeSuperpixels", image, args)] ∧
      labels₀ = w.segment "CCS_OpenCV::computeSuperpixels" image args ∧
      r₁ = w.relabelConnectedSuperpixels labels₀ ∧
      r₂ = w.enforceMinimumSuperpixelSizeUpTo image r₁.1 r₁.2 ∧
      r₃ = w.enforceMinimumSuperpixelSizeUpTo image r₂.1 r₁.2 ∧
      (ccs_cli w a).labelCalls =
        [.relabelConnectedSuperpixels labels₀,
          .enforceMinimumSuperpixelSizeUpTo image r₁.1 r₁.2,
          .enforceMinimumSuperpixelSizeUpTo image r₂.1 r₁.2] ∧
      (ccs_cli w a).upToCalls = [(r₁.1, r₁.2), (r₂.1, r₁.2)] ∧
      (ccs_postprocess w image labels₀).2 = some locals ∧
      locals.unconnected_components = r₁.2 ∧
      locals.merged_components = r₂.2 + r₃.2 ∧
      locals.labels = r₃.1 ∧
      (ccs_cli w a).drawnLabels = [r₃.1, r₃.1] := by
  obtain ⟨f, r, L0, r1, r2, r3, _, _, hL, h1, h2, h3, hpost, hev⟩ := ccs_cli_events w a h
  refine ⟨w.imread f, _, L0, r1, r2, r3, _, ?_, hL, h1, h2, h3, ?_, ?_, hpost, rfl, rfl, rfl,
    ?_⟩
  · simp [Run.segmentCalls, hev]
  · simp [Run.labelCalls, hev, Event.changesLabels]
  · simp [Run.upToCalls, hev]
  · simp [Run.drawnLabels, hev]

set_option maxRecDepth 100000 in
/-- C12 at a concrete run of ccs_cli on the raw map `[5, 9, 9]`: the run completes and
enforceMinimumSuperpixelSizeUpTo is called exactly twice. -/
theorem C12_ccs_enforces_twice_witness :
    (ccs_cli sampleWorld sampleArgs).outcome = .exit 0 ∧
    (ccs_cli sampleWorld sampleArgs).upToCalls.length = 2 :=
  ⟨by decide, by
    obtain ⟨_, _, _, _, _, _, _, _, _, _, _, _, _, hup, _⟩ :=
      C12_ccs_enforces_twice sampleWorld sampleArgs (by decide)
    rw [hup]; rfl⟩

set_option maxRecDepth 100000 in
/-- C13 as stated fails for the second pass of ccs_cli: on the raw map `[5, 9, 9]` the
splitter returns the map `[0, 1, 1]` and the bound 2; the first pass merges the 1-pixel
component, so the second pass receives the bound 2 with the map `[1, 1, 1]`, which was
modified after the splitter returned. -/
theorem C13_bound_from_splitter_counterexample :
    sampleWorld.relabelConnectedSuperpixels ⟨1, 3, [5, 9, 9]⟩ = (⟨1, 3, [0, 1, 1]⟩, 2) ∧
    (ccs_cli sampleWorld sampleArgs).upToCalls =
      [(⟨1, 3, [0, 1, 1]⟩, 2), (⟨1, 3, [1, 1, 1]⟩, 2)] ∧
    (⟨1, 3, [1, 1, 1]⟩ : LabelMap) ≠ ⟨1, 3, [0, 1, 1]⟩ := by
  decide

/-- C13 (amended): in every completed run the calls that receive the label map are, in
order: in crs_cli, lsc_cli and pb_cli the splitter, one enforceMinimumSuperpixelSizeUpTo
on the splitter's map with the splitter's return value as bound, and relabelSuperpixels;
in vc_cli the same followed by enforceMinimumSuperpixelSize before relabelSuperpixels; in
ccs_cli the splitter, that same first pass, and a second pass with the same bound on the
map the first pass left; the other six tools never call
enforceMinimumSuperpixelSizeUpTo. -/
theorem C13_bound_from_splitter (t : Tool) (w : World) (a : Args)
    (h : (t.run w a).outcome = .exit 0) :
    match t with
    | .crs | .lsc | .pb =>
        ∃ image labels₀ r₁ r₂,
          r₁ = w.relabelConnectedSuperpixels labels₀ ∧
          r₂ = w.enforceMinimumSuperpixelSizeUpTo image r₁.1 r₁.2 ∧
          (t.run w a).labelCalls =
            [.relabelConnectedSuperpixels labels₀,
              .enforceMinimumSuperpixelSizeUpTo image r₁.1 r₁.2,
              .relabelSuperpixels r₂.1]
    | .vc =>
        ∃ image labels₀ r₁ r₂ size r₃,
          r₁ = w.relabelConnectedSuperpixels labels₀ ∧
          r₂ = w.enforceMinimumSuperpixelSizeUpTo image r₁.1 r₁.2 ∧
          r₃ = w.enforceMinimumSuperpixelSize image r₂.1 size ∧
          (t.run w a).labelCalls =
            [.relabelConnectedSuperpixels labels₀,
              .enforceMinimumSuperpixelSizeUpTo image r₁.1 r₁.2,
              .enforceMinimumSuperpixelSize image r₂.1 size,
              .relabelSuperpixels r₃.1]
    | .ccs =>
        ∃ image labels₀ r₁ r₂,
          r₁ = w.relabelConnectedSuperpixels labels₀ ∧
          r₂ = w.enforceMinimumSuperpixelSizeUpTo image r₁.1 r₁.2 ∧
          (t.run w a).labelCalls =
            [.relabelConnectedSuperpixels labels₀,
              .enforceMinimumSuperpixelSizeUpTo image r₁.1 r₁.2,
              .enforceMinimumSuperpixelSizeUpTo image r₂.1 r₁.2]
    | .ergc | .etps | .refh | .reseeds | .seeds | .slic =>
        (t.run w a).upToCalls = [] := by
  cases t
  · obtain ⟨f, r, L0, r1, r2, r3, _, _, hL, h1, h2, h3, hpost, hev⟩ := ccs_cli_events w a h
    exact ⟨w.imread f, L0, r1, r2, h1, h2, by
      simp [Tool.run, Run.labelCalls, hev, Event.changesLabels]⟩
  · obtain ⟨f, plan, ev, L0, r1, r2, _, _, hp, hL, h1, h2, hev⟩ := crs_cli_events w a h
    obtain ⟨hw, _, ⟨_, r, _, _, hev'⟩ | ⟨_, _, hev'⟩⟩ := planHeightWidth_ok _ _ _ _ _ _ _ hp <;>
    exact ⟨w.imread f, L0, r1, r2, h1, h2, by
      simp [Tool.run, Run.labelCalls, hev, hev', Event.changesLabels]⟩
  · obtain ⟨f, plan, ev, L0, r1, _, hp, hL, h1, hev⟩ := ergc_cli_events w a h
    obtain ⟨hw, _, ⟨_, r, _, _, hev'⟩ | ⟨_, _, hev'⟩⟩ := planHeightWidth_ok _ _ _ _ _ _ _ hp <;>
    simp [Tool.run, Run.upToCalls, hev, hev']
  · obtain ⟨f, r, L0, r1, _, _, hL, h1, hev⟩ := etps_cli_events w a h
    simp [Tool.run, Run.upToCalls, hev]
  · obtain ⟨f, plan, ev, L0, r1, r2, _, _, hp, hL, h1, h2, hev⟩ := lsc_cli_events w a h
    obtain ⟨hw, _, ⟨_, r, _, _, hev'⟩ | ⟨_, _, hev'⟩⟩ := planHeightWidth_ok _ _ _ _ _ _ _ hp <;>
    exact ⟨w.imread f, L0, r1, r2, h1, h2, by
      simp [Tool.run, Run.labelCalls, hev, hev', Event.changesLabels]⟩
  · obtain ⟨f, r, L0, r1, r2, _, _, hL, h1, h2, hev⟩ := pb_cli_events w a h
    exact ⟨w.imread f, L0, r1, r2, h1, h2, by
      simp [Tool.run, Run.labelCalls, hev, Event.changesLabels]⟩
  · obtain ⟨f, image, pre, L0, r1, _, hpre, hL, h1, hev⟩ := refh_cli_events w a h
    rcases hpre with hpre | hpre <;> simp [Tool.run, Run.upToCalls, hev, hpre]
  · obtain ⟨f, plan, ev, L0, r1, _, _, hp, hc, h1, hev⟩ := reseeds_cli_events w a h
    obtain ⟨_, r, lv, _, _, hev'⟩ | ⟨_, _, hev'⟩ := planLevels_ok _ _ _ _ _ _ _ hp <;>
    simp [Tool.run, Run.upToCalls, hev, hev']
  · obtain ⟨f, plan, ev, L0, r1, _, _, hp, hc, h1, hev⟩ := seeds_cli_events w a h
    obtain ⟨_, r, lv, _, _, hev'⟩ | ⟨_, _, hev'⟩ := planLevels_ok _ _ _ _ _ _ _ hp <;>
    simp [Tool.run, Run.upToCalls, hev, hev']
  · obtain ⟨f, r, L0, r1, _, _, hL, h1, hev⟩ := slic_cli_events w a h
    simp [Tool.run, Run.upToCalls, hev]
  · obtain ⟨f, size, L0, r1, r2, r3, _, _, hL, h1, h2, h3, hev⟩ := vc_cli_events w a h
    exact ⟨w.imread f, L0, r1, r2, size, r3, h1, h2, h3, by
      simp [Tool.run, Run.labelCalls, hev, Event.changesLabels]⟩

set_option maxRecDepth 100000 in
/-- C13 (amended) at a concrete run of vc_cli on the raw map `[5, 9, 9]`: the run completes
and its only enforceMinimumSuperpixelSizeUpTo call is the second of four calls on the label
map. -/
theorem C13_bound_from_splitter_witness :
    (Tool.vc.run sampleWorld sampleArgs).outcome = .exit 0 ∧
    (Tool.vc.run sampleWorld sampleArgs).labelCalls.length = 4 :=
  ⟨by decide, by
    obtain ⟨_, _, _, _, _, _, _, _, _, hcalls⟩ :=
      C13_bound_from_splitter .vc sampleWorld sampleArgs (by decide)
    rw [hcalls]; rfl⟩

theorem strictWorld_contract : PlannerContract strictWorld := by
  intro image superpixels h
  simp [strictWorld, guardedPlan, h]

set_option maxRecDepth 100000 in
/-- C11 as stated fails for vc_cli, which takes a superpixel count but calls no planner and
checks nothing: with planners that reject invalid input and the count -1, the run calls
VC_OpenCV::computeSuperpixels with the raw count -1, writes both output images and returns
0. -/
theorem C11_invalid_input_counterexample :
    PlannerContract strictWorld ∧
    InvalidPlanInput (strictWorld.imread "image.png")
      ((sampleArgs.setInt "superpixels" (-1)).int "superpixels") ∧
    (vc_cli strictWorld (sampleArgs.setInt "superpixels" (-1))).outcome = .exit 0 ∧
    (vc_cli strictWorld (sampleArgs.setInt "superpixels" (-1))).segmentCalls =
      [("VC_OpenCV::computeSuperpixels", ⟨1, 3, [(0, 0, 0), (9, 9, 9), (9, 9, 9)]⟩,
        [.int (-1), .real 1, .int 1, .int 1, .int 1, .int 1])] ∧
    (vc_cli strictWorld (sampleArgs.setInt "superpixels" (-1))).written =
      ["output", "output"] :=
  ⟨strictWorld_contract, by decide, by decide, by decide, by decide⟩

/-- C11 (amended): for the nine tools that plan a region size (every tool but refh_cli,
which takes no count, and vc_cli, which calls no planner), with planners that fail with
InvalidInput when the count is `≤ 0` or the loaded image has zero area, a run on such
input that gets past `--help` ends with the planner's error leaving `main` (or, in
crs_cli, lsc_cli, seeds_cli and reseeds_cli, with the colour-space check returning 1 before
the image is read); it calls nothing but imread and planners, so the segmentation is not
invoked, the label map is never touched and no image is written. -/
theorem C11_invalid_input (t : Tool) (w : World) (a : Args) (f : String)
    (ht : t ≠ .refh ∧ t ≠ .vc) (hw : PlannerContract w)
    (hh : a.help = false) (hi : a.input = some f)
    (hbad : InvalidPlanInput (w.imread f) (a.int "superpixels")) :
    ((t.run w a).outcome = .uncaught ∨
      t.run w a = ⟨.exit 1, [.stdout "Invalid color space."]⟩) ∧
    (∀ e ∈ (t.run w a).events,
      e = .imread f ∨ e.isPlanner = true ∨ e = .stdout "Invalid color space.") ∧
    (t.run w a).segmentCalls = [] ∧
    (t.run w a).labelCalls = [] ∧
    (t.run w a).written = [] := by
  obtain ⟨h1, h2, h3, h4⟩ := hw (w.imread f) (a.int "superpixels") hbad
  have h3' := h3 2 2
  have h4' := h4 2 2 2
  cases t
  · simp [Tool.run, ccs_cli, hh, hi, h1, Run.segmentCalls, Run.labelCalls, Run.written,
      Event.isPlanner, Event.changesLabels]
  · by_cases hcs : (a.int "color-space" < 0 ∨ a.int "color-space" > 1)
    · simp [Tool.run, crs_cli, hh, hi, hcs, Run.segmentCalls, Run.labelCalls, Run.written,
        Event.isPlanner, Event.changesLabels]
    · simp [Tool.run, crs_cli, planHeightWidth, hh, hi, hcs, h2, Run.segmentCalls,
        Run.labelCalls, Run.written, Event.isPlanner, Event.changesLabels]
  · simp [Tool.run, ergc_cli, planHeightWidth, hh, hi, h2, Run.segmentCalls,
      Run.labelCalls, Run.written, Event.isPlanner, Event.changesLabels]
  · simp [Tool.run, etps_cli, hh, hi, h1, Run.segmentCalls, Run.labelCalls, Run.written,
      Event.isPlanner, Event.changesLabels]
  · by_cases hcs : (a.int "color-space" < 0 ∨ a.int "color-space" > 1)
    · simp [Tool.run, lsc_cli, hh, hi, hcs, Run.segmentCalls, Run.labelCalls, Run.written,
        Event.isPlanner, Event.changesLabels]
    · simp [Tool.run, lsc_cli, planHeightWidth, hh, hi, hcs, h2, Run.segmentCalls,
        Run.labelCalls, Run.written, Event.isPlanner, Event.changesLabels]
  · simp [Tool.run, pb_cli, hh, hi, h1, Run.segmentCalls, Run.labelCalls, Run.written,
      Event.isPlanner, Event.changesLabels]
  · exact absurd rfl ht.1
  · by_cases hcs : (a.int "color-space" < 0 ∨ a.int "color-space" > 2)
    · simp [Tool.run, reseeds_cli, hh, hi, hcs, Run.segmentCalls, Run.labelCalls,
        Run.written, Event.isPlanner, Event.changesLabels]
    · by_cases hf : a.fair = true
      · simp [Tool.run, reseeds_cli, planLevels, hh, hi, hcs, hf, h3', Run.segmentCalls,
          Run.labelCalls, Run.written, Event.isPlanner, Event.changesLabels]
      · simp [Tool.run, reseeds_cli, planLevels, hh, hi, hcs, hf, h4', Run.segmentCalls,
          Run.labelCalls, Run.written, Event.isPlanner, Event.changesLabels]
  · by_cases hcs : (a.int "color-space" < 0 ∨ a.int "color-space" > 2)
    · simp [Tool.run, seeds_cli, hh, hi, hcs, Run.segmentCalls, Run.labelCalls,
        Run.written, Event.isPlanner, Event.changesLabels]
    · by_cases hf : a.fair = true
      · simp [Tool.run, seeds_cli, planLevels, hh, hi, hcs, hf, h3', Run.segmentCalls,
          Run.labelCalls, Run.written, Event.isPlanner, Event.changesLabels]
      · simp [Tool.run, seeds_cli, planLevels, hh, hi, hcs, hf, h4', Run.segmentCalls,
          Run.labelCalls, Run.written, Event.isPlanner, Event.changesLabels]
  · simp [Tool.run, slic_cli, hh, hi, h1, Run.segmentCalls, Run.labelCalls, Run.written,
      Event.isPlanner, Event.changesLabels]
  · exact absurd rfl ht.2

set_option maxRecDepth 100000 in
/-- C11 (amended) at a concrete run of slic_cli with the count 0 and planners that reject
invalid input: the run ends with the planner's error uncaught, after imread and the
planner call only. -/
theorem C11_invalid_input_witness :
    (Tool.slic.run strictWorld (sampleArgs.setInt "superpixels" 0)).outcome = .uncaught ∧
    (Tool.slic.run strictWorld (sampleArgs.setInt "superpixels" 0)).segmentCalls = [] ∧
    (Tool.slic.run strictWorld (sampleArgs.setInt "superpixels" 0)).written = [] :=
  ⟨by decide,
    (C11_invalid_input .slic strictWorld (sampleArgs.setInt "superpixels" 0) "image.png"
      (by decide) (by intro image superpixels h; simp [strictWorld, guardedPlan, h]) rfl rfl
      (by decide)).2.2.1,
    (C11_invalid_input .slic strictWorld (sampleArgs.setInt "superpixels" 0) "image.png"
      (by decide) (by intro image superpixels h; simp [strictWorld, guardedPlan, h]) rfl rfl
      (by decide)).2.2.2.2⟩

/-- C14: in every completed run of crs_cli, ergc_cli and lsc_cli the segmentation is called
once; with `--fair` its first two arguments (region_height, region_width) are both the value
of computeRegionSizeFromSuperpixels(image, superpixels), whatever
computeHeightWidthFromSuperpixels returned, and without `--fair` they are the pair
computeHeightWidthFromSuperpixels returned.  In a completed run of seeds_cli and
reseeds_cli with `--fair` the segmentation receives region_width = region_height, the
width computeRegionSizeLevels returned. -/
theorem C14_fair_mode (t : Tool) (w : World) (a : Args)
    (h : (t.run w a).outcome = .exit 0) :
    match t with
    | .crs | .ergc | .lsc =>
        ∃ f hw name rest,
          a.input = some f ∧
          w.computeHeightWidthFromSuperpixels (w.imread f) (a.int "superpixels") = .ok hw ∧
          (a.fair = true →
            ∃ r, w.computeRegionSizeFromSuperpixels (w.imread f) (a.int "superpixels") = .ok r ∧
              (t.run w a).segmentCalls = [(name, w.imread f, .int r :: .int r :: rest)]) ∧
          (a.fair = false →
            (t.run w a).segmentCalls = [(name, w.imread f, .int hw.1 :: .int hw.2 :: rest)])
    | .seeds =>
        a.fair = true →
          ∃ f r levels,
            a.input = some f ∧
            w.computeRegionSizeLevels (w.imread f) (a.int "superpixels") 2 2 = .ok (r, levels) ∧
            (t.run w a).segmentCalls = [("SEEDS", w.imread f,
              [.int (a.int "bins"), .int 0, .real (a.real "confidence"),
                .bool (decide (a.int "prior" > 0)), .bool (decide (a.int "means" > 0)),
                .int (a.int "color-space"), .int r, .int r, .int levels,
                .int (a.int "iterations")])]
    | .reseeds =>
        a.fair = true →
          ∃ f r levels,
            a.input = some f ∧
            w.computeRegionSizeLevels (w.imread f) (a.int "superpixels") 2 2 = .ok (r, levels) ∧
            (t.run w a).segmentCalls = [("SEEDSRevisedMeanPixels", w.imread f,
              [.int levels, .int r, .int r, .int (a.int "bins"),
                .int (a.int "neighborhood"), .real (a.real "confidence"),
                .real (a.real "spatial-weight"), .int (a.int "color-space"),
                .int (a.int "iterations")])]
    | .ccs | .etps | .pb | .refh | .slic | .vc => (t.run w a).segmentCalls.length = 1 := by
  cases t
  · obtain ⟨f, r, L0, r1, r2, r3, _, _, hL, h1, h2, h3, hpost, hev⟩ := ccs_cli_events w a h
    simp [Tool.run, Run.segmentCalls, hev]
  · obtain ⟨f, plan, ev, L0, r1, r2, hi, _, hp, hL, h1, h2, hev⟩ := crs_cli_events w a h
    obtain ⟨hw, hhw, ⟨hf, r, hr, hplan, hev'⟩ | ⟨hf, hplan, hev'⟩⟩ :=
      planHeightWidth_ok _ _ _ _ _ _ _ hp
    · exact ⟨f, hw, _, _, hi, hhw, fun _ => ⟨r, hr, by
        simp [Tool.run, Run.segmentCalls, hev, hev', hplan]; exact ⟨rfl, rfl⟩⟩, by simp [hf]⟩
    · exact ⟨f, hw, _, _, hi, hhw, by simp [hf], fun _ => by
        simp [Tool.run, Run.segmentCalls, hev, hev', hplan]; exact ⟨rfl, rfl⟩⟩
  · obtain ⟨f, plan, ev, L0, r1, hi, hp, hL, h1, hev⟩ := ergc_cli_events w a h
    obtain ⟨hw, hhw, ⟨hf, r, hr, hplan, hev'⟩ | ⟨hf, hplan, hev'⟩⟩ :=
      planHeightWidth_ok _ _ _ _ _ _ _ hp
    · exact ⟨f, hw, _, _, hi, hhw, fun _ => ⟨r, hr, by
        simp [Tool.run, Run.segmentCalls, hev, hev', hplan]; exact ⟨rfl, rfl⟩⟩, by simp [hf]⟩
    · exact ⟨f, hw, _, _, hi, hhw, by simp [hf], fun _ => by
        simp [Tool.run, Run.segmentCalls, hev, hev', hplan]; exact ⟨rfl, rfl⟩⟩
  · obtain ⟨f, r, L0, r1, _, _, hL, h1, hev⟩ := etps_cli_events w a h
    simp [Tool.run, Run.segmentCalls, hev]
  · obtain ⟨f, plan, ev, L0, r1, r2, hi, _, hp, hL, h1, h2, hev⟩ := lsc_cli_events w a h
    obtain ⟨hw, hhw, ⟨hf, r, hr, hplan, hev'⟩ | ⟨hf, hplan, hev'⟩⟩ :=
      planHeightWidth_ok _ _ _ _ _ _ _ hp
    · exact ⟨f, hw, _, _, hi, hhw, fun _ => ⟨r, hr, by
        simp [Tool.run, Run.segmentCalls, hev, hev', hplan]; exact ⟨rfl, rfl⟩⟩, by simp [hf]⟩
    · exact ⟨f, hw, _, _, hi, hhw, by simp [hf], fun _ => by
        simp [Tool.run, Run.segmentCalls, hev, hev', hplan]; exact ⟨rfl, rfl⟩⟩
  · obtain ⟨f, r, L0, r1, r2, _, _, hL, h1, h2, hev⟩ := pb_cli_events w a h
    simp [Tool.run, Run.segmentCalls, hev]
  · obtain ⟨f, image, pre, L0, r1, _, hpre, hL, h1, hev⟩ := refh_cli_events w a h
    rcases hpre with hpre | hpre <;> simp [Tool.run, Run.segmentCalls, hev, hpre]
  · intro hfair
    obtain ⟨f, plan, ev, L0, r1, hi, _, hp, hc, h1, hev⟩ := reseeds_cli_events w a h
    obtain ⟨_, r, lv, hr, hplan, hev'⟩ | ⟨hf, _, hev'⟩ := planLevels_ok _ _ _ _ _ _ _ hp
    · exact ⟨f, r, lv, hi, hr, by simp [Tool.run, Run.segmentCalls, hev, hev', hplan]⟩
    · simp [hfair] at hf
  · intro hfair
    obtain ⟨f, plan, ev, L0, r1, hi, _, hp, hc, h1, hev⟩ := seeds_cli_events w a h
    obtain ⟨_, r, lv, hr, hplan, hev'⟩ | ⟨hf, _, hev'⟩ := planLevels_ok _ _ _ _ _ _ _ hp
    · exact ⟨f, r, lv, hi, hr, by simp [Tool.run, Run.segmentCalls, hev, hev', hplan]⟩
    · simp [hfair] at hf
  · obtain ⟨f, r, L0, r1, _, _, hL, h1, hev⟩ := slic_cli_events w a h
    simp [Tool.run, Run.segmentCalls, hev]
  · obtain ⟨f, size, L0, r1, r2, r3, _, _, hL, h1, h2, h3, hev⟩ := vc_cli_events w a h
    simp [Tool.run, Run.segmentCalls, hev]

set_option maxRecDepth 100000 in
/-- C14 at a concrete run of crs_cli with `--fair`: the planners answer the pair (3, 5) and
the region size 4, the run completes and the segmentation receives 4 and 4. -/
theorem C14_fair_mode_witness :
    (Tool.crs.run rectWorld fairArgs).outcome = .exit 0 ∧
    ∃ name image rest, (Tool.crs.run rectWorld fairArgs).segmentCalls =
      [(name, image, .int 4 :: .int 4 :: rest)] :=
  ⟨by decide, by
    obtain ⟨f, hw, name, rest, _, _, hfair, _⟩ :=
      C14_fair_mode .crs rectWorld fairArgs (by decide)
    obtain ⟨r, hr, hs⟩ := hfair rfl
    cases hr
    exact ⟨name, _, rest, hs⟩⟩

/-- Where the side of the seed block comes from: in every completed run, ccs_cli, etps_cli,
pb_cli and slic_cli hand their segmentation the value `r` of
computeRegionSizeFromSuperpixels(image, superpixels) as region size, and crs_cli, ergc_cli
and lsc_cli with `--fair` hand over that same `r` as region height and as region width;
seeds_cli and reseeds_cli with `--fair` hand over, as region width and region height, the
width computeRegionSizeLevels returned; refh_cli and vc_cli call no planner. -/
theorem fair_side_from_planners (t : Tool) (w : World) (a : Args)
    (h : (t.run w a).outcome = .exit 0) :
    match t with
    | .ccs | .etps | .pb | .slic =>
        ∃ f r name rest,
          a.input = some f ∧
          w.computeRegionSizeFromSuperpixels (w.imread f) (a.int "superpixels") = .ok r ∧
          (t.run w a).segmentCalls = [(name, w.imread f, .int r :: rest)]
    | .crs | .ergc | .lsc =>
        a.fair = true →
          ∃ f r name rest,
            a.input = some f ∧
            w.computeRegionSizeFromSuperpixels (w.imread f) (a.int "superpixels") = .ok r ∧
            (t.run w a).segmentCalls = [(name, w.imread f, .int r :: .int r :: rest)]
    | .seeds | .reseeds =>
        a.fair = true →
          ∃ f r levels name args,
            a.input = some f ∧
            w.computeRegionSizeLevels (w.imread f) (a.int "superpixels") 2 2 = .ok (r, levels) ∧
            (t.run w a).segmentCalls = [(name, w.imread f, args)] ∧
            [Value.int r, Value.int r] <:+: args
    | .refh | .vc => (t.run w a).events.filter Event.isPlanner = [] := by
  cases t
  · obtain ⟨f, r, L0, r1, r2, r3, hi, hr, hL, h1, h2, h3, hpost, hev⟩ := ccs_cli_events w a h
    exact ⟨f, r, _, _, hi, hr, by simp [Tool.run, Run.segmentCalls, hev]; exact ⟨rfl, rfl⟩⟩
  · intro hfair
    obtain ⟨f, plan, ev, L0, r1, r2, hi, _, hp, hL, h1, h2, hev⟩ := crs_cli_events w a h
    obtain ⟨hw, hhw, ⟨hf, r, hr, hplan, hev'⟩ | ⟨hf, hplan, hev'⟩⟩ :=
      planHeightWidth_ok _ _ _ _ _ _ _ hp
    · exact ⟨f, r, _, _, hi, hr, by
        simp [Tool.run, Run.segmentCalls, hev, hev', hplan]; exact ⟨rfl, rfl⟩⟩
    · simp [hfair] at hf
  · intro hfair
    obtain ⟨f, plan, ev, L0, r1, hi, hp, hL, h1, hev⟩ := ergc_cli_events w a h
    obtain ⟨hw, hhw, ⟨hf, r, hr, hplan, hev'⟩ | ⟨hf, hplan, hev'⟩⟩ :=
      planHeightWidth_ok _ _ _ _ _ _ _ hp
    · exact ⟨f, r, _, _, hi, hr, by
        simp [Tool.run, Run.segmentCalls, hev, hev', hplan]; exact ⟨rfl, rfl⟩⟩
    · simp [hfair] at hf
  · obtain ⟨f, r, L0, r1, hi, hr, hL, h1, hev⟩ := etps_cli_events w a h
    exact ⟨f, r, _, _, hi, hr, by simp [Tool.run, Run.segmentCalls, hev]; exact ⟨rfl, rfl⟩⟩
  · intro hfair
    obtain ⟨f, plan, ev, L0, r1, r2, hi, _, hp, hL, h1, h2, hev⟩ := lsc_cli_events w a h
    obtain ⟨hw, hhw, ⟨hf, r, hr, hplan, hev'⟩ | ⟨hf, hplan, hev'⟩⟩ :=
      planHeightWidth_ok _ _ _ _ _ _ _ hp
    · exact ⟨f, r, _, _, hi, hr, by
        simp [Tool.run, Run.segmentCalls, hev, hev', hplan]; exact ⟨rfl, rfl⟩⟩
    · simp [hfair] at hf
  · obtain ⟨f, r, L0, r1, r2, hi, hr, hL, h1, h2, hev⟩ := pb_cli_events w a h
    exact ⟨f, r, _, _, hi, hr, by simp [Tool.run, Run.segmentCalls, hev]; exact ⟨rfl, rfl⟩⟩
  · obtain ⟨f, image, pre, L0, r1, _, hpre, hL, h1, hev⟩ := refh_cli_events w a h
    rcases hpre with hpre | hpre <;> simp [Tool.run, hev, hpre, Event.isPlanner]
  · intro hfair
    obtain ⟨f, plan, ev, L0, r1, hi, _, hp, hc, h1, hev⟩ := reseeds_cli_events w a h
    obtain ⟨_, r, lv, hr, hplan, hev'⟩ | ⟨hf, _, hev'⟩ := planLevels_ok _ _ _ _ _ _ _ hp
    · exact ⟨f, r, lv, "SEEDSRevisedMeanPixels",
        [.int lv, .int r, .int r, .int (a.int "bins"), .int (a.int "neighborhood"),
          .real (a.real "confidence"), .real (a.real "spatial-weight"),
          .int (a.int "color-space"), .int (a.int "iterations")], hi, hr,
        by simp [Tool.run, Run.segmentCalls, hev, hev', hplan], ⟨[.int lv], _, rfl⟩⟩
    · simp [hfair] at hf
  · intro hfair
    obtain ⟨f, plan, ev, L0, r1, hi, _, hp, hc, h1, hev⟩ := seeds_cli_events w a h
    obtain ⟨_, r, lv, hr, hplan, hev'⟩ | ⟨hf, _, hev'⟩ := planLevels_ok _ _ _ _ _ _ _ hp
    · exact ⟨f, r, lv, "SEEDS",
        [.int (a.int "bins"), .int 0, .real (a.real "confidence"),
          .bool (decide (a.int "prior" > 0)), .bool (decide (a.int "means" > 0)),
          .int (a.int "color-space"), .int r, .int r, .int lv, .int (a.int "iterations")],
        hi, hr, by simp [Tool.run, Run.segmentCalls, hev, hev', hplan],
        ⟨[.int (a.int "bins"), .int 0, .real (a.real "confidence"),
          .bool (decide (a.int "prior" > 0)), .bool (decide (a.int "means" > 0)),
          .int (a.int "color-space")], [.int lv, .int (a.int "iterations")], rfl⟩⟩
    · simp [hfair] at hf
  · obtain ⟨f, r, L0, r1, hi, hr, hL, h1, hev⟩ := slic_cli_events w a h
    exact ⟨f, r, _, _, hi, hr, by simp [Tool.run, Run.segmentCalls, hev]; exact ⟨rfl, rfl⟩⟩
  · obtain ⟨f, size, L0, r1, r2, r3, _, _, hL, h1, h2, h3, hev⟩ := vc_cli_events w a h
    simp [Tool.run, hev, Event.isPlanner]

/-- C17: on every command line with an input file and a color-space value above 1, lsc_cli
prints "Invalid color space." and returns 1 without reading the image or running the
segmentation, although its usage text and option help say "0 = RGB, >0 = Lab". -/
theorem C17_lsc_rejects_color_space_above_one (w : World) (a : Args) (f : String)
    (hh : a.help = false) (hi : a.input = some f) (hcs : 1 < a.int "color-space") :
    lsc_cli w a = ⟨.exit 1, [.stdout "Invalid color space."]⟩ := by
  simp [lsc_cli, hh, hi, hcs]

/-- C17 at the failing input `--color-space 2`: lsc_cli returns 1 after printing "Invalid
color space." and calls nothing. -/
theorem C17_lsc_rejects_color_space_above_one_witness :
    lsc_cli sampleWorld (sampleArgs.setInt "color-space" 2) =
      ⟨.exit 1, [.stdout "Invalid color space."]⟩ :=
  C17_lsc_rejects_color_space_above_one sampleWorld (sampleArgs.setInt "color-space" 2)
    "image.png" rfl rfl (by decide)

/-- C18: vc_cli declares and documents `--color-space` (default 1) but never reads it: two
runs that differ only in the value of color-space are the same run, with the same arguments
handed to VC_OpenCV::computeSuperpixels. -/
theorem C18_vc_ignores_color_space (w : World) (a : Args) (v : Int) :
    (optionTable .vc).contains ⟨"color-space", .int 1⟩ = true ∧
    (usage .vc).contains ⟨"color-space", some (1, 1)⟩ = true ∧
    vc_cli w (a.setInt "color-space" v) = vc_cli w a := by
  refine ⟨by decide, by decide, ?_⟩
  simp [vc_cli, Args.setInt, visualize]

set_option maxRecDepth 1000000 in
/-- C19 at the failing inputs: every tool documents the options csv, vis, prefix and wordy
without declaring them, and declares oc and om without documenting them, so for no tool do
the documented and the declared option names coincide; on the options that are both
documented and declared, every declared default is the documented one. -/
theorem C19_usage_differs_from_option_table (t : Tool) :
    documentedOnly t = ["csv", "vis", "prefix", "wordy"] ∧
    declaredOnly t = ["oc", "om"] ∧
    defaultMismatches t = [] := by
  cases t <;> decide

set_option maxRecDepth 1000000 in
/-- C20 as stated fails for vc_cli: its run calls no geometry planner, hands the raw count
to VC_OpenCV::computeSuperpixels, and uses the count again after segmentation for the
threshold of enforceMinimumSuperpixelSize: on a 2x10 image whose segmentation does not
depend on the count, the counts 1 and 2 give the thresholds 2 and 1. -/
theorem C20_plan_before_segmentation_counterexample :
    (vc_cli wideWorld (sampleArgs.setInt "superpixels" 1)).outcome = .exit 0 ∧
    (vc_cli wideWorld (sampleArgs.setInt "superpixels" 1)).events.filter Event.isPlanner = [] ∧
    (vc_cli wideWorld (sampleArgs.setInt "superpixels" 1)).segmentCalls.map (fun c => c.2.2) =
      [[.int 1, .real 1, .int 1, .int 1, .int 1, .int 1]] ∧
    (vc_cli wideWorld (sampleArgs.setInt "superpixels" 1)).enforcedSizes = [2] ∧
    (vc_cli wideWorld (sampleArgs.setInt "superpixels" 2)).outcome = .exit 0 ∧
    (vc_cli wideWorld (sampleArgs.setInt "superpixels" 2)).segmentCalls.map (fun c => c.2.2) =
      [[.int 2, .real 1, .int 1, .int 1, .int 1, .int 1]] ∧
    (vc_cli wideWorld (sampleArgs.setInt "superpixels" 2)).enforcedSizes = [1] := by
  decide

theorem tool_phases (t : Tool) (w : World) (a : Args) (ht : t ≠ .refh ∧ t ≠ .vc)
    (h : (t.run w a).outcome = .exit 0) :
    ∃ f planning labels₀ r₁ r₂ r₃,
      a.input = some f ∧
      (t.run w a).beforeSegment = .imread f :: planning ∧
      planning ≠ [] ∧
      (∀ e ∈ planning, e.plannerInput = some (w.imread f, a.int "superpixels")) ∧
      r₁ = w.relabelConnectedSuperpixels labels₀ ∧
      r₂ = w.enforceMinimumSuperpixelSizeUpTo (w.imread f) r₁.1 r₁.2 ∧
      r₃ = w.enforceMinimumSuperpixelSizeUpTo (w.imread f) r₂.1 r₁.2 ∧
      (t.run w a).afterSegment = .relabelConnectedSuperpixels labels₀ ::
        (match t with
        | .ccs =>
            [.enforceMinimumSuperpixelSizeUpTo (w.imread f) r₁.1 r₁.2,
              .enforceMinimumSuperpixelSizeUpTo (w.imread f) r₂.1 r₁.2] ++
            (visualize w a (w.imread f) r₃.1 []).events
        | .crs | .lsc | .pb =>
            [.enforceMinimumSuperpixelSizeUpTo (w.imread f) r₁.1 r₁.2,
              .relabelSuperpixels r₂.1] ++
            (visualize w a (w.imread f) (w.relabelSuperpixels r₂.1) []).events
        | _ => (visualize w a (w.imread f) r₁.1 []).events) := by
  cases t
  · obtain ⟨f, r, L0, r1, r2, r3, hi, hr, hL, h1, h2, h3, hpost, hev⟩ := ccs_cli_events w a h
    refine ⟨f, [.computeRegionSizeFromSuperpixels (w.imread f) (a.int "superpixels")],
      L0, r1, r2, r3, hi, ?_, ?_, ?_, h1, h2, h3, ?_⟩
    · simp [Tool.run, Run.beforeSegment, hev, Event.isSegment]
    · simp
    · simp [Event.plannerInput]
    · simp [Tool.run, Run.afterSegment, hev, Event.isSegment, visualize]
  · obtain ⟨f, plan, ev, L0, r1, r2, hi, _, hp, hL, h1, h2, hev⟩ := crs_cli_events w a h
    obtain ⟨hw, hhw, ⟨hf, r, hr, hplan, hev'⟩ | ⟨hf, hplan, hev'⟩⟩ :=
      planHeightWidth_ok _ _ _ _ _ _ _ hp
    · refine ⟨f, [.computeHeightWidthFromSuperpixels (w.imread f) (a.int "superpixels"),
        .computeRegionSizeFromSuperpixels (w.imread f) (a.int "superpixels")],
        L0, r1, r2, _, hi, ?_, ?_, ?_, h1, h2, rfl, ?_⟩
      · simp [Tool.run, Run.beforeSegment, hev, hev', Event.isSegment]
      · simp
      · simp [Event.plannerInput]
      · simp [Tool.run, Run.afterSegment, hev, hev', Event.isSegment, visualize]
    · refine ⟨f, [.computeHeightWidthFromSuperpixels (w.imread f) (a.int "superpixels")],
        L0, r1, r2, _, hi, ?_, ?_, ?_, h1, h2, rfl, ?_⟩
      · simp [Tool.run, Run.beforeSegment, hev, hev', Event.isSegment]
      · simp
      · simp [Event.plannerInput]
      · simp [Tool.run, Run.afterSegment, hev, hev', Event.isSegment, visualize]
  · obtain ⟨f, plan, ev, L0, r1, hi, hp, hL, h1, hev⟩ := ergc_cli_events w a h
    obtain ⟨hw, hhw, ⟨hf, r, hr, hplan, hev'⟩ | ⟨hf, hplan, hev'⟩⟩ :=
      planHeightWidth_ok _ _ _ _ _ _ _ hp
    · refine ⟨f, [.computeHeightWidthFromSuperpixels (w.imread f) (a.int "superpixels"),
        .computeRegionSizeFromSuperpixels (w.imread f) (a.int "superpixels")],
        L0, r1, _, _, hi, ?_, ?_, ?_, h1, rfl, rfl, ?_⟩
      · simp [Tool.run, Run.beforeSegment, hev, hev', Event.isSegment]
      · simp
      · simp [Event.plannerInput]
      · simp [Tool.run, Run.afterSegment, hev, hev', Event.isSegment, visualize]
    · refine ⟨f, [.computeHeightWidthFromSuperpixels (w.imread f) (a.int "superpixels")],
        L0, r1, _, _, hi, ?_, ?_, ?_, h1, rfl, rfl, ?_⟩
      · simp [Tool.run, Run.beforeSegment, hev, hev', Event.isSegment]
      · simp
      · simp [Event.plannerInput]
      · simp [Tool.run, Run.afterSegment, hev, hev', Event.isSegment, visualize]
  · obtain ⟨f, r, L0, r1, hi, hr, hL, h1, hev⟩ := etps_cli_events w a h
    refine ⟨f, [.computeRegionSizeFromSuperpixels (w.imread f) (a.int "superpixels")],
      L0, r1, _, _, hi, ?_, ?_, ?_, h1, rfl, rfl, ?_⟩
    · simp [Tool.run, Run.beforeSegment, hev, Event.isSegment]
    · simp
    · simp [Event.plannerInput]
    · simp [Tool.run, Run.afterSegment, hev, Event.isSegment, visualize]
  · obtain ⟨f, plan, ev, L0, r1, r2, hi, _, hp, hL, h1, h2, hev⟩ := lsc_cli_events w a h
    obtain ⟨hw, hhw, ⟨hf, r, hr, hplan, hev'⟩ | ⟨hf, hplan, hev'⟩⟩ :=
      planHeightWidth_ok _ _ _ _ _ _ _ hp
    · refine ⟨f, [.computeHeightWidthFromSuperpixels (w.imread f) (a.int "superpixels"),
        .computeRegionSizeFromSuperpixels (w.imread f) (a.int "superpixels")],
        L0, r1, r2, _, hi, ?_, ?_, ?_, h1, h2, rfl, ?_⟩
      · simp [Tool.run, Run.beforeSegment, hev, hev', Event.isSegment]
      · simp
      · simp [Event.plannerInput]
      · simp [Tool.run, Run.afterSegment, hev, hev', Event.isSegment, visualize]
    · refine ⟨f, [.computeHeightWidthFromSuperpixels (w.imread f) (a.int "superpixels")],
        L0, r1, r2, _, hi, ?_, ?_, ?_, h1, h2, rfl, ?_⟩
      · simp [Tool.run, Run.beforeSegment, hev, hev', Event.isSegment]
      · simp
      · simp [Event.plannerInput]
      · simp [Tool.run, Run.afterSegment, hev, hev', Event.isSegment, visualize]
  · obtain ⟨f, r, L0, r1, r2, hi, hr, hL, h1, h2, hev⟩ := pb_cli_events w a h
    refine ⟨f, [.computeRegionSizeFromSuperpixels (w.imread f) (a.int "superpixels")],
      L0, r1, r2, _, hi, ?_, ?_, ?_, h1, h2, rfl, ?_⟩
    · simp [Tool.run, Run.beforeSegment, hev, Event.isSegment]
    · simp
    · simp [Event.plannerInput]
    · simp [Tool.run, Run.afterSegment, hev, Event.isSegment, visualize]
  · exact absurd rfl ht.1
  · obtain ⟨f, plan, ev, L0, r1, hi, _, hp, hc, h1, hev⟩ := reseeds_cli_events w a h
    obtain ⟨_, r, lv, hr, hplan, hev'⟩ | ⟨hf, _, hev'⟩ := planLevels_ok _ _ _ _ _ _ _ hp
    · refine ⟨f, [.computeRegionSizeLevels (w.imread f) (a.int "superpixels")],
        L0, r1, _, _, hi, ?_, ?_, ?_, h1, rfl, rfl, ?_⟩
      · simp [Tool.run, Run.beforeSegment, hev, hev', Event.isSegment]
      · simp
      · simp [Event.plannerInput]
      · simp [Tool.run, Run.afterSegment, hev, hev', Event.isSegment, visualize]
    · refine ⟨f, [.computeHeightWidthLevelsFromSuperpixels (w.imread f) (a.int "superpixels")],
        L0, r1, _, _, hi, ?_, ?_, ?_, h1, rfl, rfl, ?_⟩
      · simp [Tool.run, Run.beforeSegment, hev, hev', Event.isSegment]
      · simp
      · simp [Event.plannerInput]
      · simp [Tool.run, Run.afterSegment, hev, hev', Event.isSegment, visualize]
  · obtain ⟨f, plan, ev, L0, r1, hi, _, hp, hc, h1, hev⟩ := seeds_cli_events w a h
    obtain ⟨_, r, lv, hr, hplan, hev'⟩ | ⟨hf, _, hev'⟩ := planLevels_ok _ _ _ _ _ _ _ hp
    · refine ⟨f, [.computeRegionSizeLevels (w.imread f) (a.int "superpixels")],
        L0, r1, _, _, hi, ?_, ?_, ?_, h1, rfl, rfl, ?_⟩
      · simp [Tool.run, Run.beforeSegment, hev, hev', Event.isSegment]
      · simp
      · simp [Event.plannerInput]
      · simp [Tool.run, Run.afterSegment, hev, hev', Event.isSegment, visualize]
    · refine ⟨f, [.computeHeightWidthLevelsFromSuperpixels (w.imread f) (a.int "superpixels")],
        L0, r1, _, _, hi, ?_, ?_, ?_, h1, rfl, rfl, ?_⟩
      · simp [Tool.run, Run.beforeSegment, hev, hev', Event.isSegment]
      · simp
      · simp [Event.plannerInput]
      · simp [Tool.run, Run.afterSegment, hev, hev', Event.isSegment, visualize]
  · obtain ⟨f, r, L0, r1, hi, hr, hL, h1, hev⟩ := slic_cli_events w a h
    refine ⟨f, [.computeRegionSizeFromSuperpixels (w.imread f) (a.int "superpixels")],
      L0, r1, _, _, hi, ?_, ?_, ?_, h1, rfl, rfl, ?_⟩
    · simp [Tool.run, Run.beforeSegment, hev, Event.isSegment]
    · simp
    · simp [Event.plannerInput]
    · simp [Tool.run, Run.afterSegment, hev, Event.isSegment, visualize]
  · exact absurd rfl ht.2

theorem tool_segment_args (t : Tool) (w : World) (a : Args) (f : String) :
    a.input = some f → (t.run w a).outcome = .exit 0 →
    match t with
    | .ccs =>
        ∃ r, w.computeRegionSizeFromSuperpixels (w.imread f) (a.int "superpixels") = .ok r ∧
          (t.run w a).segmentCalls = [("CCS_OpenCV::computeSuperpixels", w.imread f,
            [.int r, .int (a.int "iterations"), .int (a.int "compactness"),
              .bool (decide (a.int "color-space" > 0))])]
    | .etps =>
        ∃ r, w.computeRegionSizeFromSuperpixels (w.imread f) (a.int "superpixels") = .ok r ∧
          (t.run w a).segmentCalls = [("ETPS_OpenCV::computeSuperpixels", w.imread f,
            [.int r, .real (a.real "regularization-weight"), .real (a.real "length-weight"),
              .real (a.real "size-weight"), .int (a.int "iterations")])]
    | .pb =>
        ∃ r, w.computeRegionSizeFromSuperpixels (w.imread f) (a.int "superpixels") = .ok r ∧
          (t.run w a).segmentCalls = [("PB_OpenCV::computeSuperpixels", w.imread f,
            [.int r, .real (a.real "sigma"), .bool (decide (a.int "max-flow" > 0))])]
    | .slic =>
        ∃ r, w.computeRegionSizeFromSuperpixels (w.imread f) (a.int "superpixels") = .ok r ∧
          (t.run w a).segmentCalls = [("SLIC_OpenCV::computeSuperpixels", w.imread f,
            [.int r, .real (a.real "compactness"), .int (a.int "iterations"),
              .bool (decide (a.int "perturb-seeds" > 0)), .int (a.int "color-space")])]
    | .crs =>
        ∃ plan ev,
          planHeightWidth w a (w.imread f) (a.int "superpixels") [.imread f] = .ok (plan, ev) ∧
          (t.run w a).segmentCalls = [("CRS_OpenCV::computeSuperpixels", w.imread f,
            [.int plan.1, .int plan.2, .real (a.real "clique-cost"),
              .real (a.real "compactness"), .int (a.int "iterations"),
              .int (a.int "color-space")])]
    | .ergc =>
        ∃ plan ev,
          planHeightWidth w a (w.imread f) (a.int "superpixels") [.imread f] = .ok (plan, ev) ∧
          (t.run w a).segmentCalls = [("ERGC_OpenCV::computeSuperpixels", w.imread f,
            [.int plan.1, .int plan.2, .bool (decide (a.int "color-space" > 0)),
              .bool (decide (a.int "perturb-seeds" > 0)), .int (a.int "compacity")])]
    | .lsc =>
        ∃ plan ev,
          planHeightWidth w a (w.imread f) (a.int "superpixels") [.imread f] = .ok (plan, ev) ∧
          (t.run w a).segmentCalls = [("LSC_OpenCV::computeSuperpixels", w.imread f,
            [.int plan.1, .int plan.2, .real (a.real "ratio"), .int (a.int "iterations"),
              .int (a.int "threshold"), .int (a.int "color-space")])]
    | .seeds =>
        ∃ plan ev,
          planLevels w a (w.imread f) (a.int "superpixels") [.imread f] = .ok (plan, ev) ∧
          (t.run w a).segmentCalls = [("SEEDS", w.imread f,
            [.int (a.int "bins"), .int 0, .real (a.real "confidence"),
              .bool (decide (a.int "prior" > 0)), .bool (decide (a.int "means" > 0)),
              .int (a.int "color-space"), .int plan.2.1, .int plan.1, .int plan.2.2,
              .int (a.int "iterations")])]
    | .reseeds =>
        ∃ plan ev,
          planLevels w a (w.imread f) (a.int "superpixels") [.imread f] = .ok (plan, ev) ∧
          (t.run w a).segmentCalls = [("SEEDSRevisedMeanPixels", w.imread f,
            [.int plan.2.2, .int plan.2.1, .int plan.1, .int (a.int "bins"),
              .int (a.int "neighborhood"), .real (a.real "confidence"),
              .real (a.real "spatial-weight"), .int (a.int "color-space"),
              .int (a.int "iterations")])]
    | .refh | .vc => (t.run w a).events.filter Event.isPlanner = [] := by
  intro hi h
  cases t
  · obtain ⟨g, r, L0, r1, r2, r3, hg, hr, hL, h1, h2, h3, hpost, hev⟩ := ccs_cli_events w a h
    cases hi.symm.trans hg
    exact ⟨r, hr, by simp [Tool.run, Run.segmentCalls, hev]⟩
  · obtain ⟨g, plan, ev, L0, r1, r2, hg, _, hp, hL, h1, h2, hev⟩ := crs_cli_events w a h
    cases hi.symm.trans hg
    obtain ⟨hw, hhw, ⟨hf, r, hr, hplan, hev'⟩ | ⟨hf, hplan, hev'⟩⟩ :=
      planHeightWidth_ok _ _ _ _ _ _ _ hp <;>
    exact ⟨plan, ev, hp, by simp [Tool.run, Run.segmentCalls, hev, hev']⟩
  · obtain ⟨g, plan, ev, L0, r1, hg, hp, hL, h1, hev⟩ := ergc_cli_events w a h
    cases hi.symm.trans hg
    obtain ⟨hw, hhw, ⟨hf, r, hr, hplan, hev'⟩ | ⟨hf, hplan, hev'⟩⟩ :=
      planHeightWidth_ok _ _ _ _ _ _ _ hp <;>
    exact ⟨plan, ev, hp, by simp [Tool.run, Run.segmentCalls, hev, hev']⟩
  · obtain ⟨g, r, L0, r1, hg, hr, hL, h1, hev⟩ := etps_cli_events w a h
    cases hi.symm.trans hg
    exact ⟨r, hr, by simp [Tool.run, Run.segmentCalls, hev]⟩
  · obtain ⟨g, plan, ev, L0, r1, r2, hg, _, hp, hL, h1, h2, hev⟩ := lsc_cli_events w a h
    cases hi.symm.trans hg
    obtain ⟨hw, hhw, ⟨hf, r, hr, hplan, hev'⟩ | ⟨hf, hplan, hev'⟩⟩ :=
      planHeightWidth_ok _ _ _ _ _ _ _ hp <;>
    exact ⟨plan, ev, hp, by simp [Tool.run, Run.segmentCalls, hev, hev']⟩
  · obtain ⟨g, r, L0, r1, r2, hg, hr, hL, h1, h2, hev⟩ := pb_cli_events w a h
    cases hi.symm.trans hg
    exact ⟨r, hr, by simp [Tool.run, Run.segmentCalls, hev]⟩
  · obtain ⟨g, image, pre, L0, r1, _, hpre, hL, h1, hev⟩ := refh_cli_events w a h
    rcases hpre with hpre | hpre <;> simp [Tool.run, hev, hpre, Event.isPlanner]
  · obtain ⟨g, plan, ev, L0, r1, hg, _, hp, hc, h1, hev⟩ := reseeds_cli_events w a h
    cases hi.symm.trans hg
    obtain ⟨_, r, lv, hr, hplan, hev'⟩ | ⟨hf, _, hev'⟩ := planLevels_ok _ _ _ _ _ _ _ hp <;>
    exact ⟨plan, ev, hp, by simp [Tool.run, Run.segmentCalls, hev, hev']⟩
  · obtain ⟨g, plan, ev, L0, r1, hg, _, hp, hc, h1, hev⟩ := seeds_cli_events w a h
    cases hi.symm.trans hg
    obtain ⟨_, r, lv, hr, hplan, hev'⟩ | ⟨hf, _, hev'⟩ := planLevels_ok _ _ _ _ _ _ _ hp <;>
    exact ⟨plan, ev, hp, by simp [Tool.run, Run.segmentCalls, hev, hev']⟩
  · obtain ⟨g, r, L0, r1, hg, hr, hL, h1, hev⟩ := slic_cli_events w a h
    cases hi.symm.trans hg
    exact ⟨r, hr, by simp [Tool.run, Run.segmentCalls, hev]⟩
  · obtain ⟨g, size, L0, r1, r2, r3, _, _, hL, h1, h2, h3, hev⟩ := vc_cli_events w a h
    simp [Tool.run, hev, Event.isPlanner]

theorem tool_after_independent (t : Tool) (w : World) (a a' : Args)
    (ht : t ≠ .refh ∧ t ≠ .vc)
    (h : (t.run w a).outcome = .exit 0) (h' : (t.run w a').outcome = .exit 0)
    (hi : a'.input = a.input) (hoc : a'.oc = a.oc) (hom : a'.om = a.om)
    (hhead : (t.run w a').afterSegment.head? = (t.run w a).afterSegment.head?) :
    (t.run w a').afterSegment = (t.run w a).afterSegment := by
  obtain ⟨f, planning, L0, r1, r2, r3, hf, _, _, _, h1, h2, h3, haft⟩ :=
    tool_phases t w a ht h
  obtain ⟨f', planning', L0', r1', r2', r3', hf', _, _, _, h1', h2', h3', haft'⟩ :=
    tool_phases t w a' ht h'
  have hff : f' = f := by
    rw [hi, hf] at hf'
    exact (Option.some.inj hf').symm
  subst hff
  rw [haft, haft'] at hhead
  simp only [List.head?_cons, Option.some.injEq, Event.relabelConnectedSuperpixels.injEq]
    at hhead
  subst hhead
  have e1 : r1' = r1 := h1'.trans h1.symm
  subst e1
  have e2 : r2' = r2 := h2'.trans h2.symm
  subst e2
  have e3 : r3' = r3 := h3'.trans h3.symm
  subst e3
  rw [haft, haft']
  cases t <;> simp [visualize, hoc, hom]

/-- C20 (amended): in every completed run of the nine tools that plan a region size (every
tool but refh_cli, which takes no count, and vc_cli, which computes no plan): the events
before the segmentation call are imread followed by one or two planner calls, each on the
loaded image and the superpixel count; the segmentation call receives the planner's answer
and the other options, not the count; no planner is called after segmentation; and the
calls after segmentation do not depend on the count or the plan: a second completed run on
the same input file and output names, whose splitter receives the same label map, makes the
same calls after segmentation.  (seeds_cli reads the plan's `levels` once more when it
copies the segmentation's label buffer into the label map.) -/
theorem C20_plan_before_segmentation (t : Tool) (w : World) (a : Args) :
    (t ≠ .refh ∧ t ≠ .vc) → (t.run w a).outcome = .exit 0 →
    ∃ f planning,
      a.input = some f ∧
      (t.run w a).beforeSegment = .imread f :: planning ∧
      planning ≠ [] ∧
      (∀ e ∈ planning, e.plannerInput = some (w.imread f, a.int "superpixels")) ∧
      (match t with
        | .ccs =>
            ∃ r, w.computeRegionSizeFromSuperpixels (w.imread f) (a.int "superpixels") = .ok r ∧
              (t.run w a).segmentCalls = [("CCS_OpenCV::computeSuperpixels", w.imread f,
                [.int r, .int (a.int "iterations"), .int (a.int "compactness"),
                  .bool (decide (a.int "color-space" > 0))])]
        | .etps =>
            ∃ r, w.computeRegionSizeFromSuperpixels (w.imread f) (a.int "superpixels") = .ok r ∧
              (t.run w a).segmentCalls = [("ETPS_OpenCV::computeSuperpixels", w.imread f,
                [.int r, .real (a.real "regularization-weight"),
                  .real (a.real "length-weight"), .real (a.real "size-weight"),
                  .int (a.int "iterations")])]
        | .pb =>
            ∃ r, w.computeRegionSizeFromSuperpixels (w.imread f) (a.int "superpixels") = .ok r ∧
              (t.run w a).segmentCalls = [("PB_OpenCV::computeSuperpixels", w.imread f,
                [.int r, .real (a.real "sigma"), .bool (decide (a.int "max-flow" > 0))])]
        | .slic =>
            ∃ r, w.computeRegionSizeFromSuperpixels (w.imread f) (a.int "superpixels") = .ok r ∧
              (t.run w a).segmentCalls = [("SLIC_OpenCV::computeSuperpixels", w.imread f,
                [.int r, .real (a.real "compactness"), .int (a.int "iterations"),
                  .bool (decide (a.int "perturb-seeds" > 0)), .int (a.int "color-space")])]
        | .crs =>
            ∃ plan ev,
              planHeightWidth w a (w.imread f) (a.int "superpixels") [.imread f] =
                .ok (plan, ev) ∧
              (t.run w a).segmentCalls = [("CRS_OpenCV::computeSuperpixels", w.imread f,
                [.int plan.1, .int plan.2, .real (a.real "clique-cost"),
                  .real (a.real "compactness"), .int (a.int "iterations"),
                  .int (a.int "color-space")])]
        | .ergc =>
            ∃ plan ev,
              planHeightWidth w a (w.imread f) (a.int "superpixels") [.imread f] =
                .ok (plan, ev) ∧
              (t.run w a).segmentCalls = [("ERGC_OpenCV::computeSuperpixels", w.imread f,
                [.int plan.1, .int plan.2, .bool (decide (a.int "color-space" > 0)),
                  .bool (decide (a.int "perturb-seeds" > 0)), .int (a.int "compacity")])]
        | .lsc =>
            ∃ plan ev,
              planHeightWidth w a (w.imread f) (a.int "superpixels") [.imread f] =
                .ok (plan, ev) ∧
              (t.run w a).segmentCalls = [("LSC_OpenCV::computeSuperpixels", w.imread f,
                [.int plan.1, .int plan.2, .real (a.real "ratio"), .int (a.int "iterations"),
                  .int (a.int "threshold"), .int (a.int "color-space")])]
        | .seeds =>
            ∃ plan ev,
              planLevels w a (w.imread f) (a.int "superpixels") [.imread f] = .ok (plan, ev) ∧
              (t.run w a).segmentCalls = [("SEEDS", w.imread f,
                [.int (a.int "bins"), .int 0, .real (a.real "confidence"),
                  .bool (decide (a.int "prior" > 0)), .bool (decide (a.int "means" > 0)),
                  .int (a.int "color-space"), .int plan.2.1, .int plan.1, .int plan.2.2,
                  .int (a.int "iterations")])]
        | .reseeds =>
            ∃ plan ev,
              planLevels w a (w.imread f) (a.int "superpixels") [.imread f] = .ok (plan, ev) ∧
              (t.run w a).segmentCalls = [("SEEDSRevisedMeanPixels", w.imread f,
                [.int plan.2.2, .int plan.2.1, .int plan.1, .int (a.int "bins"),
                  .int (a.int "neighborhood"), .real (a.real "confidence"),
                  .real (a.real "spatial-weight"), .int (a.int "color-space"),
                  .int (a.int "iterations")])]
        | .refh | .vc => (t.run w a).events.filter Event.isPlanner = []) ∧
      (∀ e ∈ (t.run w a).afterSegment, e.isPlanner = false) ∧
      (∀ a', (t.run w a').outcome = .exit 0 →
        a'.input = a.input → a'.oc = a.oc → a'.om = a.om →
        (t.run w a').afterSegment.head? = (t.run w a).afterSegment.head? →
        (t.run w a').afterSegment = (t.run w a).afterSegment) := by
  intro ht h
  obtain ⟨f, planning, L0, r1, r2, r3, hi, hb, hne, hpl, h1, h2, h3, haft⟩ :=
    tool_phases t w a ht h
  refine ⟨f, planning, hi, hb, hne, hpl, tool_segment_args t w a f hi h, ?_, ?_⟩
  · rw [haft]
    cases t <;> simp [visualize, Event.isPlanner]
  · intro a' h' hi' hoc hom hhead
    exact tool_after_independent t w a a' ht h h' hi' hoc hom hhead

set_option maxRecDepth 100000 in
/-- C20 (amended) at a concrete run of etps_cli: the run completes, and before the
segmentation call come imread and at least one planner call. -/
theorem C20_plan_before_segmentation_witness :
    (Tool.etps.run sampleWorld sampleArgs).outcome = .exit 0 ∧
    ∃ f planning,
      (Tool.etps.run sampleWorld sampleArgs).beforeSegment = .imread f :: planning ∧
      planning ≠ [] :=
  ⟨by decide, by
    obtain ⟨f, planning, _, hb, hne, _⟩ :=
      C20_plan_before_segmentation .etps sampleWorld sampleArgs (by decide) (by decide)
    exact ⟨f, planning, hb, hne⟩⟩

theorem refh_cli_smooth (w : World) (a : Args) (f : String) (hh : a.help = false)
    (hi : a.input = some f) (hs : a.real "sigma" > double_0_01) :
    refh_cli w a =
      visualize w a (w.gaussianBlur (w.imread f) (⌈a.real "sigma" * 4⌉ + 1) (a.real "sigma"))
        (w.relabelConnectedSuperpixels
          (w.segment "GraphSegmentation"
            (w.gaussianBlur (w.imread f) (⌈a.real "sigma" * 4⌉ + 1) (a.real "sigma"))
            [.real (a.real "threshold"), .int (a.int "minimum-size")])).1
        [.imread f,
          .gaussianBlur (w.imread f) (⌈a.real "sigma" * 4⌉ + 1) (a.real "sigma"),
          .segment "GraphSegmentation"
            (w.gaussianBlur (w.imread f) (⌈a.real "sigma" * 4⌉ + 1) (a.real "sigma"))
            [.real (a.real "threshold"), .int (a.int "minimum-size")],
          .relabelConnectedSuperpixels
            (w.segment "GraphSegmentation"
              (w.gaussianBlur (w.imread f) (⌈a.real "sigma" * 4⌉ + 1) (a.real "sigma"))
              [.real (a.real "threshold"), .int (a.int "minimum-size")])] := by
  simp [refh_cli, hh, hi, hs]

theorem refh_cli_plain (w : World) (a : Args) (f : String) (hh : a.help = false)
    (hi : a.input = some f) (hs : ¬ a.real "sigma" > double_0_01) :
    refh_cli w a =
      visualize w a (w.imread f)
        (w.relabelConnectedSuperpixels
          (w.segment "GraphSegmentation" (w.imread f)
            [.real (a.real "threshold"), .int (a.int "minimum-size")])).1
        [.imread f,
          .segment "GraphSegmentation" (w.imread f)
            [.real (a.real "threshold"), .int (a.int "minimum-size")],
          .relabelConnectedSuperpixels
            (w.segment "GraphSegmentation" (w.imread f)
              [.real (a.real "threshold"), .int (a.int "minimum-size")])] := by
  simp [refh_cli, hh, hi, hs]

theorem refh_cli_input (w : World) (a : Args) (h : (refh_cli w a).outcome = .exit 0) :
    a.help = false ∧ ∃ f, a.input = some f := by
  unfold refh_cli at h
  by_cases hh : a.help = true
  · simp [hh] at h
  · cases hi : a.input with
    | none => simp [hh, hi] at h
    | some f => exact ⟨by simpa using hh, f, rfl⟩

theorem tool_tail (t : Tool) (w : World) (a : Args) :
    (t.run w a).outcome = .exit 0 →
    ∃ f image labels,
      a.input = some f ∧
      (match t with
        | .refh =>
            image = if a.real "sigma" > double_0_01 then
              w.gaussianBlur (w.imread f) (⌈a.real "sigma" * 4⌉ + 1) (a.real "sigma")
            else w.imread f
        | _ => image = w.imread f) ∧
      (t.run w a).segmentCalls.map (fun c => c.2.1) = [image] ∧
      (t.run w a).contourCanvases = [blackImage image] ∧
      (t.run w a).meansImages = [image] ∧
      (t.run w a).drawnLabels = [labels, labels] ∧
      (t.run w a).writes =
        [(a.oc, w.drawContours (blackImage image) labels),
          (a.om, w.drawMeans image labels)] := by
  intro h
  cases t
  · obtain ⟨f, r, L0, r1, r2, r3, hi, hr, hL, h1, h2, h3, hpost, hev⟩ := ccs_cli_events w a h
    refine ⟨f, _, r3.1, hi, rfl, ?_, ?_, ?_, ?_, ?_⟩ <;>
      simp [Tool.run, Run.segmentCalls, Run.contourCanvases, Run.meansImages, Run.drawnLabels, Run.writes,
        hev]
  · obtain ⟨f, plan, ev, L0, r1, r2, hi, _, hp, hL, h1, h2, hev⟩ := crs_cli_events w a h
    obtain ⟨hw, hhw, ⟨hf, r, hr, hplan, hev'⟩ | ⟨hf, hplan, hev'⟩⟩ :=
      planHeightWidth_ok _ _ _ _ _ _ _ hp
    · refine ⟨f, _, (w.relabelSuperpixels r2.1), hi, rfl, ?_, ?_, ?_, ?_, ?_⟩ <;>
        simp [Tool.run, Run.segmentCalls, Run.contourCanvases, Run.meansImages, Run.drawnLabels, Run.writes,
          hev, hev']
    · refine ⟨f, _, (w.relabelSuperpixels r2.1), hi, rfl, ?_, ?_, ?_, ?_, ?_⟩ <;>
        simp [Tool.run, Run.segmentCalls, Run.contourCanvases, Run.meansImages, Run.drawnLabels, Run.writes,
          hev, hev']
  · obtain ⟨f, plan, ev, L0, r1, hi, hp, hL, h1, hev⟩ := ergc_cli_events w a h
    obtain ⟨hw, hhw, ⟨hf, r, hr, hplan, hev'⟩ | ⟨hf, hplan, hev'⟩⟩ :=
      planHeightWidth_ok _ _ _ _ _ _ _ hp
    · refine ⟨f, _, r1.1, hi, rfl, ?_, ?_, ?_, ?_, ?_⟩ <;>
        simp [Tool.run, Run.segmentCalls, Run.contourCanvases, Run.meansImages, Run.drawnLabels, Run.writes,
          hev, hev']
    · refine ⟨f, _, r1.1, hi, rfl, ?_, ?_, ?_, ?_, ?_⟩ <;>
        simp [Tool.run, Run.segmentCalls, Run.contourCanvases, Run.meansImages, Run.drawnLabels, Run.writes,
          hev, hev']
  · obtain ⟨f, r, L0, r1, hi, hr, hL, h1, hev⟩ := etps_cli_events w a h
    refine ⟨f, _, r1.1, hi, rfl, ?_, ?_, ?_, ?_, ?_⟩ <;>
      simp [Tool.run, Run.segmentCalls, Run.contourCanvases, Run.meansImages, Run.drawnLabels, Run.writes,
        hev]
  · obtain ⟨f, plan, ev, L0, r1, r2, hi, _, hp, hL, h1, h2, hev⟩ := lsc_cli_events w a h
    obtain ⟨hw, hhw, ⟨hf, r, hr, hplan, hev'⟩ | ⟨hf, hplan, hev'⟩⟩ :=
      planHeightWidth_ok _ _ _ _ _ _ _ hp
    · refine ⟨f, _, (w.relabelSuperpixels r2.1), hi, rfl, ?_, ?_, ?_, ?_, ?_⟩ <;>
        simp [Tool.run, Run.segmentCalls, Run.contourCanvases, Run.meansImages, Run.drawnLabels, Run.writes,
          hev, hev']
    · refine ⟨f, _, (w.relabelSuperpixels r2.1), hi, rfl, ?_, ?_, ?_, ?_, ?_⟩ <;>
        simp [Tool.run, Run.segmentCalls, Run.contourCanvases, Run.meansImages, Run.drawnLabels, Run.writes,
          hev, hev']
  · obtain ⟨f, r, L0, r1, r2, hi, hr, hL, h1, h2, hev⟩ := pb_cli_events w a h
    refine ⟨f, _, (w.relabelSuperpixels r2.1), hi, rfl, ?_, ?_, ?_, ?_, ?_⟩ <;>
      simp [Tool.run, Run.segmentCalls, Run.contourCanvases, Run.meansImages, Run.drawnLabels, Run.writes,
        hev]
  · obtain ⟨hh, f, hi⟩ := refh_cli_input w a h
    by_cases hs : a.real "sigma" > double_0_01
    · refine ⟨f, _,
        (w.relabelConnectedSuperpixels
          (w.segment "GraphSegmentation"
            (w.gaussianBlur (w.imread f) (⌈a.real "sigma" * 4⌉ + 1) (a.real "sigma"))
            [.real (a.real "threshold"), .int (a.int "minimum-size")])).1,
        hi, rfl, ?_, ?_, ?_, ?_, ?_⟩ <;>
        simp [Tool.run, Run.segmentCalls, Run.contourCanvases, Run.meansImages,
          Run.drawnLabels, Run.writes, refh_cli_smooth w a f hh hi hs, visualize, hs]
    · refine ⟨f, _,
        (w.relabelConnectedSuperpixels
          (w.segment "GraphSegmentation" (w.imread f)
            [.real (a.real "threshold"), .int (a.int "minimum-size")])).1,
        hi, rfl, ?_, ?_, ?_, ?_, ?_⟩ <;>
        simp [Tool.run, Run.segmentCalls, Run.contourCanvases, Run.meansImages,
          Run.drawnLabels, Run.writes, refh_cli_plain w a f hh hi hs, visualize, hs]
  · obtain ⟨f, plan, ev, L0, r1, hi, _, hp, hc, h1, hev⟩ := reseeds_cli_events w a h
    obtain ⟨_, r, lv, hr, hplan, hev'⟩ | ⟨hf, _, hev'⟩ := planLevels_ok _ _ _ _ _ _ _ hp
    · refine ⟨f, _, r1.1, hi, rfl, ?_, ?_, ?_, ?_, ?_⟩ <;>
        simp [Tool.run, Run.segmentCalls, Run.contourCanvases, Run.meansImages, Run.drawnLabels, Run.writes,
          hev, hev']
    · refine ⟨f, _, r1.1, hi, rfl, ?_, ?_, ?_, ?_, ?_⟩ <;>
        simp [Tool.run, Run.segmentCalls, Run.contourCanvases, Run.meansImages, Run.drawnLabels, Run.writes,
          hev, hev']
  · obtain ⟨f, plan, ev, L0, r1, hi, _, hp, hc, h1, hev⟩ := seeds_cli_events w a h
    obtain ⟨_, r, lv, hr, hplan, hev'⟩ | ⟨hf, _, hev'⟩ := planLevels_ok _ _ _ _ _ _ _ hp
    · refine ⟨f, _, r1.1, hi, rfl, ?_, ?_, ?_, ?_, ?_⟩ <;>
        simp [Tool.run, Run.segmentCalls, Run.contourCanvases, Run.meansImages, Run.drawnLabels, Run.writes,
          hev, hev']
    · refine ⟨f, _, r1.1, hi, rfl, ?_, ?_, ?_, ?_, ?_⟩ <;>
        simp [Tool.run, Run.segmentCalls, Run.contourCanvases, Run.meansImages, Run.drawnLabels, Run.writes,
          hev, hev']
  · obtain ⟨f, r, L0, r1, hi, hr, hL, h1, hev⟩ := slic_cli_events w a h
    refine ⟨f, _, r1.1, hi, rfl, ?_, ?_, ?_, ?_, ?_⟩ <;>
      simp [Tool.run, Run.segmentCalls, Run.contourCanvases, Run.meansImages, Run.drawnLabels, Run.writes,
        hev]
  · obtain ⟨f, size, L0, r1, r2, r3, hi, _, hL, h1, h2, h3, hev⟩ := vc_cli_events w a h
    refine ⟨f, _, (w.relabelSuperpixels r3.1), hi, rfl, ?_, ?_, ?_, ?_, ?_⟩ <;>
      simp [Tool.run, Run.segmentCalls, Run.contourCanvases, Run.meansImages, Run.drawnLabels, Run.writes,
        hev]

theorem written_eq_writes (r : Run) : r.written = r.writes.map (fun c => c.1) := by
  unfold Run.written Run.writes
  induction r.events with
  | nil => rfl
  | cons e es ih => cases e <;> simp [List.filterMap_cons, ih]

/-- C29: every option table declares `oc` and `om` with the default "output".  In every
completed run the contours are drawn on the all-zero three-channel canvas with the rows and
columns of the image the segmentation received (the image read from the input file, in
refh_cli after the optional smoothing), the drawn contour image is written to the `oc` path
first and the drawn mean image to the `om` path second; with both options at their default
both images are written to the path "output", the mean image last. -/
theorem C29_output_files (t : Tool) (w : World) (a : Args) :
    (t.run w a).outcome = .exit 0 →
    (optionTable t).contains ⟨"oc", .string "output"⟩ = true ∧
    (optionTable t).contains ⟨"om", .string "output"⟩ = true ∧
    ∃ image labels,
      (t.run w a).segmentCalls.map (fun c => c.2.1) = [image] ∧
      (t ≠ .refh → ∃ f, a.input = some f ∧ image = w.imread f) ∧
      (t.run w a).contourCanvases = [blackImage image] ∧
      (blackImage image).rows = image.rows ∧
      (blackImage image).cols = image.cols ∧
      (blackImage image).data = List.replicate (image.rows * image.cols) (0, 0, 0) ∧
      (t.run w a).writes =
        [(a.oc, w.drawContours (blackImage image) labels),
          (a.om, w.drawMeans image labels)] ∧
      (t.run w a).written = [a.oc, a.om] ∧
      (a.oc = "output" → a.om = "output" → (t.run w a).written = ["output", "output"]) := by
  intro h
  obtain ⟨f, image, labels, hi, himg, hseg, hcanvas, _, _, hwrites⟩ := tool_tail t w a h
  have hwritten : (t.run w a).written = [a.oc, a.om] := by
    rw [written_eq_writes, hwrites]; rfl
  refine ⟨by cases t <;> decide, by cases t <;> decide, image, labels, hseg, ?_, hcanvas, rfl,
    rfl, rfl, hwrites, hwritten, ?_⟩
  · intro ht
    refine ⟨f, hi, ?_⟩
    cases t <;> first | exact himg | exact absurd rfl ht
  · intro hoc hom
    rw [hwritten, hoc, hom]

set_option maxRecDepth 100000 in
/-- C29 at a concrete run of ccs_cli with `oc` and `om` at their default: the run completes
and writes to "output" twice. -/
theorem C29_output_files_witness :
    (Tool.ccs.run sampleWorld sampleArgs).outcome = .exit 0 ∧
    (Tool.ccs.run sampleWorld sampleArgs).written = ["output", "output"] :=
  ⟨by decide, by
    obtain ⟨_, _, image, labels, _, _, _, _, _, _, _, _, hdefault⟩ :=
      C29_output_files .ccs sampleWorld sampleArgs (by decide)
    exact hdefault rfl rfl⟩

/-- C21: in every completed run of crs_cli, lsc_cli, pb_cli and vc_cli the calls that
receive the label map end with the one call of relabelSuperpixels, which comes after the
splitter and every size-enforcement call, and the map it leaves is the map handed to
drawContours and drawMeans; the other seven tools never call relabelSuperpixels. -/
theorem C21_canonicalizer_last (t : Tool) (w : World) (a : Args) :
    (t.run w a).outcome = .exit 0 →
    match t with
    | .crs | .lsc | .pb | .vc =>
        ∃ earlier labels,
          (t.run w a).labelCalls = earlier ++ [.relabelSuperpixels labels] ∧
          (∀ e ∈ earlier,
            e.stage = some .connectivitySplitter ∨ e.stage = some .sizeEnforcer) ∧
          (∃ e ∈ earlier, e.stage = some .sizeEnforcer) ∧
          (t.run w a).drawnLabels = [w.relabelSuperpixels labels, w.relabelSuperpixels labels]
    | .ccs | .ergc | .etps | .refh | .reseeds | .seeds | .slic =>
        ∀ e ∈ (t.run w a).labelCalls, e.stage ≠ some .canonicalizer := by
  intro h
  cases t
  · obtain ⟨f, r, L0, r1, r2, r3, hi, hr, hL, h1, h2, h3, hpost, hev⟩ := ccs_cli_events w a h
    simp [Tool.run, Run.labelCalls, hev, Event.changesLabels, Event.stage]
  · obtain ⟨f, plan, ev, L0, r1, r2, hi, _, hp, hL, h1, h2, hev⟩ := crs_cli_events w a h
    obtain ⟨hw, hhw, ⟨hf, r, hr, hplan, hev'⟩ | ⟨hf, hplan, hev'⟩⟩ :=
      planHeightWidth_ok _ _ _ _ _ _ _ hp <;>
    exact ⟨[.relabelConnectedSuperpixels L0,
        .enforceMinimumSuperpixelSizeUpTo (w.imread f) r1.1 r1.2], r2.1,
      by simp [Tool.run, Run.labelCalls, hev, hev', Event.changesLabels],
      by simp [Event.stage], by simp [Event.stage],
      by simp [Tool.run, Run.drawnLabels, hev, hev']⟩
  · obtain ⟨f, plan, ev, L0, r1, hi, hp, hL, h1, hev⟩ := ergc_cli_events w a h
    obtain ⟨hw, hhw, ⟨hf, r, hr, hplan, hev'⟩ | ⟨hf, hplan, hev'⟩⟩ :=
      planHeightWidth_ok _ _ _ _ _ _ _ hp <;>
    simp [Tool.run, Run.labelCalls, hev, hev', Event.changesLabels, Event.stage]
  · obtain ⟨f, r, L0, r1, hi, hr, hL, h1, hev⟩ := etps_cli_events w a h
    simp [Tool.run, Run.labelCalls, hev, Event.changesLabels, Event.stage]
  · obtain ⟨f, plan, ev, L0, r1, r2, hi, _, hp, hL, h1, h2, hev⟩ := lsc_cli_events w a h
    obtain ⟨hw, hhw, ⟨hf, r, hr, hplan, hev'⟩ | ⟨hf, hplan, hev'⟩⟩ :=
      planHeightWidth_ok _ _ _ _ _ _ _ hp <;>
    exact ⟨[.relabelConnectedSuperpixels L0,
        .enforceMinimumSuperpixelSizeUpTo (w.imread f) r1.1 r1.2], r2.1,
      by simp [Tool.run, Run.labelCalls, hev, hev', Event.changesLabels],
      by simp [Event.stage], by simp [Event.stage],
      by simp [Tool.run, Run.drawnLabels, hev, hev']⟩
  · obtain ⟨f, r, L0, r1, r2, hi, hr, hL, h1, h2, hev⟩ := pb_cli_events w a h
    exact ⟨[.relabelConnectedSuperpixels L0,
        .enforceMinimumSuperpixelSizeUpTo (w.imread f) r1.1 r1.2], r2.1,
      by simp [Tool.run, Run.labelCalls, hev, Event.changesLabels],
      by simp [Event.stage], by simp [Event.stage],
      by simp [Tool.run, Run.drawnLabels, hev]⟩
  · obtain ⟨f, image, pre, L0, r1, _, hpre, hL, h1, hev⟩ := refh_cli_events w a h
    rcases hpre with hpre | hpre <;>
      simp [Tool.run, Run.labelCalls, hev, hpre, Event.changesLabels, Event.stage]
  · obtain ⟨f, plan, ev, L0, r1, hi, _, hp, hc, h1, hev⟩ := reseeds_cli_events w a h
    obtain ⟨_, r, lv, hr, hplan, hev'⟩ | ⟨hf, _, hev'⟩ := planLevels_ok _ _ _ _ _ _ _ hp <;>
    simp [Tool.run, Run.labelCalls, hev, hev', Event.changesLabels, Event.stage]
  · obtain ⟨f, plan, ev, L0, r1, hi, _, hp, hc, h1, hev⟩ := seeds_cli_events w a h
    obtain ⟨_, r, lv, hr, hplan, hev'⟩ | ⟨hf, _, hev'⟩ := planLevels_ok _ _ _ _ _ _ _ hp <;>
    simp [Tool.run, Run.labelCalls, hev, hev', Event.changesLabels, Event.stage]
  · obtain ⟨f, r, L0, r1, hi, hr, hL, h1, hev⟩ := slic_cli_events w a h
    simp [Tool.run, Run.labelCalls, hev, Event.changesLabels, Event.stage]
  · obtain ⟨f, size, L0, r1, r2, r3, hi, _, hL, h1, h2, h3, hev⟩ := vc_cli_events w a h
    exact ⟨[.relabelConnectedSuperpixels L0,
        .enforceMinimumSuperpixelSizeUpTo (w.imread f) r1.1 r1.2,
        .enforceMinimumSuperpixelSize (w.imread f) r2.1 size], r3.1,
      by simp [Tool.run, Run.labelCalls, hev, Event.changesLabels],
      by simp [Event.stage], by simp [Event.stage],
      by simp [Tool.run, Run.drawnLabels, hev]⟩

set_option maxRecDepth 100000 in
/-- C21 at a concrete run of vc_cli on the raw map `[5, 9, 9]`: the run completes and the
last call on the label map is relabelSuperpixels. -/
theorem C21_canonicalizer_last_witness :
    (Tool.vc.run sampleWorld sampleArgs).outcome = .exit 0 ∧
    ∃ earlier labels,
      (Tool.vc.run sampleWorld sampleArgs).labelCalls =
        earlier ++ [.relabelSuperpixels labels] :=
  ⟨by decide, by
    obtain ⟨earlier, labels, hcalls, _⟩ :=
      C21_canonicalizer_last .vc sampleWorld sampleArgs (by decide)
    exact ⟨earlier, labels, hcalls⟩⟩

theorem planLevels_error (w : World) (a : Args) (image : Image) (superpixels : Int)
    (before : List Event) (r : Run)
    (h : planLevels w a image superpixels before = .error r) : r.outcome = .uncaught :=
  (planLevels_stages w a image superpixels before).1 r h

theorem crs_cli_exit_one (w : World) (a : Args) (f : String) (hh : a.help = false)
    (hi : a.input = some f) :
    ((crs_cli w a).outcome = .exit 1 ↔ (a.int "color-space" < 0 ∨ a.int "color-space" > 1)) ∧
    ((a.int "color-space" < 0 ∨ a.int "color-space" > 1) →
      crs_cli w a = ⟨.exit 1, [.stdout "Invalid color space."]⟩) := by
  unfold crs_cli
  by_cases hcs : (a.int "color-space" < 0 ∨ a.int "color-space" > 1)
  · simp [hh, hi, hcs]
  · cases hp : planHeightWidth w a (w.imread f) (a.int "superpixels") [.imread f] with
    | error r =>
      have := planHeightWidth_error w a _ _ _ r hp
      simp [hh, hi, hcs, hp, this]
    | ok v =>
      obtain ⟨⟨rh, rw⟩, ev⟩ := v
      simp [hh, hi, hcs, hp, visualize]

theorem lsc_cli_exit_one (w : World) (a : Args) (f : String) (hh : a.help = false)
    (hi : a.input = some f) :
    ((lsc_cli w a).outcome = .exit 1 ↔ (a.int "color-space" < 0 ∨ a.int "color-space" > 1)) ∧
    ((a.int "color-space" < 0 ∨ a.int "color-space" > 1) →
      lsc_cli w a = ⟨.exit 1, [.stdout "Invalid color space."]⟩) := by
  unfold lsc_cli
  by_cases hcs : (a.int "color-space" < 0 ∨ a.int "color-space" > 1)
  · simp [hh, hi, hcs]
  · cases hp : planHeightWidth w a (w.imread f) (a.int "superpixels") [.imread f] with
    | error r =>
      have := planHeightWidth_error w a _ _ _ r hp
      simp [hh, hi, hcs, hp, this]
    | ok v =>
      obtain ⟨⟨rh, rw⟩, ev⟩ := v
      simp [hh, hi, hcs, hp, visualize]

theorem seeds_cli_exit_one (w : World) (a : Args) (f : String) (hh : a.help = false)
    (hi : a.input = some f) :
    ((seeds_cli w a).outcome = .exit 1 ↔ (a.int "color-space" < 0 ∨ a.int "color-space" > 2)) ∧
    ((a.int "color-space" < 0 ∨ a.int "color-space" > 2) →
      seeds_cli w a = ⟨.exit 1, [.stdout "Invalid color space."]⟩) := by
  unfold seeds_cli
  by_cases hcs : (a.int "color-space" < 0 ∨ a.int "color-space" > 2)
  · simp [hh, hi, hcs]
  · cases hp : planLevels w a (w.imread f) (a.int "superpixels") [.imread f] with
    | error r =>
      have := planLevels_error w a _ _ _ r hp
      simp [hh, hi, hcs, hp, this]
    | ok v =>
      obtain ⟨⟨rh, rw, lv⟩, ev⟩ := v
      simp only [hh, hi, hcs, hp, Bool.false_eq_true, if_false]
      generalize copyLevelLabels _ _ _ _ = ob
      cases ob <;> simp [hcs, visualize]

theorem reseeds_cli_exit_one (w : World) (a : Args) (f : String) (hh : a.help = false)
    (hi : a.input = some f) :
    ((reseeds_cli w a).outcome = .exit 1 ↔
      (a.int "color-space" < 0 ∨ a.int "color-space" > 2)) ∧
    ((a.int "color-space" < 0 ∨ a.int "color-space" > 2) →
      reseeds_cli w a = ⟨.exit 1, [.stdout "Invalid color space."]⟩) := by
  unfold reseeds_cli
  by_cases hcs : (a.int "color-space" < 0 ∨ a.int "color-space" > 2)
  · simp [hh, hi, hcs]
  · cases hp : planLevels w a (w.imread f) (a.int "superpixels") [.imread f] with
    | error r =>
      have := planLevels_error w a _ _ _ r hp
      simp [hh, hi, hcs, hp, this]
    | ok v =>
      obtain ⟨⟨rh, rw, lv⟩, ev⟩ := v
      simp only [hh, hi, hcs, hp, Bool.false_eq_true, if_false]
      generalize copyRowLabels _ _ _ = ob
      cases ob <;> simp [hcs, visualize]

set_option maxRecDepth 100000 in
/-- C27 as stated fails when no input file is given: crs_cli without `--help`, without an
input file and with color-space 5 (outside {0, 1}) does not return 1; reading the missing
input option throws before the colour space is checked. -/
theorem C27_color_space_check_counterexample :
    noInputArgs.help = false ∧
    noInputArgs.input = none ∧
    (noInputArgs.int "color-space" < 0 ∨ noInputArgs.int "color-space" > 1) ∧
    crs_cli sampleWorld noInputArgs = ⟨.uncaught, []⟩ ∧
    (crs_cli sampleWorld noInputArgs).outcome ≠ .exit 1 := by
  decide

/-- C27 (amended): without `--help` and with an input file given, crs_cli and lsc_cli
return 1 exactly when color-space is outside {0, 1}, and seeds_cli and reseeds_cli exactly
when it is outside {0, 1, 2}; the run then consists of printing "Invalid color space."
alone: the image is not read, no segmentation is run and nothing is written.  The other
seven tools never return 1 on such a command line. -/
theorem C27_color_space_check (t : Tool) (w : World) (a : Args) (f : String)
    (hh : a.help = false) (hi : a.input = some f) :
    match t with
    | .crs | .lsc =>
        ((t.run w a).outcome = .exit 1 ↔
          (a.int "color-space" < 0 ∨ a.int "color-space" > 1)) ∧
        ((a.int "color-space" < 0 ∨ a.int "color-space" > 1) →
          t.run w a = ⟨.exit 1, [.stdout "Invalid color space."]⟩)
    | .seeds | .reseeds =>
        ((t.run w a).outcome = .exit 1 ↔
          (a.int "color-space" < 0 ∨ a.int "color-space" > 2)) ∧
        ((a.int "color-space" < 0 ∨ a.int "color-space" > 2) →
          t.run w a = ⟨.exit 1, [.stdout "Invalid color space."]⟩)
    | .ccs | .ergc | .etps | .pb | .refh | .slic | .vc => (t.run w a).outcome ≠ .exit 1 := by
  cases t
  · show (ccs_cli w a).outcome ≠ .exit 1
    unfold ccs_cli
    cases hp : w.computeRegionSizeFromSuperpixels (w.imread f) (a.int "superpixels") with
    | error e => simp [hh, hi, hp]
    | ok v =>
      simp only [hh, hi, hp, Bool.false_eq_true, if_false]
      generalize (ccs_postprocess w (w.imread f) _).2 = ob
      cases ob <;> simp [visualize]
  · exact crs_cli_exit_one w a f hh hi
  · show (ergc_cli w a).outcome ≠ .exit 1
    unfold ergc_cli
    cases hp : planHeightWidth w a (w.imread f) (a.int "superpixels") [.imread f] with
    | error r =>
      have := planHeightWidth_error w a _ _ _ r hp
      simp [hh, hi, hp, this]
    | ok v =>
      obtain ⟨⟨rh, rw⟩, ev⟩ := v
      simp [hh, hi, hp, visualize]
  · show (etps_cli w a).outcome ≠ .exit 1
    unfold etps_cli
    cases hp : w.computeRegionSizeFromSuperpixels (w.imread f) (a.int "superpixels") <;>
      simp [hh, hi, hp, visualize]
  · exact lsc_cli_exit_one w a f hh hi
  · show (pb_cli w a).outcome ≠ .exit 1
    unfold pb_cli
    cases hp : w.computeRegionSizeFromSuperpixels (w.imread f) (a.int "superpixels") <;>
      simp [hh, hi, hp, visualize]
  · show (refh_cli w a).outcome ≠ .exit 1
    simp [refh_cli, hh, hi, visualize]
  · exact reseeds_cli_exit_one w a f hh hi
  · exact seeds_cli_exit_one w a f hh hi
  · show (slic_cli w a).outcome ≠ .exit 1
    unfold slic_cli
    cases hp : w.computeRegionSizeFromSuperpixels (w.imread f) (a.int "superpixels") <;>
      simp [hh, hi, hp, visualize]
  · show (vc_cli w a).outcome ≠ .exit 1
    unfold vc_cli
    cases hp : vcSize (w.imread f) (a.int "superpixels") <;> simp [hh, hi, hp, visualize]

set_option maxRecDepth 100000 in
/-- C27 (amended) at a concrete command line: seeds_cli with an input file and color-space
3 prints "Invalid color space." and returns 1. -/
theorem C27_color_space_check_witness :
    Tool.seeds.run sampleWorld (sampleArgs.setInt "color-space" 3) =
      ⟨.exit 1, [.stdout "Invalid color space."]⟩ :=
  (C27_color_space_check .seeds sampleWorld (sampleArgs.setInt "color-space" 3) "image.png"
    rfl rfl).2 (by decide)

theorem double_0_01_gt : (1 : Rat) / 100 < double_0_01 := by
  unfold double_0_01; norm_num

theorem float_gt_threshold (q : Rat) (hq : IsFloat q) :
    q > double_0_01 ↔ q > 1 / 100 := by
  constructor
  · intro h
    exact lt_trans double_0_01_gt h
  · intro h
    by_contra hle
    have hle : q ≤ double_0_01 := not_lt.mp hle
    obtain ⟨m, e, hm, he1, he2, hq | hq⟩ := hq
    · -- positive float
      have hmq : (m : Rat) < 2 ^ 24 := by exact_mod_cast hm
      have h2e : (0 : Rat) < (2 : Rat) ^ e := by positivity
      have he : -30 ≤ e := by
        by_contra hlt
        have hlt : e ≤ -31 := by omega
        have h1 : (2 : Rat) ^ e ≤ (2 : Rat) ^ (-31 : Int) :=
          zpow_le_zpow_right₀ (by norm_num) hlt
        have h2 : q ≤ 2 ^ 24 * (2 : Rat) ^ (-31 : Int) := by
          rw [hq]
          exact mul_le_mul hmq.le h1 h2e.le (by positivity)
        have h3 : (2 : Rat) ^ 24 * (2 : Rat) ^ (-31 : Int) < 1 / 100 := by norm_num
        exact absurd h (not_lt.mpr (lt_of_le_of_lt h2 h3).le)
      obtain ⟨k, hk⟩ : ∃ k : Nat, e = (k : Int) - 30 := ⟨(e + 30).toNat, by omega⟩
      have hval : q = ((m * 2 ^ k : Nat) : Rat) / 2 ^ 30 := by
        rw [hq, hk, zpow_sub₀ (by norm_num : (2 : Rat) ≠ 0)]
        push_cast
        rw [zpow_natCast]
        simp only [zpow_ofNat]
        ring
      set N : Nat := m * 2 ^ k with hN
      have hlow : (2 : Rat) ^ 30 < 100 * (N : Rat) := by
        rw [hval] at h
        have : (1 : Rat) / 100 < (N : Rat) / 2 ^ 30 := h
        rw [div_lt_div_iff₀ (by norm_num) (by positivity)] at this
        linarith
      have hhigh : (N : Rat) * 2 ^ 29 ≤ 5764607523034235 := by
        rw [hval] at hle
        unfold double_0_01 at hle
        rw [div_le_div_iff₀ (by positivity) (by norm_num)] at hle
        have e59 : (576460752303423488 : Rat) = 2 ^ 30 * 2 ^ 29 := by norm_num
        rw [e59] at hle
        have : (N : Rat) * 2 ^ 29 * 2 ^ 30 ≤ 5764607523034235 * 2 ^ 30 := by linarith
        exact le_of_mul_le_mul_right this (by positivity)
      have hlowN : 2 ^ 30 < 100 * N := by exact_mod_cast hlow
      have hhighN : N * 2 ^ 29 ≤ 5764607523034235 := by exact_mod_cast hhigh
      omega
    · -- negative float
      have : q ≤ 0 := by
        rw [hq]
        have : (0 : Rat) ≤ (m : Rat) * (2 : Rat) ^ e := by positivity
        linarith
      have : (0 : Rat) < 1 / 100 := by norm_num
      linarith

/-- C25 at the failing input: sigma = 0.25 is a `float` above 0.01, so refh_cli smooths,
and the kernel side length it hands to cv::GaussianBlur is `ceil(4 * 0.25) + 1 = 2`, an
even number; with sigma = 0.5 the side length is 3. -/
theorem C25_refh_even_kernel :
    IsFloat (1 / 4) ∧
    (1 / 4 : Rat) > double_0_01 ∧
    (refh_cli sampleWorld (sampleArgs.setReal "sigma" (1 / 4))).blurCalls.map
      (fun c => (c.2.1, c.2.2)) = [(2, 1 / 4)] ∧
    ¬ Odd (2 : Int) ∧
    (refh_cli sampleWorld (sampleArgs.setReal "sigma" (1 / 2))).blurCalls.map
      (fun c => (c.2.1, c.2.2)) = [(3, 1 / 2)] := by
  have h4 : (1 / 4 : Rat) > double_0_01 := by unfold double_0_01; norm_num
  have h2 : (1 / 2 : Rat) > double_0_01 := by unfold double_0_01; norm_num
  have hs4 : (sampleArgs.setReal "sigma" (1 / 4)).real "sigma" = 1 / 4 := by
    simp [Args.setReal]
  have hs2 : (sampleArgs.setReal "sigma" (1 / 2)).real "sigma" = 1 / 2 := by
    simp [Args.setReal]
  have c4 : ⌈(1 / 4 : Rat) * 4⌉ = 1 := by norm_num
  have c2 : ⌈(1 / 2 : Rat) * 4⌉ = 2 := by norm_num
  refine ⟨⟨1, -2, by norm_num, by norm_num, by norm_num, Or.inl (by norm_num)⟩, h4, ?_,
    by decide, ?_⟩
  · rw [refh_cli_smooth sampleWorld _ "image.png" rfl rfl (by rw [hs4]; exact h4)]
    simp only [hs4, c4, visualize, Run.blurCalls]
    rfl
  · rw [refh_cli_smooth sampleWorld _ "image.png" rfl rfl (by rw [hs2]; exact h2)]
    simp only [hs2, c2, visualize, Run.blurCalls]
    rfl

/-- C28: in every tool, on every command line with `--help` (with or without an input
file), the run prints the option description and returns 1, and does nothing else: no
image is read, no segmentation is run, no file is written. -/
theorem C28_help_exits_first (t : Tool) (w : World) (a : Args) (h : a.help = true) :
    t.run w a = ⟨.exit 1, [.printOptions]⟩ ∧
    t.run w { a with input := none } = ⟨.exit 1, [.printOptions]⟩ := by
  cases t <;>
    simp [Tool.run, ccs_cli, crs_cli, ergc_cli, etps_cli, lsc_cli, pb_cli, refh_cli,
      reseeds_cli, seeds_cli, slic_cli, vc_cli, h]

/-- C28 at a concrete command line: `--help` without an input file makes slic_cli print the
options and return 1. -/
theorem C28_help_exits_first_witness :
    helpArgs.input = none ∧ Tool.slic.run sampleWorld helpArgs = ⟨.exit 1, [.printOptions]⟩ :=
  ⟨rfl, (C28_help_exits_first .slic sampleWorld helpArgs rfl).1⟩

theorem floorLog2_spec (fuel n : Nat) (hn : 0 < n) (hfuel : n ≤ fuel) :
    2 ^ floorLog2 fuel n ≤ n ∧ n < 2 ^ (floorLog2 fuel n + 1) := by
  induction fuel generalizing n with
  | zero => omega
  | succ fuel ih =>
    unfold floorLog2
    by_cases h2 : n < 2
    · simp only [h2, if_true]
      omega
    · simp only [h2, if_false]
      have hpos : 0 < n / 2 := Nat.div_pos (by omega) (by norm_num)
      have hle : n / 2 ≤ fuel := by omega
      obtain ⟨h1, h3⟩ := ih (n / 2) hpos hle
      constructor
      · rw [pow_succ]
        omega
      · rw [pow_succ]
        omega

theorem binaryExponent_le (n d : Nat) (hn : 0 < n) (hd : 0 < d) :
    (0 ≤ binaryExponent n d → 2 ^ (binaryExponent n d).toNat * d ≤ n) ∧
    (binaryExponent n d < 0 → d ≤ n * 2 ^ (-binaryExponent n d).toNat) := by
  obtain ⟨hn1, hn2⟩ := floorLog2_spec n n hn le_rfl
  obtain ⟨hd1, hd2⟩ := floorLog2_spec d d hd le_rfl
  unfold binaryExponent
  simp only
  set a := floorLog2 n n with ha
  set b := floorLog2 d d with hb
  by_cases hchk : (if 0 ≤ (a : Int) - (b : Int) then 2 ^ ((a : Int) - (b : Int)).toNat * d ≤ n
      else d ≤ n * 2 ^ (-((a : Int) - (b : Int))).toNat)
  · rw [if_pos hchk]
    by_cases h0 : 0 ≤ (a : Int) - (b : Int)
    · rw [if_pos h0] at hchk
      exact ⟨fun _ => hchk, fun h => absurd h0 (not_le.mpr h)⟩
    · rw [if_neg h0] at hchk
      exact ⟨fun h => absurd h h0, fun _ => hchk⟩
  · rw [if_neg hchk]
    -- the exponent is `a - b - 1`, and `2 ^ a ≤ n`, `d < 2 ^ (b + 1)`
    constructor
    · intro h0
      have hab : b + 1 ≤ a := by omega
      have e1 : ((a : Int) - (b : Int) - 1).toNat = a - (b + 1) := by omega
      rw [e1]
      have h3 : 2 ^ (a - (b + 1)) * 2 ^ (b + 1) = 2 ^ a := by
        rw [← pow_add]; congr 1; omega
      calc 2 ^ (a - (b + 1)) * d ≤ 2 ^ (a - (b + 1)) * 2 ^ (b + 1) :=
            Nat.mul_le_mul_left _ hd2.le
        _ = 2 ^ a := h3
        _ ≤ n := hn1
    · intro h0
      have hab : a < b + 1 := by omega
      have e1 : (-((a : Int) - (b : Int) - 1)).toNat = b + 1 - a := by omega
      rw [e1]
      have h3 : 2 ^ a * 2 ^ (b + 1 - a) = 2 ^ (b + 1) := by
        rw [← pow_add]; congr 1; omega
      calc d ≤ 2 ^ (b + 1) := hd2.le
        _ = 2 ^ a * 2 ^ (b + 1 - a) := h3.symm
        _ ≤ n * 2 ^ (b + 1 - a) := Nat.mul_le_mul_right _ hn1

theorem roundToFloat_normal (n d : Nat) (hn : 0 < n) (hd : 0 < d) (hlt : n < 2 ^ 24 * d)
    (hge : d ≤ n * 2 ^ 126) :
    ∃ T m, roundToFloat n d = (m, 2 ^ T) ∧
      2 ^ 23 * d ≤ n * 2 ^ T ∧
      (n * 2 ^ T) / d ≤ m ∧
      2 * m * d ≤ 2 * (n * 2 ^ T) + d ∧
      ((n * 2 ^ T) % d = 0 → m * d = n * 2 ^ T) := by
  obtain ⟨he1, he2⟩ := binaryExponent_le n d hn hd
  set e := binaryExponent n d with he
  have he23 : e ≤ 23 := by
    by_contra hgt
    have h24 : 24 ≤ e.toNat := by omega
    have h1 := he1 (by omega)
    have h2 : 2 ^ 24 * d ≤ 2 ^ e.toNat * d :=
      Nat.mul_le_mul_right _ (Nat.pow_le_pow_right (by norm_num) h24)
    omega
  have hE : max e (-126) ≤ 23 := max_le he23 (by norm_num)
  set E := max e (-126) with hEdef
  set T := (23 - E).toNat with hT
  have hgrid : 2 ^ 23 * d ≤ n * 2 ^ T := by
    by_cases hcl : e < -126
    · -- clamped: `E = -126`
      have hEv : E = -126 := by rw [hEdef]; exact max_eq_right hcl.le
      have hTv : T = 23 + 126 := by rw [hT, hEv]; rfl
      rw [hTv, pow_add]
      calc 2 ^ 23 * d ≤ 2 ^ 23 * (n * 2 ^ 126) := Nat.mul_le_mul_left _ hge
        _ = n * (2 ^ 23 * 2 ^ 126) := by ring
    · have hEv : E = e := by rw [hEdef]; exact max_eq_left (by omega)
      by_cases h0 : 0 ≤ e
      · have h1 := he1 h0
        have hTv : T + e.toNat = 23 := by rw [hT, hEv]; omega
        calc 2 ^ 23 * d = 2 ^ T * (2 ^ e.toNat * d) := by
              rw [← hTv, pow_add]; ring
          _ ≤ 2 ^ T * n := Nat.mul_le_mul_left _ h1
          _ = n * 2 ^ T := Nat.mul_comm _ _
      · have h1 := he2 (by omega)
        have hTv : T = 23 + (-e).toNat := by rw [hT, hEv]; omega
        rw [hTv, pow_add]
        calc 2 ^ 23 * d ≤ 2 ^ 23 * (n * 2 ^ (-e).toNat) := Nat.mul_le_mul_left _ h1
          _ = n * (2 ^ 23 * 2 ^ (-e).toNat) := by ring
  have hn0 : n ≠ 0 := by omega
  have hdm := Nat.div_add_mod (n * 2 ^ T) d
  have hmod := Nat.mod_lt (n * 2 ^ T) hd
  refine ⟨T, if 2 * ((n * 2 ^ T) % d) < d then (n * 2 ^ T) / d
      else if d < 2 * ((n * 2 ^ T) % d) then (n * 2 ^ T) / d + 1
      else if (n * 2 ^ T) / d % 2 = 0 then (n * 2 ^ T) / d else (n * 2 ^ T) / d + 1,
    ?_, hgrid, ?_, ?_, ?_⟩
  · unfold roundToFloat
    simp only [hn0, if_false, ← he, ← hEdef, hE, if_true, ← hT]
  · split_ifs <;> omega
  · set f := (n * 2 ^ T) / d with hf
    set r := (n * 2 ^ T) % d with hr
    have hfd : d * f + r = n * 2 ^ T := hdm
    have e1 : 2 * f * d = 2 * (d * f) := by ring
    have e2 : 2 * (f + 1) * d = 2 * (d * f) + 2 * d := by ring
    split_ifs <;> first | (rw [e1]; omega) | (rw [e2]; omega)
  · intro h0
    rw [h0] at hdm
    simp only [h0, Nat.mul_zero, hd, if_true]
    rw [Nat.mul_comm]
    omega

theorem roundToFloat_large (K : Nat) (h24 : 2 ^ 24 ≤ K) (h31 : K < 2 ^ 31) :
    ∃ c, roundToFloat K 1 = (c, 1) ∧ 2 ^ 24 ≤ c ∧ c ≤ 2 ^ 32 := by
  have hK : 0 < K := lt_of_lt_of_le (by norm_num) h24
  obtain ⟨hl1, hl2⟩ := floorLog2_spec K K hK le_rfl
  set a := floorLog2 K K with ha
  have ha24 : 24 ≤ a := by
    by_contra hlt
    have : a + 1 ≤ 24 := by omega
    have := Nat.pow_le_pow_right (by norm_num : 1 ≤ 2) this
    omega
  have ha30 : a ≤ 30 := by
    by_contra hgt
    have : 31 ≤ a := by omega
    have := Nat.pow_le_pow_right (by norm_num : 1 ≤ 2) this
    omega
  have h11 : floorLog2 1 1 = 0 := by decide
  have hexp : binaryExponent K 1 = (a : Int) := by
    unfold binaryExponent
    simp only [h11, ← ha]
    have h0 : (0 : Int) ≤ (a : Int) - ((0 : Nat) : Int) := by omega
    have ht : ((a : Int) - ((0 : Nat) : Int)).toNat = a := by omega
    have hc : 2 ^ ((a : Int) - ((0 : Nat) : Int)).toNat * 1 ≤ K := by rw [ht]; omega
    simp only [h0, if_true, hc]
    omega
  have hE : max (a : Int) (-126) = (a : Int) := max_eq_left (by omega)
  have hnot : ¬ ((a : Int) ≤ 23) := by omega
  have hsub : ((a : Int) - 23).toNat = a - 23 := by omega
  have hK0 : K ≠ 0 := by omega
  set B := 2 ^ (a - 23) with hB
  have hBpos : 0 < B := by positivity
  have hpow : 2 ^ 23 * B = 2 ^ a := by
    rw [hB, ← pow_add]; congr 1; omega
  have hB8 : B ≤ 2 ^ 7 := by
    rw [hB]; exact Nat.pow_le_pow_right (by norm_num) (by omega)
  have hdm := Nat.div_add_mod K B
  have hmod := Nat.mod_lt K hBpos
  have hf23 : 2 ^ 23 ≤ K / B := by
    rw [Nat.le_div_iff_mul_le hBpos, hpow]
    exact hl1
  refine ⟨(if 2 * (K % B) < B then K / B
      else if B < 2 * (K % B) then K / B + 1
      else if K / B % 2 = 0 then K / B else K / B + 1) * B, ?_, ?_, ?_⟩
  · unfold roundToFloat
    simp only [hK0, if_false, hexp, hE, hnot, hsub, ← hB, Nat.one_mul]
  · have hm : K / B ≤ (if 2 * (K % B) < B then K / B
        else if B < 2 * (K % B) then K / B + 1
        else if K / B % 2 = 0 then K / B else K / B + 1) := by
      split_ifs <;> omega
    have hpa : 2 ^ 24 ≤ 2 ^ a := Nat.pow_le_pow_right (by norm_num) ha24
    calc 2 ^ 24 ≤ 2 ^ a := hpa
      _ = 2 ^ 23 * B := hpow.symm
      _ ≤ K / B * B := Nat.mul_le_mul_right _ hf23
      _ ≤ _ := Nat.mul_le_mul_right _ hm
  · have hm : (if 2 * (K % B) < B then K / B
        else if B < 2 * (K % B) then K / B + 1
        else if K / B % 2 = 0 then K / B else K / B + 1) ≤ K / B + 1 := by
      split_ifs <;> omega
    have h1 : (K / B + 1) * B = B * (K / B) + B := by ring
    calc _ ≤ (K / B + 1) * B := Nat.mul_le_mul_right _ hm
      _ = B * (K / B) + B := h1
      _ ≤ 2 ^ 32 := by omega

theorem roundToFloat_value (n d : Nat) (hn : 0 < n) (hd : 0 < d) (hlt : n < 2 ^ 24 * d)
    (hge : d ≤ n * 2 ^ 126) :
    ∃ T m, roundToFloat n d = (m, 2 ^ T) ∧ 0 < m ∧
      (m : ℚ) / 2 ^ T ≤ (n : ℚ) / d * (1 + 1 / 2 ^ 24) ∧
      (n : ℚ) / d ≤ 2 * ((m : ℚ) / 2 ^ T) ∧
      ((n * 2 ^ T) % d = 0 → (m : ℚ) / 2 ^ T = (n : ℚ) / d) ∧
      ∀ M : Nat, M * d ≤ n → (M : ℚ) ≤ (m : ℚ) / 2 ^ T := by
  obtain ⟨T, m, hrt, hgrid, hfl, hup, hex⟩ := roundToFloat_normal n d hn hd hlt hge
  have hdq : (0 : ℚ) < d := by exact_mod_cast hd
  have hTq : (0 : ℚ) < (2 : ℚ) ^ T := by positivity
  have h23 : 2 ^ 23 ≤ (n * 2 ^ T) / d := by
    rw [Nat.le_div_iff_mul_le hd]; exact hgrid
  have hm : 0 < m := lt_of_lt_of_le (by positivity) (le_trans h23 hfl)
  have hlt2 : n * 2 ^ T < (m + 1) * d := by
    have := Nat.lt_succ_of_le hfl
    rwa [Nat.div_lt_iff_lt_mul hd] at this
  -- the same facts over the rationals
  have hgridq : (2 : ℚ) ^ 23 * d ≤ n * 2 ^ T := by exact_mod_cast hgrid
  have hupq : 2 * (m : ℚ) * d ≤ 2 * (n * 2 ^ T) + d := by exact_mod_cast hup
  have hlt2q : (n : ℚ) * 2 ^ T < (m + 1) * d := by exact_mod_cast hlt2
  have hmq : (1 : ℚ) ≤ m := by exact_mod_cast hm
  have hdm : (d : ℚ) ≤ m * d := le_mul_of_one_le_left hdq.le hmq
  have hkey : (m : ℚ) * d * 16777216 ≤ (n : ℚ) * 2 ^ T * 16777217 := by
    have h1 : (8388608 : ℚ) * d ≤ n * 2 ^ T := by
      have e : (2 : ℚ) ^ 23 = 8388608 := by norm_num
      rw [e] at hgridq; exact hgridq
    linarith
  have hhalf : (n : ℚ) * 2 ^ T ≤ 2 * m * d := by linarith
  refine ⟨T, m, hrt, hm, ?_, ?_, ?_, ?_⟩
  · have e : (n : ℚ) / d * (1 + 1 / 2 ^ 24) = ((n : ℚ) * 16777217) / (d * 16777216) := by
      field_simp
      ring
    rw [e, div_le_div_iff₀ hTq (by positivity)]
    linarith
  · have e : 2 * ((m : ℚ) / 2 ^ T) = (2 * m) / 2 ^ T := by ring
    rw [e, div_le_div_iff₀ hdq hTq]
    linarith
  · intro h0
    have := hex h0
    have hq : (m : ℚ) * d = n * 2 ^ T := by exact_mod_cast this
    rw [div_eq_div_iff (by positivity) (by positivity)]
    exact hq
  · intro M hM
    have h1 : M * 2 ^ T ≤ (n * 2 ^ T) / d := by
      rw [Nat.le_div_iff_mul_le hd]
      calc M * 2 ^ T * d = M * d * 2 ^ T := by ring
        _ ≤ n * 2 ^ T := Nat.mul_le_mul_right _ hM
    have h2 : M * 2 ^ T ≤ m := le_trans h1 hfl
    have h2q : (M : ℚ) * 2 ^ T ≤ m := by exact_mod_cast h2
    rw [le_div_iff₀ hTq]
    exact h2q

theorem roundToFloat_value_rat (n d : Nat) (hn : 0 < n) (hd : 0 < d)
    (hlt : (n : ℚ) / d < 2 ^ 24) (hge : 1 / 2 ^ 126 ≤ (n : ℚ) / d) :
    ∃ T m, roundToFloat n d = (m, 2 ^ T) ∧ 0 < m ∧
      (m : ℚ) / 2 ^ T ≤ (n : ℚ) / d * (1 + 1 / 2 ^ 24) ∧
      (n : ℚ) / d ≤ 2 * ((m : ℚ) / 2 ^ T) ∧
      ((n * 2 ^ T) % d = 0 → (m : ℚ) / 2 ^ T = (n : ℚ) / d) ∧
      ∀ M : Nat, (M : ℚ) ≤ (n : ℚ) / d → (M : ℚ) ≤ (m : ℚ) / 2 ^ T := by
  have hdq : (0 : ℚ) < d := by exact_mod_cast hd
  have h1 : n < 2 ^ 24 * d := by
    rw [div_lt_iff₀ hdq] at hlt
    exact_mod_cast hlt
  have h2 : d ≤ n * 2 ^ 126 := by
    rw [div_le_div_iff₀ (by positivity) hdq] at hge
    have : (d : ℚ) ≤ n * 2 ^ 126 := by linarith
    exact_mod_cast this
  obtain ⟨T, m, hrt, hm, hup, hhalf, hex, hmono⟩ := roundToFloat_value n d hn hd h1 h2
  refine ⟨T, m, hrt, hm, hup, hhalf, hex, ?_⟩
  intro M hM
  apply hmono
  rw [le_div_iff₀ hdq] at hM
  exact_mod_cast hM

theorem roundToFloat_zero (d : Nat) : roundToFloat 0 d = (0, 1) := by
  unfold roundToFloat
  simp

theorem roundToFloat_count (K : Nat) (hK : 0 < K) (h31 : K < 2 ^ 31) :
    ∃ c₁ c₂, roundToFloat K 1 = (c₁, c₂) ∧ 0 < c₁ ∧ 0 < c₂ ∧
      ((c₁ : ℚ) / c₂ = K ∨ (2 ^ 24 ≤ K ∧ (2 : ℚ) ^ 24 ≤ (c₁ : ℚ) / c₂)) ∧
      (c₁ : ℚ) / c₂ ≤ 2 ^ 32 := by
  have hKq : (1 : ℚ) ≤ K := by exact_mod_cast hK
  by_cases h24 : K < 2 ^ 24
  · have h24q : (K : ℚ) < 2 ^ 24 := by exact_mod_cast h24
    obtain ⟨T, m, hrt, hm, _, _, hex, _⟩ := roundToFloat_value_rat K 1 hK (by norm_num)
      (by simpa using h24q)
      (by
        have : (1 : ℚ) / 2 ^ 126 ≤ 1 := by norm_num
        simpa using le_trans this hKq)
    have hv : (m : ℚ) / 2 ^ T = K := by
      have := hex (Nat.mod_one _)
      simpa using this
    refine ⟨m, 2 ^ T, hrt, hm, by positivity, Or.inl (by push_cast; exact hv), ?_⟩
    push_cast
    rw [hv]
    have : (2 : ℚ) ^ 24 ≤ 2 ^ 32 := by norm_num
    linarith
  · obtain ⟨c, hrt, hc1, hc2⟩ := roundToFloat_large K (by omega) h31
    have hc1q : (2 : ℚ) ^ 24 ≤ c := by exact_mod_cast hc1
    have hc2q : (c : ℚ) ≤ 2 ^ 32 := by exact_mod_cast hc2
    refine ⟨c, 1, hrt, lt_of_lt_of_le (by norm_num) hc1, by norm_num,
      Or.inr ⟨by omega, by simpa using hc1q⟩, by simpa using hc2q⟩

theorem vc_tenth (A K : Nat) (hA : A < 2 ^ 23) (hK : 0 < K) (h31 : K < 2 ^ 31) :
    (roundToFloat
      (roundToFloat ((roundToFloat A 1).1 * (roundToFloat K 1).2)
        ((roundToFloat A 1).2 * (roundToFloat K 1).1)).1
      ((roundToFloat ((roundToFloat A 1).1 * (roundToFloat K 1).2)
        ((roundToFloat A 1).2 * (roundToFloat K 1).1)).2 * 10)).1 /
    (roundToFloat
      (roundToFloat ((roundToFloat A 1).1 * (roundToFloat K 1).2)
        ((roundToFloat A 1).2 * (roundToFloat K 1).1)).1
      ((roundToFloat ((roundToFloat A 1).1 * (roundToFloat K 1).2)
        ((roundToFloat A 1).2 * (roundToFloat K 1).1)).2 * 10)).2 = A / (10 * K) := by
  by_cases hA0 : A = 0
  · subst hA0
    simp [roundToFloat_zero]
  have hApos : 0 < A := Nat.pos_of_ne_zero hA0
  have hA1 : (1 : ℚ) ≤ A := by exact_mod_cast hApos
  have hA23 : (A : ℚ) ≤ 2 ^ 23 - 1 := by
    have : A + 1 ≤ 2 ^ 23 := hA
    have h : ((A + 1 : ℕ) : ℚ) ≤ ((2 ^ 23 : ℕ) : ℚ) := by exact_mod_cast this
    push_cast at h
    linarith
  -- the area is exact
  obtain ⟨Ta, ma, hra, hma, _, _, hexa, _⟩ := roundToFloat_value_rat A 1 hApos (by norm_num)
    (by
      have : (A : ℚ) < 2 ^ 24 := by
        have : (2 : ℚ) ^ 23 - 1 < 2 ^ 24 := by norm_num
        linarith
      simpa using this)
    (by
      have : (1 : ℚ) / 2 ^ 126 ≤ 1 := by norm_num
      simpa using le_trans this hA1)
  have hva : (ma : ℚ) / 2 ^ Ta = A := by
    have := hexa (Nat.mod_one _)
    simpa using this
  obtain ⟨c₁, c₂, hrc, hc₁, hc₂, hκ, hκ32⟩ := roundToFloat_count K hK h31
  have hc₁q : (0 : ℚ) < c₁ := by exact_mod_cast hc₁
  have hc₂q : (0 : ℚ) < c₂ := by exact_mod_cast hc₂
  have hTaq : (0 : ℚ) < 2 ^ Ta := by positivity
  have hK1 : (1 : ℚ) ≤ K := by exact_mod_cast hK
  have hκ1 : (1 : ℚ) ≤ (c₁ : ℚ) / c₂ := by
    rcases hκ with h | ⟨_, h⟩
    · rw [h]; exact hK1
    · have : (1 : ℚ) ≤ 2 ^ 24 := by norm_num
      linarith
  have hκpos : (0 : ℚ) < (c₁ : ℚ) / c₂ := by linarith
  -- the quotient per superpixel
  have hx : (((ma * c₂ : ℕ) : ℚ)) / ((2 ^ Ta * c₁ : ℕ) : ℚ) = (A : ℚ) / ((c₁ : ℚ) / c₂) := by
    rw [← hva]
    push_cast
    field_simp
  have hxκ : (A : ℚ) / ((c₁ : ℚ) / c₂) * ((c₁ : ℚ) / c₂) = A := by
    field_simp
  have hxle : (A : ℚ) / ((c₁ : ℚ) / c₂) ≤ A := by
    rw [div_le_iff₀ hκpos]
    nlinarith
  have hxge : (1 : ℚ) / 2 ^ 32 ≤ (A : ℚ) / ((c₁ : ℚ) / c₂) := by
    rw [le_div_iff₀ hκpos]
    have : (1 : ℚ) / 2 ^ 32 * ((c₁ : ℚ) / c₂) ≤ 1 / 2 ^ 32 * 2 ^ 32 := by
      apply mul_le_mul_of_nonneg_left hκ32
      norm_num
    have e : (1 : ℚ) / 2 ^ 32 * 2 ^ 32 = 1 := by norm_num
    linarith
  obtain ⟨T₁, m₁, hr₁, hm₁, hup₁, hhalf₁, _, hmono₁⟩ :=
    roundToFloat_value_rat (ma * c₂) (2 ^ Ta * c₁) (Nat.mul_pos hma hc₂)
      (Nat.mul_pos (by positivity) hc₁)
      (by
        rw [hx]
        have : (2 : ℚ) ^ 23 - 1 < 2 ^ 24 := by norm_num
        linarith)
      (by
        rw [hx]
        have : (1 : ℚ) / 2 ^ 126 ≤ 1 / 2 ^ 32 := by norm_num
        linarith)
  rw [hx] at hup₁ hhalf₁ hmono₁
  -- one tenth of it
  have hT₁q : (0 : ℚ) < 2 ^ T₁ := by positivity
  have hy : ((m₁ : ℕ) : ℚ) / ((2 ^ T₁ * 10 : ℕ) : ℚ) = (m₁ : ℚ) / 2 ^ T₁ / 10 := by
    push_cast
    field_simp
  obtain ⟨T₂, m₂, hr₂, hm₂, hup₂, _, _, hmono₂⟩ :=
    roundToFloat_value_rat m₁ (2 ^ T₁ * 10) hm₁ (by positivity)
      (by
        rw [hy]
        have e : (1 : ℚ) + 1 / 2 ^ 24 ≤ 2 := by norm_num
        have h1 : (A : ℚ) / ((c₁ : ℚ) / c₂) * (1 + 1 / 2 ^ 24) ≤ (2 ^ 23 - 1) * 2 :=
          mul_le_mul (by linarith) e (by norm_num) (by norm_num)
        have h2 : ((2 : ℚ) ^ 23 - 1) * 2 < 2 ^ 24 * 10 := by norm_num
        rw [div_lt_iff₀ (by norm_num)]
        linarith)
      (by
        rw [hy, le_div_iff₀ (by norm_num)]
        have : (1 : ℚ) / 2 ^ 126 * 10 ≤ 1 / 2 ^ 32 / 2 := by norm_num
        linarith)
  rw [hy] at hup₂ hmono₂
  have hT₂q : (0 : ℚ) < 2 ^ T₂ := by positivity
  -- the exact quotient
  have hq0 : 2 ^ 24 ≤ K → A / (10 * K) = 0 := by
    intro h
    apply Nat.div_eq_of_lt
    omega
  have hlowκ : ((10 * (A / (10 * K)) : ℕ) : ℚ) * ((c₁ : ℚ) / c₂) ≤ A := by
    rcases hκ with h | ⟨h, _⟩
    · rw [h]
      have : 10 * (A / (10 * K)) * K ≤ A := by
        have := Nat.div_mul_le_self A (10 * K)
        calc 10 * (A / (10 * K)) * K = A / (10 * K) * (10 * K) := by ring
          _ ≤ A := this
      exact_mod_cast this
    · rw [hq0 h]
      simp
  have hupκ : (A : ℚ) + 1 ≤ 10 * ((c₁ : ℚ) / c₂) * ((A / (10 * K) : ℕ) + 1) := by
    rcases hκ with h | ⟨h, h'⟩
    · rw [h]
      have : A + 1 ≤ 10 * K * (A / (10 * K) + 1) := by
        have := Nat.lt_mul_div_succ A (show 0 < 10 * K by omega)
        omega
      exact_mod_cast this
    · rw [hq0 h]
      have : (2 : ℚ) ^ 23 - 1 + 1 ≤ 10 * 2 ^ 24 := by norm_num
      simp only [Nat.cast_zero, zero_add, mul_one]
      linarith
  have hlow : ((A / (10 * K) : ℕ) : ℚ) ≤ (m₂ : ℚ) / 2 ^ T₂ := by
    apply hmono₂
    rw [le_div_iff₀ (by norm_num)]
    have h1 := hmono₁ (10 * (A / (10 * K))) (by
      rw [le_div_iff₀ hκpos]
      exact hlowκ)
    push_cast at h1
    linarith
  have hupp : (m₂ : ℚ) / 2 ^ T₂ < ((A / (10 * K) : ℕ) : ℚ) + 1 := by
    have hε : (0 : ℚ) ≤ 1 + 1 / 2 ^ 24 := by norm_num
    have h1 : (m₂ : ℚ) / 2 ^ T₂ * 10 ≤
        (A : ℚ) / ((c₁ : ℚ) / c₂) * (1 + 1 / 2 ^ 24) * (1 + 1 / 2 ^ 24) := by
      have := mul_le_mul_of_nonneg_right hup₁ hε
      have e : (m₁ : ℚ) / 2 ^ T₁ / 10 * (1 + 1 / 2 ^ 24) * 10 =
          (m₁ : ℚ) / 2 ^ T₁ * (1 + 1 / 2 ^ 24) := by ring
      linarith
    have h2 : (m₂ : ℚ) / 2 ^ T₂ * 10 * ((c₁ : ℚ) / c₂) ≤
        (A : ℚ) * ((1 + 1 / 2 ^ 24) * (1 + 1 / 2 ^ 24)) := by
      have := mul_le_mul_of_nonneg_right h1 hκpos.le
      have e : (A : ℚ) / ((c₁ : ℚ) / c₂) * (1 + 1 / 2 ^ 24) * (1 + 1 / 2 ^ 24) *
          ((c₁ : ℚ) / c₂) =
          (A : ℚ) / ((c₁ : ℚ) / c₂) * ((c₁ : ℚ) / c₂) *
            ((1 + 1 / 2 ^ 24) * (1 + 1 / 2 ^ 24)) := by ring
      rw [e, hxκ] at this
      exact this
    have h3 : (A : ℚ) * ((1 + 1 / 2 ^ 24) * (1 + 1 / 2 ^ 24)) < A + 1 := by
      have e : ((1 : ℚ) + 1 / 2 ^ 24) * (1 + 1 / 2 ^ 24) =
          281475010265089 / 281474976710656 := by norm_num
      have e' : (2 : ℚ) ^ 23 - 1 = 8388607 := by norm_num
      rw [e]
      rw [e'] at hA23
      linarith
    have h4 : (m₂ : ℚ) / 2 ^ T₂ * (10 * ((c₁ : ℚ) / c₂)) <
        (((A / (10 * K) : ℕ) : ℚ) + 1) * (10 * ((c₁ : ℚ) / c₂)) := by
      have e : (m₂ : ℚ) / 2 ^ T₂ * (10 * ((c₁ : ℚ) / c₂)) =
          (m₂ : ℚ) / 2 ^ T₂ * 10 * ((c₁ : ℚ) / c₂) := by ring
      have e' : (((A / (10 * K) : ℕ) : ℚ) + 1) * (10 * ((c₁ : ℚ) / c₂)) =
          10 * ((c₁ : ℚ) / c₂) * ((A / (10 * K) : ℕ) + 1) := by ring
      rw [e, e']
      linarith
    exact lt_of_mul_lt_mul_right h4 (by positivity)
  simp only [hra, hrc, hr₁, hr₂]
  apply Nat.div_eq_of_lt_le
  · rw [le_div_iff₀ hT₂q] at hlow
    exact_mod_cast hlow
  · rw [div_lt_iff₀ hT₂q] at hupp
    exact_mod_cast hupp

theorem vcSize_small (image : Image) (superpixels : Int) (hs : 0 < superpixels)
    (h31 : superpixels < 2 ^ 31) (hA : image.rows * image.cols < 2 ^ 23) :
    vcSize image superpixels =
      some (((image.rows * image.cols : Nat) : Int) / (10 * superpixels)) := by
  obtain ⟨K, rfl⟩ := Int.eq_ofNat_of_zero_le hs.le
  have hK : 0 < K := by exact_mod_cast hs
  have hK31 : K < 2 ^ 31 := by exact_mod_cast h31
  have h0 : ¬ (2 ^ 31 ≤ image.rows * image.cols ∨ (K : Int) = 0) := by
    rintro (h | h)
    · omega
    · omega
  unfold vcSize
  simp only [if_neg h0, if_pos hs, Int.natAbs_ofNat]
  rw [vc_tenth (image.rows * image.cols) K hA hK hK31]
  push_cast
  rfl

/-- C22: in vc_cli, for a superpixel count above 0 (an `int`, so below 2^31) and an image of
fewer than 2^23 pixels, the run passes the splitter and the bounded pass and then calls
enforceMinimumSuperpixelSize exactly once, with the threshold
`rows*cols / (10*superpixels)` in integer division, which is the floor of the exact quotient:
the three float roundings of `(float) (rows*cols)/superpixels/10` do not change the truncated
result. In particular the threshold is 0 whenever `rows*cols < 10*superpixels`. -/
theorem C22_vc_threshold (w : World) (a : Args) (f : String) (hh : a.help = false)
    (hi : a.input = some f) (hs : 0 < a.int "superpixels")
    (h31 : a.int "superpixels" < 2 ^ 31)
    (hA : (w.imread f).rows * (w.imread f).cols < 2 ^ 23) :
    vcSize (w.imread f) (a.int "superpixels") =
      some ((((w.imread f).rows * (w.imread f).cols : Nat) : Int) /
        (10 * a.int "superpixels")) ∧
    (vc_cli w a).outcome = .exit 0 ∧
    (vc_cli w a).enforcedSizes =
      [(((w.imread f).rows * (w.imread f).cols : Nat) : Int) / (10 * a.int "superpixels")] ∧
    (((w.imread f).rows * (w.imread f).cols : Nat) : Int) / (10 * a.int "superpixels") =
      ⌊((((w.imread f).rows * (w.imread f).cols : Nat) : Int) : ℚ) /
        (10 * (a.int "superpixels" : ℚ))⌋ ∧
    ((((w.imread f).rows * (w.imread f).cols : Nat) : Int) < 10 * a.int "superpixels" →
      (vc_cli w a).enforcedSizes = [0]) := by
  have hv := vcSize_small (w.imread f) (a.int "superpixels") hs h31 hA
  have hrun : (vc_cli w a).outcome = .exit 0 ∧ (vc_cli w a).enforcedSizes =
      [(((w.imread f).rows * (w.imread f).cols : Nat) : Int) / (10 * a.int "superpixels")] := by
    unfold vc_cli
    simp [hh, hi, hv, visualize, Run.enforcedSizes]
  refine ⟨hv, hrun.1, hrun.2, ?_, ?_⟩
  · obtain ⟨K, hK⟩ := Int.eq_ofNat_of_zero_le hs.le
    rw [hK]
    have := Rat.floor_intCast_div_natCast
      (((w.imread f).rows * (w.imread f).cols : Nat) : Int) (10 * K)
    push_cast at this ⊢
    exact this.symm
  · intro hlt
    rw [hrun.2, Int.ediv_eq_zero_of_lt (by positivity) hlt]

/-- C22 at a concrete run of vc_cli: on the 2x10 image with one superpixel requested, the
threshold passed to enforceMinimumSuperpixelSize is `20 / 10 = 2`. -/
theorem C22_vc_threshold_witness :
    0 < (sampleArgs.setInt "superpixels" 1).int "superpixels" ∧
    (wideWorld.imread "image.png").rows * (wideWorld.imread "image.png").cols < 2 ^ 23 ∧
    (vc_cli wideWorld (sampleArgs.setInt "superpixels" 1)).outcome = .exit 0 ∧
    (vc_cli wideWorld (sampleArgs.setInt "superpixels" 1)).enforcedSizes = [2] :=
  ⟨by decide, by decide,
    (C22_vc_threshold wideWorld (sampleArgs.setInt "superpixels" 1) "image.png" rfl rfl
      (by decide) (by decide) (by decide)).2.1,
    (C22_vc_threshold wideWorld (sampleArgs.setInt "superpixels" 1) "image.png" rfl rfl
      (by decide) (by decide) (by decide)).2.2.1⟩

theorem mapM_some_of_forall {α β : Type} (f : α → Option β) (g : α → β) (l : List α)
    (h : ∀ x ∈ l, f x = some (g x)) : l.mapM f = some (l.map g) := by
  induction l with
  | nil => rfl
  | cons x xs ih =>
    have hx := h x (List.mem_cons_self x xs)
    have hxs := ih (fun y hy => h y (List.mem_cons_of_mem x hy))
    rw [List.mapM_cons, hx, hxs]
    rfl

theorem flat_index_lt (rows cols i j : Nat) (hi : i < rows) (hj : j < cols) :
    j + cols * i < rows * cols := by
  have h1 : cols * (i + 1) ≤ cols * rows := Nat.mul_le_mul_left cols hi
  have h2 : cols * (i + 1) = cols * i + cols := by ring
  have h3 : cols * rows = rows * cols := Nat.mul_comm cols rows
  omega

theorem flat_index_inj (cols i j i' j' : Nat) (hj : j < cols) (hj' : j' < cols)
    (h : j + cols * i = j' + cols * i') : i = i' ∧ j = j' := by
  have hc : 0 < cols := by omega
  have e1 : (j + cols * i) / cols = i := by
    rw [Nat.add_mul_div_left _ _ hc, Nat.div_eq_of_lt hj, Nat.zero_add]
  have e2 : (j' + cols * i') / cols = i' := by
    rw [Nat.add_mul_div_left _ _ hc, Nat.div_eq_of_lt hj', Nat.zero_add]
  have hii : i = i' := by rw [← e1, ← e2, h]
  subst hii
  exact ⟨rfl, by omega⟩

theorem flat_index_surj (rows cols k : Nat) (hk : k < rows * cols) :
    ∃ i j, i < rows ∧ j < cols ∧ j + cols * i = k := by
  have hc : 0 < cols := by
    rcases Nat.eq_zero_or_pos cols with h | h
    · subst h; simp at hk
    · exact h
  refine ⟨k / cols, k % cols, ?_, Nat.mod_lt k hc, Nat.mod_add_div k cols⟩
  exact Nat.div_lt_of_lt_mul (by rwa [Nat.mul_comm] at hk)

theorem copyFlatLabels_spec (rows cols : Nat) (buf : List Int)
    (hlen : rows * cols ≤ buf.length) :
    ∃ L, copyFlatLabels rows cols buf = some L ∧ L.rows = rows ∧ L.cols = cols ∧
      ∀ i j, i < rows → j < cols → buf[j + cols * i]? = some (L.get (i, j)) := by
  have hread : ∀ k ∈ List.range (rows * cols),
      buf[(k % cols) + cols * (k / cols)]? = some (buf.getD k 0) := by
    intro k hk
    have hk : k < rows * cols := List.mem_range.mp hk
    have hkl : k < buf.length := lt_of_lt_of_le hk hlen
    rw [Nat.mod_add_div, List.getElem?_eq_getElem hkl, List.getD_eq_getElem _ _ hkl]
  refine ⟨⟨rows, cols, (List.range (rows * cols)).map (fun k => buf.getD k 0)⟩, ?_, rfl, rfl,
    ?_⟩
  · unfold copyFlatLabels
    rw [mapM_some_of_forall _ _ _ hread]
    rfl
  · intro i j hi hj
    have hk : j + cols * i < rows * cols := flat_index_lt rows cols i j hi hj
    have hkl : j + cols * i < buf.length := lt_of_lt_of_le hk hlen
    have hidx : i * cols + j = j + cols * i := by ring
    simp only [LabelMap.get, hidx]
    rw [List.getElem?_eq_getElem hkl, List.getD_eq_getElem?_getD,
      List.getElem?_map, List.getElem?_range hk]
    simp [List.getD_eq_getElem?_getD, List.getElem?_eq_getElem hkl]

theorem copyRowLabels_spec (rows cols : Nat) (labeling : List (List Int))
    (hrows : ∀ i, i < rows → ∃ row, labeling[i]? = some row ∧ cols ≤ row.length) :
    ∃ L, copyRowLabels rows cols labeling = some L ∧ L.rows = rows ∧ L.cols = cols ∧
      ∀ i j, i < rows → j < cols →
        (labeling[i]?).bind (fun row => row[j]?) = some (L.get (i, j)) := by
  have hread : ∀ k ∈ List.range (rows * cols),
      (labeling[k / cols]?).bind (fun row => row[k % cols]?) =
        some ((labeling.getD (k / cols) []).getD (k % cols) 0) := by
    intro k hk
    have hk : k < rows * cols := List.mem_range.mp hk
    have hc : 0 < cols := by
      rcases Nat.eq_zero_or_pos cols with h | h
      · subst h; simp at hk
      · exact h
    have hi : k / cols < rows := Nat.div_lt_of_lt_mul (by rwa [Nat.mul_comm] at hk)
    obtain ⟨row, hrow, hlen⟩ := hrows _ hi
    have hj : k % cols < row.length := lt_of_lt_of_le (Nat.mod_lt k hc) hlen
    simp [hrow, List.getD_eq_getElem?_getD, List.getElem?_eq_getElem hj]
  refine ⟨⟨rows, cols, (List.range (rows * cols)).map
    (fun k => (labeling.getD (k / cols) []).getD (k % cols) 0)⟩, ?_, rfl, rfl, ?_⟩
  · unfold copyRowLabels
    rw [mapM_some_of_forall _ _ _ hread]
    rfl
  · intro i j hi hj
    have hk : j + cols * i < rows * cols := flat_index_lt rows cols i j hi hj
    have hc : 0 < cols := by omega
    have hidx : i * cols + j = j + cols * i := by ring
    have hdiv : (j + cols * i) / cols = i := by
      rw [Nat.add_mul_div_left _ _ hc, Nat.div_eq_of_lt hj, Nat.zero_add]
    have hmod : (j + cols * i) % cols = j := by
      rw [Nat.add_mul_mod_self_left, Nat.mod_eq_of_lt hj]
    obtain ⟨row, hrow, hlen⟩ := hrows _ hi
    have hjl : j < row.length := lt_of_lt_of_le hj hlen
    simp only [LabelMap.get, hidx]
    rw [List.getD_eq_getElem?_getD, List.getElem?_map, List.getElem?_range hk]
    simp [hdiv, hmod, hrow, List.getD_eq_getElem?_getD, List.getElem?_eq_getElem hjl]

theorem copyLevelLabels_spec (rows cols : Nat) (buffers : List (List Int)) (levels : Int)
    (buf : List Int) (hlevels : 1 ≤ levels)
    (hbuf : buffers[(levels - 1).toNat]? = some buf) (hlen : rows * cols ≤ buf.length) :
    ∃ L, copyLevelLabels rows cols buffers (levels - 1) = some L ∧ L.rows = rows ∧
      L.cols = cols ∧
      ∀ i j, i < rows → j < cols → buf[j + cols * i]? = some (L.get (i, j)) := by
  obtain ⟨L, hL, hr, hc, hget⟩ := copyFlatLabels_spec rows cols buf hlen
  refine ⟨L, ?_, hr, hc, hget⟩
  unfold copyLevelLabels
  have : ¬ (levels - 1 < 0) := by omega
  rw [if_neg this, hbuf]
  exact hL

theorem seeds_cli_copy (w : World) (a : Args) (f : String) (plan : Int × Int × Int)
    (ev : List Event) (buf : List Int)
    (hh : a.help = false) (hi : a.input = some f)
    (hcs : ¬ (a.int "color-space" < 0 ∨ a.int "color-space" > 2))
    (hp : planLevels w a (w.imread f) (a.int "superpixels") [.imread f] = .ok (plan, ev))
    (hlevels : 1 ≤ plan.2.2)
    (hbuf : (w.seedsLabels (w.imread f)
      [.int (a.int "bins"), .int 0, .real (a.real "confidence"),
        .bool (decide (a.int "prior" > 0)), .bool (decide (a.int "means" > 0)),
        .int (a.int "color-space"), .int plan.2.1, .int plan.1, .int plan.2.2,
        .int (a.int "iterations")])[(plan.2.2 - 1).toNat]? = some buf)
    (hlen : (w.imread f).rows * (w.imread f).cols ≤ buf.length) :
    (seeds_cli w a).outcome = .exit 0 ∧
    ∃ L, (seeds_cli w a).labelCalls = [.relabelConnectedSuperpixels L] ∧
      L.rows = (w.imread f).rows ∧ L.cols = (w.imread f).cols ∧
      ∀ i j, i < (w.imread f).rows → j < (w.imread f).cols →
        buf[j + (w.imread f).cols * i]? = some (L.get (i, j)) := by
  obtain ⟨L, hL, hr, hc, hget⟩ := copyLevelLabels_spec _ _ _ _ _ hlevels hbuf hlen
  obtain ⟨rh, rw, lv⟩ := plan
  have hrun : seeds_cli w a = visualize w a (w.imread f) (w.relabelConnectedSuperpixels L).1
      (ev ++ [.segment "SEEDS" (w.imread f)
        [.int (a.int "bins"), .int 0, .real (a.real "confidence"),
          .bool (decide (a.int "prior" > 0)), .bool (decide (a.int "means" > 0)),
          .int (a.int "color-space"), .int rw, .int rh, .int lv,
          .int (a.int "iterations")]] ++ [.relabelConnectedSuperpixels L]) := by
    unfold seeds_cli
    simp only [hh, hi, hcs, hp, Bool.false_eq_true, if_false]
    simp only [] at hL
    rw [hL]
  refine ⟨by rw [hrun]; rfl, L, ?_, hr, hc, hget⟩
  rw [hrun]
  obtain ⟨_, r, lv', hr', hplan, hev'⟩ | ⟨hf, _, hev'⟩ := planLevels_ok _ _ _ _ _ _ _ hp <;>
    simp [visualize, Run.labelCalls, hev', Event.changesLabels]

theorem reseeds_cli_copy (w : World) (a : Args) (f : String) (plan : Int × Int × Int)
    (ev : List Event)
    (hh : a.help = false) (hi : a.input = some f)
    (hcs : ¬ (a.int "color-space" < 0 ∨ a.int "color-space" > 2))
    (hp : planLevels w a (w.imread f) (a.int "superpixels") [.imread f] = .ok (plan, ev))
    (hrows : ∀ i, i < (w.imread f).rows →
      ∃ row, (w.seedsLabels (w.imread f)
        [.int plan.2.2, .int plan.2.1, .int plan.1, .int (a.int "bins"),
          .int (a.int "neighborhood"), .real (a.real "confidence"),
          .real (a.real "spatial-weight"), .int (a.int "color-space"),
          .int (a.int "iterations")])[i]? = some row ∧ (w.imread f).cols ≤ row.length) :
    (reseeds_cli w a).outcome = .exit 0 ∧
    ∃ L, (reseeds_cli w a).labelCalls = [.relabelConnectedSuperpixels L] ∧
      L.rows = (w.imread f).rows ∧ L.cols = (w.imread f).cols ∧
      ∀ i j, i < (w.imread f).rows → j < (w.imread f).cols →
        ((w.seedsLabels (w.imread f)
          [.int plan.2.2, .int plan.2.1, .int plan.1, .int (a.int "bins"),
            .int (a.int "neighborhood"), .real (a.real "confidence"),
            .real (a.real "spatial-weight"), .int (a.int "color-space"),
            .int (a.int "iterations")])[i]?).bind (fun row => row[j]?) =
          some (L.get (i, j)) := by
  obtain ⟨L, hL, hr, hc, hget⟩ := copyRowLabels_spec _ _ _ hrows
  obtain ⟨rh, rw, lv⟩ := plan
  have hrun : reseeds_cli w a = visualize w a (w.imread f) (w.relabelConnectedSuperpixels L).1
      (ev ++ [.segment "SEEDSRevisedMeanPixels" (w.imread f)
        [.int lv, .int rw, .int rh, .int (a.int "bins"),
          .int (a.int "neighborhood"), .real (a.real "confidence"),
          .real (a.real "spatial-weight"), .int (a.int "color-space"),
          .int (a.int "iterations")]] ++ [.relabelConnectedSuperpixels L]) := by
    unfold reseeds_cli
    simp only [hh, hi, hcs, hp, Bool.false_eq_true, if_false]
    simp only [] at hL
    rw [hL]
  refine ⟨by rw [hrun]; rfl, L, ?_, hr, hc, hget⟩
  rw [hrun]
  obtain ⟨_, r, lv', hr', hplan, hev'⟩ | ⟨hf, _, hev'⟩ := planLevels_ok _ _ _ _ _ _ _ hp <;>
    simp [visualize, Run.labelCalls, hev', Event.changesLabels]

set_option maxRecDepth 100000 in
/-- C23: for a `rows x cols` image the flat index `j + cols * i` of pixel `(i, j)` lies
below `rows * cols`, distinct pixels have distinct indices and every index below
`rows * cols` belongs to a pixel.  In seeds_cli, when `levels ≥ 1` and
`seeds.labels[levels - 1]` holds at least `rows * cols` entries, the copy loop succeeds, the
run completes, and the one label map handed to relabelConnectedSuperpixels has the image's
rows and columns and carries `seeds.labels[levels - 1][j + cols * i]` at every pixel
`(i, j)`; in reseeds_cli, when `labeling` has at least `rows` rows of at least `cols`
entries, the same holds with `labeling[i][j]`. -/
theorem C23_copy_loops :
    (∀ rows cols i j : Nat, i < rows → j < cols → j + cols * i < rows * cols) ∧
    (∀ rows cols i j i' j' : Nat, i < rows → j < cols → i' < rows → j' < cols →
      j + cols * i = j' + cols * i' → i = i' ∧ j = j') ∧
    (∀ rows cols k : Nat, k < rows * cols →
      ∃ i j, i < rows ∧ j < cols ∧ j + cols * i = k) ∧
    (∀ (w : World) (a : Args) (f : String) (plan : Int × Int × Int) (ev : List Event)
      (buf : List Int),
      a.help = false → a.input = some f →
      ¬ (a.int "color-space" < 0 ∨ a.int "color-space" > 2) →
      planLevels w a (w.imread f) (a.int "superpixels") [.imread f] = .ok (plan, ev) →
      1 ≤ plan.2.2 →
      (w.seedsLabels (w.imread f)
        [.int (a.int "bins"), .int 0, .real (a.real "confidence"),
          .bool (decide (a.int "prior" > 0)), .bool (decide (a.int "means" > 0)),
          .int (a.int "color-space"), .int plan.2.1, .int plan.1, .int plan.2.2,
          .int (a.int "iterations")])[(plan.2.2 - 1).toNat]? = some buf →
      (w.imread f).rows * (w.imread f).cols ≤ buf.length →
      (seeds_cli w a).outcome = .exit 0 ∧
      ∃ L, (seeds_cli w a).labelCalls = [.relabelConnectedSuperpixels L] ∧
        L.rows = (w.imread f).rows ∧ L.cols = (w.imread f).cols ∧
        ∀ i j, i < (w.imread f).rows → j < (w.imread f).cols →
          buf[j + (w.imread f).cols * i]? = some (L.get (i, j))) ∧
    (∀ (w : World) (a : Args) (f : String) (plan : Int × Int × Int) (ev : List Event),
      a.help = false → a.input = some f →
      ¬ (a.int "color-space" < 0 ∨ a.int "color-space" > 2) →
      planLevels w a (w.imread f) (a.int "superpixels") [.imread f] = .ok (plan, ev) →
      (∀ i, i < (w.imread f).rows →
        ∃ row, (w.seedsLabels (w.imread f)
          [.int plan.2.2, .int plan.2.1, .int plan.1, .int (a.int "bins"),
            .int (a.int "neighborhood"), .real (a.real "confidence"),
            .real (a.real "spatial-weight"), .int (a.int "color-space"),
            .int (a.int "iterations")])[i]? = some row ∧ (w.imread f).cols ≤ row.length) →
      (reseeds_cli w a).outcome = .exit 0 ∧
      ∃ L, (reseeds_cli w a).labelCalls = [.relabelConnectedSuperpixels L] ∧
        L.rows = (w.imread f).rows ∧ L.cols = (w.imread f).cols ∧
        ∀ i j, i < (w.imread f).rows → j < (w.imread f).cols →
          ((w.seedsLabels (w.imread f)
            [.int plan.2.2, .int plan.2.1, .int plan.1, .int (a.int "bins"),
              .int (a.int "neighborhood"), .real (a.real "confidence"),
              .real (a.real "spatial-weight"), .int (a.int "color-space"),
              .int (a.int "iterations")])[i]?).bind (fun row => row[j]?) =
            some (L.get (i, j))) ∧
    (seeds_cli sampleWorld sampleArgs).labelCalls =
      [.relabelConnectedSuperpixels ⟨1, 3, [5, 9, 9]⟩] ∧
    (reseeds_cli sampleWorld sampleArgs).labelCalls =
      [.relabelConnectedSuperpixels ⟨1, 3, [5, 9, 9]⟩] := by
  refine ⟨flat_index_lt, ?_, flat_index_surj, ?_, ?_, by decide, by decide⟩
  · intro rows cols i j i' j' _ hj _ hj' h
    exact flat_index_inj cols i j i' j' hj hj' h
  · intro w a f plan ev buf hh hi hcs hp hlevels hbuf hlen
    exact seeds_cli_copy w a f plan ev buf hh hi hcs hp hlevels hbuf hlen
  · intro w a f plan ev hh hi hcs hp hrows
    exact reseeds_cli_copy w a f plan ev hh hi hcs hp hrows

end SuperpixelBenchmark
